import Mathlib

/-!
# Tic-tac-toe: board model, win/draw predicates and the three move policies

A shallow embedding of `ConsoleApplication16.cpp`.  The C++ `char board[3][3]`
becomes a function `Fin 3 → Fin 3 → Char`; in-place writes to the board become
explicit state passing; `rand()` becomes a stream of naturals that is threaded
through every call that may consume a value.
-/

namespace TicTacToe

/-! ## Data model -/

inductive Difficulty
  | EASY
  | MEDIUM
  | HARD
  deriving DecidableEq

inductive GameMode
  | HUMAN_VS_HUMAN
  | HUMAN_VS_AI
  deriving DecidableEq

/-- The grid `char board[3][3]`, indexed `board[row][col]`. -/
abbrev Board := Fin 3 → Fin 3 → Char

/-- Mirror of `struct GameState`. -/
structure GameState where
  board : Board
  playerXWins : Int
  playerOWins : Int
  draws : Int
  gameEnded : Bool
  currentPlayer : Int

/-- The assignment `state.board[row][col] = v`. -/
def GameState.setCell (state : GameState) (row col : Fin 3) (v : Char) : GameState :=
  { state with board := fun r c => if r = row ∧ c = col then v else state.board r c }

/-- C library `isdigit` on a `char`. -/
def isdigit (c : Char) : Bool := c.isDigit

/-- Loop counter values of `for (int i = 0; i < 3; i++)`. -/
def idx3 : List (Fin 3) := [0, 1, 2]

/-- Loop counter values of `for (int i = 0; i < 9; i++)`. -/
def idx9 : List (Fin 9) := [0, 1, 2, 3, 4, 5, 6, 7, 8]

/-- The expression `row = i / 3`. -/
def rowOf (i : Fin 9) : Fin 3 := ⟨i.val / 3, by have := i.isLt; omega⟩

/-- The expression `col = i % 3`. -/
def colOf (i : Fin 9) : Fin 3 := ⟨i.val % 3, by omega⟩

/-- The value `i + 1` returned for loop counter `i`. -/
def posOf (i : Fin 9) : Int := (i.val : Int) + 1

/-- A cell is Empty when it still holds its digit label. -/
def emptyAt (state : GameState) (i : Fin 9) : Bool :=
  isdigit (state.board (rowOf i) (colOf i))

/-! ## Rules: `checkWin`, `checkDraw` -/

/-- The `for` loop of `checkWin`: row `i`, then column `i`, returning early. -/
def checkWin.loop (state : GameState) (player : Char) : List (Fin 3) → Bool
  | [] => false
  | i :: rest =>
    if state.board i 0 = player ∧ state.board i 1 = player ∧ state.board i 2 = player then true
    else if state.board 0 i = player ∧ state.board 1 i = player ∧ state.board 2 i = player then true
    else checkWin.loop state player rest

def checkWin (state : GameState) (player : Char) : Bool :=
  if checkWin.loop state player idx3 then true
  else
    decide (state.board 0 0 = player ∧ state.board 1 1 = player ∧ state.board 2 2 = player) ||
    decide (state.board 0 2 = player ∧ state.board 1 1 = player ∧ state.board 2 0 = player)

/-- The inner `for j` loop of `checkDraw`; `true` means a digit was met. -/
def checkDraw.inner (state : GameState) (i : Fin 3) : List (Fin 3) → Bool
  | [] => false
  | j :: rest => if isdigit (state.board i j) then true else checkDraw.inner state i rest

/-- The outer `for i` loop of `checkDraw`; `true` means a digit was met. -/
def checkDraw.outer (state : GameState) : List (Fin 3) → Bool
  | [] => false
  | i :: rest => if checkDraw.inner state i idx3 then true else checkDraw.outer state rest

def checkDraw (state : GameState) : Bool :=
  if checkDraw.outer state idx3 then false else true

/-! ## The random source -/

/-- The successive values that `rand()` is going to return. -/
abbrev Rand := Nat → Nat

/-- One call of `rand()`: the value and the advanced source. -/
def rand (g : Rand) : Nat × Rand := (g 0, fun n => g (n + 1))

/-! ## Move policies -/

/-- The `available` vector built by `EasyAI::getMove`. -/
def EasyAI.available (state : GameState) : List (Fin 9) → List Int
  | [] => []
  | i :: rest =>
    if isdigit (state.board (rowOf i) (colOf i)) then posOf i :: EasyAI.available state rest
    else EasyAI.available state rest

/-- Model of `EasyAI::getMove`: the move, the state afterwards and the advanced random source. -/
def EasyAI.getMove (state : GameState) (g : Rand) : Int × GameState × Rand :=
  let available := EasyAI.available state idx9
  if h : available = [] then (-1, state, g)
  else
    let r := rand g
    (available.get ⟨r.1 % available.length, Nat.mod_lt _ (List.length_pos.mpr h)⟩, state, r.2)

/-- Either scanning loop of `MediumAI::getMove`: try `mark` in every Empty cell, restore the
cell, and return early with `i + 1` when the trial wins for `mark`. -/
def MediumAI.scan (mark : Char) : List (Fin 9) → GameState → Option Int × GameState
  | [], state => (none, state)
  | i :: rest, state =>
    let row := rowOf i
    let col := colOf i
    if isdigit (state.board row col) then
      let original := state.board row col
      let state1 := state.setCell row col mark
      if checkWin state1 mark then (some (posOf i), state1.setCell row col original)
      else MediumAI.scan mark rest (state1.setCell row col original)
    else MediumAI.scan mark rest state

def MediumAI.getMove (state : GameState) (g : Rand) : Int × GameState × Rand :=
  match MediumAI.scan 'O' idx9 state with
  | (some m, state1) => (m, state1, g)
  | (none, state1) =>
    match MediumAI.scan 'X' idx9 state1 with
    | (some m, state2) => (m, state2, g)
    | (none, state2) => EasyAI.getMove state2 g

def HardAI.evaluate (state : GameState) : Int :=
  if checkWin state 'O' then 1
  else if checkWin state 'X' then -1
  else 0

/-- The `for` loop of `HardAI::minimax` on its local copy of the state; `recur` stands for the
recursive call `minimax(state, depth + 1, !isMaximizing)`. -/
def HardAI.minimax.loop (recur : GameState → Int) (isMaximizing : Bool) :
    List (Fin 9) → GameState → Int → Int
  | [], _, best => best
  | i :: rest, state, best =>
    let row := rowOf i
    let col := colOf i
    if isdigit (state.board row col) then
      let original := state.board row col
      let state1 := state.setCell row col (if isMaximizing then 'O' else 'X')
      let current := recur state1
      let state2 := state1.setCell row col original
      HardAI.minimax.loop recur isMaximizing rest state2
        (if isMaximizing then max best current else min best current)
    else HardAI.minimax.loop recur isMaximizing rest state best

/-- Body of `HardAI::minimax`, by recursion on a bound for the remaining call depth.  Every call
fills one Empty cell, so a bound above the number of Empty cells is never exhausted
(`minimaxN_fuel`, `minimax_unfold`). -/
def HardAI.minimaxN : Nat → GameState → Nat → Bool → Int
  | 0, _, _, _ => 0
  | fuel + 1, state, depth, isMaximizing =>
    let score := HardAI.evaluate state
    if score ≠ 0 then score
    else if checkDraw state then 0
    else
      HardAI.minimax.loop (fun s => HardAI.minimaxN fuel s (depth + 1) (!isMaximizing))
        isMaximizing idx9 state (if isMaximizing then -1000 else 1000)

/-- Model of `HardAI::minimax`: a board has nine cells, so ten nested calls are never exceeded. -/
def HardAI.minimax (state : GameState) (depth : Nat) (isMaximizing : Bool) : Int :=
  HardAI.minimaxN 10 state depth isMaximizing

/-- The `for` loop of `HardAI::getMove`, carrying `bestVal` and `bestMove`. -/
def HardAI.getMove.loop : List (Fin 9) → GameState → Int → Int → Int × GameState
  | [], state, _, bestMove => (bestMove, state)
  | i :: rest, state, bestVal, bestMove =>
    let row := rowOf i
    let col := colOf i
    if isdigit (state.board row col) then
      let original := state.board row col
      let state1 := state.setCell row col 'O'
      let moveVal := HardAI.minimax state1 0 false
      let state2 := state1.setCell row col original
      if moveVal > bestVal then HardAI.getMove.loop rest state2 moveVal (posOf i)
      else HardAI.getMove.loop rest state2 bestVal bestMove
    else HardAI.getMove.loop rest state bestVal bestMove

def HardAI.getMove (state : GameState) (g : Rand) : Int × GameState × Rand :=
  let r := HardAI.getMove.loop idx9 state (-1000) (-1)
  (r.1, r.2, g)

/-- Virtual dispatch `ai->getMove(state)` over the three subclasses of `AI`. -/
def AI.getMove : Difficulty → GameState → Rand → Int × GameState × Rand
  | .EASY => EasyAI.getMove
  | .MEDIUM => MediumAI.getMove
  | .HARD => HardAI.getMove

/-! ## The round controller -/

/-- The inner `for j` loop of `initializeBoard`, carrying the running label `num`. -/
def initializeBoard.inner (i : Fin 3) : List (Fin 3) → GameState × Char → GameState × Char
  | [], p => p
  | j :: rest, (state, num) =>
    initializeBoard.inner i rest (state.setCell i j num, Char.ofNat (num.toNat + 1))

/-- The outer `for i` loop of `initializeBoard`. -/
def initializeBoard.outer : List (Fin 3) → GameState × Char → GameState × Char
  | [], p => p
  | i :: rest, p => initializeBoard.outer rest (initializeBoard.inner i idx3 p)

def initializeBoard (state : GameState) : GameState :=
  (initializeBoard.outer idx3 (state, '1')).1

/-- The expression `(move - 1) / 3` as a row index, for a position in `1..9`. -/
def rowOfPos (p : Int) (_h : 1 ≤ p ∧ p ≤ 9) : Fin 3 := ⟨((p - 1) / 3).toNat, by omega⟩

/-- The expression `(move - 1) % 3` as a column index, for a position in `1..9`. -/
def colOfPos (p : Int) (_h : 1 ≤ p ∧ p ≤ 9) : Fin 3 := ⟨((p - 1) % 3).toNat, by omega⟩

/-- The mark of the player to move: `state.currentPlayer == 0 ? 'X' : 'O'`. -/
def currentMark (state : GameState) : Char := if state.currentPlayer = 0 then 'X' else 'O'

/-- The human-move `do … while (true)` loop.  Each element of the input is one extraction
`cin >> choice`: `none` when the extraction fails, `some n` when it reads the integer `n`.
Returns the state after the accepted move and the unread input, or `none` when the input runs
out before a legal move is read (the program keeps prompting). -/
def humanMove (state : GameState) : List (Option Int) → Option (GameState × List (Option Int))
  | [] => none
  | none :: rest => humanMove state rest
  | some choice :: rest =>
    if h : 1 ≤ choice ∧ choice ≤ 9 then
      let row := rowOfPos choice h
      let col := colOfPos choice h
      if isdigit (state.board row col) then
        some (state.setCell row col (currentMark state), rest)
      else humanMove state rest
    else humanMove state rest

/-- The win / draw / flip-turn block that ends every iteration of the `while` loop of
`playRound`.  The tallies are C `int`s; they are modelled as unbounded integers. -/
def conclude (state : GameState) : GameState :=
  if checkWin state (currentMark state) then
    if state.currentPlayer = 0 then
      { state with playerXWins := state.playerXWins + 1, gameEnded := true }
    else
      { state with playerOWins := state.playerOWins + 1, gameEnded := true }
  else if checkDraw state then
    { state with draws := state.draws + 1, gameEnded := true }
  else
    { state with currentPlayer := Int.tmod (state.currentPlayer + 1) 2 }

/-- Ways in which the model of `playRound` yields no final state. -/
inductive Stuck
  | noInput
  | outOfBounds
  | tooLong
  deriving DecidableEq

/-- What one iteration of the `while` loop of `playRound` does. -/
inductive Iter
  | next (state : GameState) (inputs : List (Option Int)) (g : Rand)
  | broke (state : GameState)
  | stuck (e : Stuck)

/-- One iteration of the `while` loop of `playRound`: the computer's or the human's move, then
`conclude`.  `broke` is the `if (move == -1) break;` exit; a returned position outside `1..9`
other than `-1` would index outside the board and is reported as `outOfBounds`. -/
def playRound.body (mode : GameMode) (difficulty : Difficulty) (state : GameState)
    (inputs : List (Option Int)) (g : Rand) : Iter :=
  if mode = GameMode.HUMAN_VS_AI ∧ state.currentPlayer = 1 then
    match AI.getMove difficulty state g with
    | (move, state1, g1) =>
      if move = -1 then Iter.broke state1
      else if h : 1 ≤ move ∧ move ≤ 9 then
        Iter.next (conclude (state1.setCell (rowOfPos move h) (colOfPos move h) 'O')) inputs g1
      else Iter.stuck Stuck.outOfBounds
  else
    match humanMove state inputs with
    | none => Iter.stuck Stuck.noInput
    | some (state1, rest) => Iter.next (conclude state1) rest g

/-- The `while (!state.gameEnded)` loop of `playRound`, for at most `n` iterations. -/
def playRound.loop (mode : GameMode) (difficulty : Difficulty) :
    Nat → GameState → List (Option Int) → Rand → Except Stuck GameState
  | 0, state, _, _ => if state.gameEnded then Except.ok state else Except.error Stuck.tooLong
  | n + 1, state, inputs, g =>
    if state.gameEnded then Except.ok state
    else
      match playRound.body mode difficulty state inputs g with
      | Iter.next state1 inputs1 g1 => playRound.loop mode difficulty n state1 inputs1 g1
      | Iter.broke state1 => Except.ok state1
      | Iter.stuck e => Except.error e

/-- The state with which the `while` loop of `playRound` is entered. -/
def playRound.start (state : GameState) : GameState :=
  { initializeBoard state with currentPlayer := 0, gameEnded := false }

/-- Model of `playRound`.  Every iteration fills one of the nine cells, so nine iterations are
never exceeded. -/
def playRound (state : GameState) (difficulty : Difficulty) (mode : GameMode)
    (inputs : List (Option Int)) (g : Rand) : Except Stuck GameState :=
  playRound.loop mode difficulty 9 (playRound.start state) inputs g

/-- The states at the head of the `while` loop that a round started from `state0` can reach,
for any input and any random source. -/
inductive Reachable (mode : GameMode) (difficulty : Difficulty) (state0 : GameState) :
    GameState → Prop
  | start : Reachable mode difficulty state0 (playRound.start state0)
  | step (s s1 : GameState) (inputs inputs1 : List (Option Int)) (g g1 : Rand) :
      Reachable mode difficulty state0 s → s.gameEnded = false →
      playRound.body mode difficulty s inputs g = Iter.next s1 inputs1 g1 →
      Reachable mode difficulty state0 s1

/-! ## Vocabulary of the specification -/

/-- The board obtained by writing `v` into the cell of loop counter `i` (position `i + 1`). -/
def place (state : GameState) (i : Fin 9) (v : Char) : GameState :=
  state.setCell (rowOf i) (colOf i) v

/-- The three cells `a`, `b`, `c` all hold `player`. -/
def lineOf (state : GameState) (player : Char) (a b c : Fin 3 × Fin 3) : Prop :=
  state.board a.1 a.2 = player ∧ state.board b.1 b.2 = player ∧ state.board c.1 c.2 = player

/-- The state with the given nine cells, row by row, zero tallies and X to move; used to write
concrete boards. -/
def stateOf (cells : List Char) : GameState :=
  { board := fun r c => cells.getD (3 * r.val + c.val) ' ', playerXWins := 0, playerOWins := 0,
    draws := 0, gameEnded := false, currentPlayer := 0 }

/-- Filling the Empty cell `i` with `mark` completes a line of `mark`. -/
def winsAt (state : GameState) (mark : Char) (i : Fin 9) : Bool :=
  emptyAt state i && checkWin (place state i mark) mark

/-- Neither mark has a winning line and some cell is Empty. -/
def Undecided (state : GameState) : Prop :=
  checkWin state 'X' = false ∧ checkWin state 'O' = false ∧ checkDraw state = false

/-- The player with mark `me` has a strategy that forces a win of `me` on the undecided board
`state`, the marks alternating until a win or a full board.  The flag tells whether `me` is to
move (`true`) or the opponent with mark `other` is (`false`).
* `win`: `me` moves and completes a line at once;
* `move`: `me` moves, the game goes on, and `me` still forces a win;
* `reply`: the opponent is to move, and whatever Empty cell it fills it neither wins nor fills
  the board, and `me` still forces a win. -/
inductive ForcesWin (me other : Char) : GameState → Bool → Prop
  | win (s : GameState) (i : Fin 9) :
      emptyAt s i = true → checkWin (place s i me) me = true → ForcesWin me other s true
  | move (s : GameState) (i : Fin 9) :
      emptyAt s i = true → checkWin (place s i me) me = false →
      checkDraw (place s i me) = false → ForcesWin me other (place s i me) false →
      ForcesWin me other s true
  | reply (s : GameState) :
      (∃ i, emptyAt s i = true) →
      (∀ i, emptyAt s i = true → checkWin (place s i other) other = false) →
      (∀ i, emptyAt s i = true → checkDraw (place s i other) = false) →
      (∀ i, emptyAt s i = true → ForcesWin me other (place s i other) true) →
      ForcesWin me other s false

/-- After O has played the Empty position `p` on `state`, the game goes on and X, moving next,
has a strategy that forces an X win. -/
def XForcesWinAfter (state : GameState) (p : Fin 9) : Prop :=
  checkWin (place state p 'O') 'O' = false ∧ checkDraw (place state p 'O') = false ∧
    ForcesWin 'X' 'O' (place state p 'O') true

/-- Every run of the `while` loop of `playRound` from `state`, whatever legal moves the human
makes and whatever the random source returns, stops after finitely many iterations with
`gameEnded` set, in a state that satisfies `Q`: an iteration can be carried out, no iteration
leaves through `break` or indexes outside the board, and every state an iteration leads to has
the same property. -/
inductive AlwaysEnds (mode : GameMode) (difficulty : Difficulty) (Q : GameState → Prop) :
    GameState → Prop
  | ended (s : GameState) : s.gameEnded = true → Q s → AlwaysEnds mode difficulty Q s
  | step (s : GameState) :
      s.gameEnded = false →
      (∃ inputs g s1 inputs1 g1,
        playRound.body mode difficulty s inputs g = Iter.next s1 inputs1 g1) →
      (∀ inputs g s1, playRound.body mode difficulty s inputs g ≠ Iter.broke s1) →
      (∀ inputs g, playRound.body mode difficulty s inputs g ≠ Iter.stuck Stuck.outOfBounds) →
      (∀ inputs g s1 inputs1 g1,
        playRound.body mode difficulty s inputs g = Iter.next s1 inputs1 g1 →
        AlwaysEnds mode difficulty Q s1) →
      AlwaysEnds mode difficulty Q s

/-- What holds at the head of the `while` loop throughout a Human-vs-AI round on Hard in which
`playerXWins` was `x0` at the start: X has no line, `playerXWins` is still `x0`, a finished round
is an O win or a full board, and an unfinished one is undecided with a minimax value of at least
`0` for the player to move. -/
def HardInv (x0 : Int) (s : GameState) : Prop :=
  checkWin s 'X' = false ∧ s.playerXWins = x0 ∧
  (s.gameEnded = true → checkWin s 'O' = true ∨ checkDraw s = true) ∧
  (s.gameEnded = false → checkWin s 'O' = false ∧ checkDraw s = false ∧
    ((s.currentPlayer = 0 ∧ 0 ≤ HardAI.minimax s 0 false) ∨
     (s.currentPlayer = 1 ∧ 0 ≤ HardAI.minimax s 0 true)))

/-- Number of Empty cells of the board. -/
def emptyCount (state : GameState) : Nat := idx9.countP (emptyAt state)

/-- The eight lines of the grid: the three rows, the three columns, the main diagonal and the
anti-diagonal, each as its three `(row, col)` cells. -/
def winLines : List (List (Fin 3 × Fin 3)) :=
  [[(0, 0), (0, 1), (0, 2)], [(1, 0), (1, 1), (1, 2)], [(2, 0), (2, 1), (2, 2)],
   [(0, 0), (1, 0), (2, 0)], [(0, 1), (1, 1), (2, 1)], [(0, 2), (1, 2), (2, 2)],
   [(0, 0), (1, 1), (2, 2)], [(0, 2), (1, 1), (2, 0)]]

/-! ## Vocabulary of the round invariants -/

/-- Number of cells that hold 'X'. -/
def xCount (state : GameState) : Nat :=
  idx9.countP fun i => decide (state.board (rowOf i) (colOf i) = 'X')

/-- Number of cells that hold 'O'. -/
def oCount (state : GameState) : Nat :=
  idx9.countP fun i => decide (state.board (rowOf i) (colOf i) = 'O')

/-- The three tallies of `other` are those of `state`, with `dx`, `dO`, `dd` added. -/
def talliesAre (state other : GameState) (dx dO dd : Int) : Prop :=
  other.playerXWins = state.playerXWins + dx ∧ other.playerOWins = state.playerOWins + dO ∧
    other.draws = state.draws + dd

/-- What holds at the head of the `while` loop throughout a round of `playRound` started from
`state0`, in either mode and on every difficulty: the turn is 0 or 1; while the round goes on the
board is undecided, the tallies are those of `state0`, and X has as many marks as O when X is to
move and one more when O is; once the round is over, exactly one of three things happened: X
completed a line (and only `playerXWins` grew, by one), O completed a line (and only
`playerOWins` grew, by one), or the board filled up without a line (and only `draws` grew, by
one). -/
def RoundInv (state0 s : GameState) : Prop :=
  (s.currentPlayer = 0 ∨ s.currentPlayer = 1) ∧
  (s.gameEnded = false →
    Undecided s ∧ talliesAre state0 s 0 0 0 ∧
    (s.currentPlayer = 0 → xCount s = oCount s) ∧
    (s.currentPlayer = 1 → xCount s = oCount s + 1)) ∧
  (s.gameEnded = true →
    (checkWin s 'X' = true ∧ checkWin s 'O' = false ∧ talliesAre state0 s 1 0 0 ∧
      xCount s = oCount s + 1) ∨
    (checkWin s 'O' = true ∧ checkWin s 'X' = false ∧ talliesAre state0 s 0 1 0 ∧
      xCount s = oCount s) ∨
    (checkDraw s = true ∧ checkWin s 'X' = false ∧ checkWin s 'O' = false ∧
      talliesAre state0 s 0 0 1 ∧ (xCount s = oCount s ∨ xCount s = oCount s + 1)))

/-- The human-move loop accepts the extraction `x`: it is an integer in `1..9` that names an
Empty cell.  Every other extraction (a failed one, an integer outside `1..9`, an occupied cell)
is rejected. -/
def accepts (state : GameState) : Option Int → Bool
  | none => false
  | some n =>
    if h : 1 ≤ n ∧ n ≤ 9 then isdigit (state.board (rowOfPos n h) (colOfPos n h)) else false

/-! ## Both sides playing the search policy -/

/-- Exchange of the two marks; every other character is left alone. -/
def swapChar (c : Char) : Char := if c = 'X' then 'O' else if c = 'O' then 'X' else c

/-- The state with the two marks exchanged on every cell. -/
def swapMarks (state : GameState) : GameState :=
  { state with board := fun r c => swapChar (state.board r c) }

/-- Modelled from the spec: the search policy for the X side, which the program does not
contain (`HardAI` only ever plays 'O').  Following "the same search procedure with the roles of
the two marks exchanged", it is `HardAI::getMove` run on the board with X and O exchanged. -/
def HardAI.getMoveX (state : GameState) (g : Rand) : Int :=
  (HardAI.getMove (swapMarks state) g).1

/-- One turn of the game in which both sides use the search policy: O (turn 1) moves where
`HardAI::getMove` says, X (turn 0) where `HardAI.getMoveX` says; the mark is written and
`conclude` follows, as in `playRound`.  No state results if the position is outside `1..9`. -/
def searchPlay.body (state : GameState) (g : Rand) : Option GameState :=
  let move := if state.currentPlayer = 1 then (HardAI.getMove state g).1
    else HardAI.getMoveX state g
  if h : 1 ≤ move ∧ move ≤ 9 then
    some (conclude (state.setCell (rowOfPos move h) (colOfPos move h) (currentMark state)))
  else none

/-- The game in which both sides use the search policy, for at most `n` turns: the state in
which `gameEnded` is set, if it is reached. -/
def searchPlay : Nat → GameState → Rand → Option GameState
  | 0, state, _ => if state.gameEnded then some state else none
  | n + 1, state, g =>
    if state.gameEnded then some state
    else
      match searchPlay.body state g with
      | none => none
      | some state1 => searchPlay n state1 g

/-- The round state after X has opened at the centre (position 5): O is to move. -/
def centreState : GameState :=
  { stateOf ['1', '2', '3', '4', 'X', '6', '7', '8', '9'] with currentPlayer := 1 }

/-! ## A compact copy of the board, on which a game-tree search can be replayed cheaply -/

/-- What a cell holds: Empty (a digit), an X, an O, or any other character. -/
inductive Cell
  | E
  | X
  | O
  | B
  deriving DecidableEq

def Cell.isE : Cell → Bool
  | Cell.E => true
  | _ => false

def Cell.isX : Cell → Bool
  | Cell.X => true
  | _ => false

def Cell.isO : Cell → Bool
  | Cell.O => true
  | _ => false

/-- Classification of a board character. -/
def Cell.ofChar (c : Char) : Cell :=
  if c = 'X' then Cell.X else if c = 'O' then Cell.O else if isdigit c then Cell.E else Cell.B

/-- The nine cells, row by row. -/
structure Grid where
  c0 : Cell
  c1 : Cell
  c2 : Cell
  c3 : Cell
  c4 : Cell
  c5 : Cell
  c6 : Cell
  c7 : Cell
  c8 : Cell
  deriving DecidableEq

def Grid.ofState (s : GameState) : Grid :=
  { c0 := Cell.ofChar (s.board 0 0), c1 := Cell.ofChar (s.board 0 1),
    c2 := Cell.ofChar (s.board 0 2), c3 := Cell.ofChar (s.board 1 0),
    c4 := Cell.ofChar (s.board 1 1), c5 := Cell.ofChar (s.board 1 2),
    c6 := Cell.ofChar (s.board 2 0), c7 := Cell.ofChar (s.board 2 1),
    c8 := Cell.ofChar (s.board 2 2) }

def Grid.get (g : Grid) : Fin 9 → Cell
  | 0 => g.c0
  | 1 => g.c1
  | 2 => g.c2
  | 3 => g.c3
  | 4 => g.c4
  | 5 => g.c5
  | 6 => g.c6
  | 7 => g.c7
  | 8 => g.c8

def Grid.set (g : Grid) (v : Cell) : Fin 9 → Grid
  | 0 => { g with c0 := v }
  | 1 => { g with c1 := v }
  | 2 => { g with c2 := v }
  | 3 => { g with c3 := v }
  | 4 => { g with c4 := v }
  | 5 => { g with c5 := v }
  | 6 => { g with c6 := v }
  | 7 => { g with c7 := v }
  | 8 => { g with c8 := v }

/-- Some line is all X; the lines come in the order in which `checkWin` tests them. -/
def Grid.winX (g : Grid) : Bool :=
  (g.c0.isX && g.c1.isX && g.c2.isX) || (g.c0.isX && g.c3.isX && g.c6.isX) ||
  (g.c3.isX && g.c4.isX && g.c5.isX) || (g.c1.isX && g.c4.isX && g.c7.isX) ||
  (g.c6.isX && g.c7.isX && g.c8.isX) || (g.c2.isX && g.c5.isX && g.c8.isX) ||
  (g.c0.isX && g.c4.isX && g.c8.isX) || (g.c2.isX && g.c4.isX && g.c6.isX)

/-- Some line is all O. -/
def Grid.winO (g : Grid) : Bool :=
  (g.c0.isO && g.c1.isO && g.c2.isO) || (g.c0.isO && g.c3.isO && g.c6.isO) ||
  (g.c3.isO && g.c4.isO && g.c5.isO) || (g.c1.isO && g.c4.isO && g.c7.isO) ||
  (g.c6.isO && g.c7.isO && g.c8.isO) || (g.c2.isO && g.c5.isO && g.c8.isO) ||
  (g.c0.isO && g.c4.isO && g.c8.isO) || (g.c2.isO && g.c4.isO && g.c6.isO)

/-- No cell is Empty. -/
def Grid.full (g : Grid) : Bool :=
  !(g.c0.isE || g.c1.isE || g.c2.isE || g.c3.isE || g.c4.isE || g.c5.isE || g.c6.isE ||
    g.c7.isE || g.c8.isE)

/-- The order in which `Grid.safe` tries O's moves: centre, corners, edges. -/
def Grid.tryOrder : List (Fin 9) := [4, 0, 2, 6, 8, 1, 3, 5, 7]

/-- A search that answers `true` only if the minimax value of the position is at least `0`
(`Grid.safe_sound`): at O's turn one good move is enough, at X's turn every move is examined. -/
def Grid.safe : Nat → Grid → Bool → Bool
  | 0, _, _ => false
  | n + 1, g, isMaximizing =>
    if g.winO then true
    else if g.winX then false
    else if g.full then true
    else if isMaximizing then
      Grid.tryOrder.any fun i => (g.get i).isE && Grid.safe n (g.set Cell.O i) false
    else
      idx9.all fun i => !(g.get i).isE || Grid.safe n (g.set Cell.X i) true

/-- The grid with every cell Empty. -/
def Grid.init : Grid :=
  { c0 := Cell.E, c1 := Cell.E, c2 := Cell.E, c3 := Cell.E, c4 := Cell.E, c5 := Cell.E,
    c6 := Cell.E, c7 := Cell.E, c8 := Cell.E }

/-- The mirror image of `Grid.safe`: a search that answers `true` only if the minimax value of
the position is at most `0` (`Grid.holds_sound`): at X's turn one good move is enough, at O's
turn every move is examined. -/
def Grid.holds : Nat → Grid → Bool → Bool
  | 0, _, _ => false
  | n + 1, g, isMaximizing =>
    if g.winO then false
    else if g.winX then true
    else if g.full then true
    else if isMaximizing then
      idx9.all fun i => !(g.get i).isE || Grid.holds n (g.set Cell.O i) false
    else
      Grid.tryOrder.any fun i => (g.get i).isE && Grid.holds n (g.set Cell.X i) true

/-- The grid with X at the centre and every other cell Empty. -/
def Grid.centre : Grid := { Grid.init with c4 := Cell.X }

/-- The grid with O at the top left, X at the centre and every other cell Empty. -/
def Grid.centreCorner : Grid := { Grid.init with c0 := Cell.O, c4 := Cell.X }

/-! ## Rules: proofs -/

theorem ite_true_iff (p : Prop) [Decidable p] (b : Bool) :
    (if p then true else b) = true ↔ p ∨ b = true := by
  by_cases h : p <;> simp [h]

theorem winLines_iff (state : GameState) (player : Char) :
    (∃ l ∈ winLines, ∀ c ∈ l, state.board c.1 c.2 = player) ↔
      (lineOf state player (0, 0) (0, 1) (0, 2) ∨ lineOf state player (1, 0) (1, 1) (1, 2) ∨
       lineOf state player (2, 0) (2, 1) (2, 2) ∨ lineOf state player (0, 0) (1, 0) (2, 0) ∨
       lineOf state player (0, 1) (1, 1) (2, 1) ∨ lineOf state player (0, 2) (1, 2) (2, 2) ∨
       lineOf state player (0, 0) (1, 1) (2, 2) ∨ lineOf state player (0, 2) (1, 1) (2, 0)) := by
  simp only [winLines, List.mem_cons, List.mem_singleton, List.not_mem_nil, or_false,
    exists_eq_or_imp, forall_eq_or_imp, exists_eq_left, forall_eq, lineOf]

theorem checkWin_eq (state : GameState) (player : Char) :
    checkWin state player = true ↔
      (lineOf state player (0, 0) (0, 1) (0, 2) ∨ lineOf state player (0, 0) (1, 0) (2, 0) ∨
       lineOf state player (1, 0) (1, 1) (1, 2) ∨ lineOf state player (0, 1) (1, 1) (2, 1) ∨
       lineOf state player (2, 0) (2, 1) (2, 2) ∨ lineOf state player (0, 2) (1, 2) (2, 2) ∨
       lineOf state player (0, 0) (1, 1) (2, 2) ∨ lineOf state player (0, 2) (1, 1) (2, 0)) := by
  unfold checkWin idx3
  simp only [checkWin.loop, ite_true_iff, Bool.false_eq_true, or_false, Bool.or_eq_true,
    decide_eq_true_eq, lineOf, or_assoc]

/-- C2: `checkWin(state, player)` is true exactly when one of the eight lines (three rows, three
columns, two diagonals) has all three of its cells equal to `player`. -/
theorem checkWin_iff_line (state : GameState) (player : Char) :
    checkWin state player = true ↔
      ∃ l ∈ winLines, ∀ c ∈ l, state.board c.1 c.2 = player := by
  rw [checkWin_eq, winLines_iff]
  generalize lineOf state player (0, 0) (0, 1) (0, 2) = r0
  generalize lineOf state player (1, 0) (1, 1) (1, 2) = r1
  generalize lineOf state player (2, 0) (2, 1) (2, 2) = r2
  generalize lineOf state player (0, 0) (1, 0) (2, 0) = k0
  generalize lineOf state player (0, 1) (1, 1) (2, 1) = k1
  generalize lineOf state player (0, 2) (1, 2) (2, 2) = k2
  tauto

theorem mem_idx3 (j : Fin 3) : j ∈ idx3 := by
  fin_cases j <;> simp [idx3]

theorem mem_idx9 (i : Fin 9) : i ∈ idx9 := by
  fin_cases i <;> simp [idx9]

theorem checkDraw_inner_iff (s : GameState) (i : Fin 3) (l : List (Fin 3)) :
    checkDraw.inner s i l = true ↔ ∃ j ∈ l, isdigit (s.board i j) = true := by
  induction l with
  | nil => simp [checkDraw.inner]
  | cons j rest ih =>
    simp only [checkDraw.inner, ite_true_iff, ih, List.mem_cons, exists_eq_or_imp]

theorem checkDraw_outer_iff (s : GameState) (l : List (Fin 3)) :
    checkDraw.outer s l = true ↔ ∃ i ∈ l, ∃ j, isdigit (s.board i j) = true := by
  induction l with
  | nil => simp [checkDraw.outer]
  | cons i rest ih =>
    simp only [checkDraw.outer, ite_true_iff, ih, List.mem_cons, exists_eq_or_imp,
      checkDraw_inner_iff, mem_idx3, true_and]

theorem checkDraw_eq (s : GameState) :
    checkDraw s = true ↔ ∀ r c : Fin 3, isdigit (s.board r c) = false := by
  unfold checkDraw
  by_cases h : checkDraw.outer s idx3 = true
  · have h2 := (checkDraw_outer_iff s idx3).mp h
    obtain ⟨i, -, j, hj⟩ := h2
    simp only [h, if_true, Bool.false_eq_true, false_iff]
    intro hall
    rw [hall i j] at hj
    exact Bool.false_ne_true hj
  · simp only [h, Bool.false_eq_true, if_false, true_iff]
    intro r c
    by_contra hd
    exact h ((checkDraw_outer_iff s idx3).mpr ⟨r, mem_idx3 r, c, by simpa using hd⟩)

theorem checkDraw_board_only (s t : GameState) (h : s.board = t.board) :
    checkDraw s = checkDraw t := by
  have h1 := checkDraw_eq s
  have h2 := checkDraw_eq t
  rw [h] at h1
  cases hs : checkDraw s <;> cases ht : checkDraw t <;> simp_all

/-- C3: `checkDraw(state)` is true exactly when no cell of the board holds a digit, and it reads
nothing of the state but the board. -/
theorem checkDraw_iff_no_digit (state : GameState) :
    (checkDraw state = true ↔ ∀ r c : Fin 3, isdigit (state.board r c) = false) ∧
      ∀ other : GameState, other.board = state.board → checkDraw other = checkDraw state := by
  exact ⟨checkDraw_eq state, fun other h => checkDraw_board_only other state h⟩

/-! ## Board updates -/

theorem setCell_board (s : GameState) (r c r1 c1 : Fin 3) (v : Char) :
    (s.setCell r c v).board r1 c1 = if r1 = r ∧ c1 = c then v else s.board r1 c1 := rfl

theorem setCell_restore (s : GameState) (r c : Fin 3) (v : Char) :
    (s.setCell r c v).setCell r c (s.board r c) = s := by
  cases s with
  | mk board xw ow dr ge cp =>
    simp only [GameState.setCell, GameState.mk.injEq, and_true]
    funext r1 c1
    by_cases h : r1 = r ∧ c1 = c
    · simp [h]
    · simp [h]

theorem place_restore (s : GameState) (i : Fin 9) (v : Char) :
    (place s i v).setCell (rowOf i) (colOf i) (s.board (rowOf i) (colOf i)) = s :=
  setCell_restore s _ _ v

theorem rowcol_inj (i j : Fin 9) : (rowOf j = rowOf i ∧ colOf j = colOf i) ↔ j = i := by
  revert i j
  decide

theorem place_board (s : GameState) (i j : Fin 9) (v : Char) :
    (place s i v).board (rowOf j) (colOf j) = if j = i then v else s.board (rowOf j) (colOf j) := by
  simp only [place, setCell_board, rowcol_inj]

theorem emptyAt_place (s : GameState) (i j : Fin 9) (v : Char) :
    emptyAt (place s i v) j = if j = i then isdigit v else emptyAt s j := by
  unfold emptyAt
  rw [place_board]
  split <;> rfl

theorem cell_surj (r c : Fin 3) : ∃ i : Fin 9, rowOf i = r ∧ colOf i = c := by
  revert r c
  decide

theorem isdigit_X : isdigit 'X' = false := by decide

theorem isdigit_O : isdigit 'O' = false := by decide

theorem ne_of_isdigit {c p : Char} (h : isdigit c = true) (hp : isdigit p = false) : c ≠ p := by
  rintro rfl
  rw [h] at hp
  exact Bool.noConfusion hp

theorem checkWin_congr {s t : GameState} (h : s.board = t.board) (p : Char) :
    checkWin s p = checkWin t p := by
  unfold checkWin idx3
  simp only [checkWin.loop, h]

theorem checkDraw_congr {s t : GameState} (h : s.board = t.board) :
    checkDraw s = checkDraw t := (checkDraw_board_only s t h)

theorem emptyAt_congr {s t : GameState} (h : s.board = t.board) (i : Fin 9) :
    emptyAt s i = emptyAt t i := by
  unfold emptyAt
  rw [h]

theorem place_board_congr {s t : GameState} (h : s.board = t.board) (i : Fin 9) (v : Char) :
    (place s i v).board = (place t i v).board := by
  simp only [place, GameState.setCell, h]

theorem lineOf_mono {s t : GameState} {p : Char}
    (h : ∀ r c, s.board r c = p → t.board r c = p) (a b c : Fin 3 × Fin 3) :
    lineOf s p a b c → lineOf t p a b c :=
  fun hl => ⟨h _ _ hl.1, h _ _ hl.2.1, h _ _ hl.2.2⟩

theorem checkWin_mono {s t : GameState} {p : Char}
    (h : ∀ r c, s.board r c = p → t.board r c = p) (hw : checkWin s p = true) :
    checkWin t p = true := by
  rw [checkWin_eq] at hw ⊢
  exact hw.imp (lineOf_mono h _ _ _) (Or.imp (lineOf_mono h _ _ _) (Or.imp (lineOf_mono h _ _ _)
    (Or.imp (lineOf_mono h _ _ _) (Or.imp (lineOf_mono h _ _ _) (Or.imp (lineOf_mono h _ _ _)
    (Or.imp (lineOf_mono h _ _ _) (lineOf_mono h _ _ _)))))))

/-- Writing a mark other than `p` into an Empty cell creates no line of `p`. -/
theorem checkWin_place_other {s : GameState} {i : Fin 9} {v p : Char} (hv : v ≠ p)
    (hw : checkWin (place s i v) p = true) : checkWin s p = true := by
  refine checkWin_mono (fun r c hrc => ?_) hw
  rw [place, setCell_board] at hrc
  split at hrc
  · exact absurd hrc hv
  · exact hrc

theorem checkWin_place_other_false {s : GameState} {i : Fin 9} {v p : Char} (hv : v ≠ p)
    (hw : checkWin s p = false) : checkWin (place s i v) p = false := by
  cases h : checkWin (place s i v) p
  · rfl
  · rw [checkWin_place_other hv h] at hw
    exact Bool.noConfusion hw

theorem X_ne_O : ('X' : Char) ≠ 'O' := by decide

theorem O_ne_X : ('O' : Char) ≠ 'X' := by decide

theorem emptyCount_le (s : GameState) : emptyCount s ≤ 9 := by
  unfold emptyCount
  exact (List.countP_le_length _).trans (by simp [idx9])

theorem countP_lt_of {α : Type} (p q : α → Bool) (a : α) :
    ∀ l : List α, (∀ x ∈ l, p x = true → q x = true) → a ∈ l → q a = true → p a = false →
      l.countP p < l.countP q := by
  intro l
  induction l with
  | nil => intro _ h; simp at h
  | cons b rest ih =>
    intro hpq hmem hq hp
    have hrest : rest.countP p ≤ rest.countP q :=
      List.countP_mono_left (fun x hx => hpq x (List.mem_cons_of_mem _ hx))
    by_cases hba : b = a
    · subst hba
      simp only [List.countP_cons, hq, hp, if_true, Bool.false_eq_true, if_false]
      omega
    · have hmem2 : a ∈ rest := by
        rcases List.mem_cons.mp hmem with h | h
        · exact absurd h.symm hba
        · exact h
      have := ih (fun x hx => hpq x (List.mem_cons_of_mem _ hx)) hmem2 hq hp
      have hb := hpq b (List.mem_cons_self _ _)
      cases hpb : p b <;> cases hqb : q b
      · simp only [List.countP_cons, hpb, hqb, Bool.false_eq_true, if_false]
        omega
      · simp only [List.countP_cons, hpb, hqb, Bool.false_eq_true, if_false, if_true]
        omega
      · rw [hb hpb] at hqb
        exact Bool.noConfusion hqb
      · simp only [List.countP_cons, hpb, hqb, if_true]
        omega

theorem emptyCount_place_lt {s : GameState} {i : Fin 9} {v : Char} (he : emptyAt s i = true)
    (hv : isdigit v = false) : emptyCount (place s i v) < emptyCount s := by
  unfold emptyCount
  refine countP_lt_of _ _ i idx9 (fun x _ hx => ?_) (mem_idx9 i) he ?_
  · rw [emptyAt_place] at hx
    split at hx
    · rw [hv] at hx
      exact Bool.noConfusion hx
    · exact hx
  · rw [emptyAt_place, if_pos rfl, hv]

theorem exists_empty_of_not_draw {s : GameState} (h : checkDraw s = false) :
    ∃ i : Fin 9, emptyAt s i = true := by
  by_contra hne
  have hall : ∀ r c : Fin 3, isdigit (s.board r c) = false := by
    intro r c
    obtain ⟨i, hr, hc⟩ := cell_surj r c
    have := hne
    cases hd : isdigit (s.board r c)
    · rfl
    · exact absurd ⟨i, by unfold emptyAt; rw [hr, hc, hd]⟩ hne
  rw [(checkDraw_eq s).mpr hall] at h
  exact Bool.noConfusion h

theorem not_draw_of_empty {s : GameState} {i : Fin 9} (h : emptyAt s i = true) :
    checkDraw s = false := by
  cases hd : checkDraw s
  · rfl
  · have := (checkDraw_eq s).mp hd (rowOf i) (colOf i)
    unfold emptyAt at h
    rw [h] at this
    exact Bool.noConfusion this

/-! ## The loops of the move policies, without the trial writes -/

theorem available_eq (s : GameState) (l : List (Fin 9)) :
    EasyAI.available s l = (l.filter (emptyAt s)).map posOf := by
  induction l with
  | nil => rfl
  | cons i rest ih =>
    unfold EasyAI.available
    by_cases h : isdigit (s.board (rowOf i) (colOf i)) = true
    · have he : emptyAt s i = true := h
      simp only [h, if_true, ih, List.filter_cons, he, List.map_cons]
    · have he : ¬ emptyAt s i = true := h
      simp only [h, if_false, ih, List.filter_cons, he]
      simp

/-- The test made by a scanning loop of `MediumAI::getMove` at loop counter `i`. -/
theorem scan_eq (mark : Char) (l : List (Fin 9)) (s : GameState) :
    MediumAI.scan mark l s =
      ((l.find? fun i => emptyAt s i && checkWin (place s i mark) mark).map posOf, s) := by
  induction l with
  | nil => rfl
  | cons i rest ih =>
    unfold MediumAI.scan
    by_cases h : isdigit (s.board (rowOf i) (colOf i)) = true
    · have he : emptyAt s i = true := h
      have hr := place_restore s i mark
      unfold place at hr
      by_cases hw : checkWin (s.setCell (rowOf i) (colOf i) mark) mark = true
      · have hw2 : checkWin (place s i mark) mark = true := hw
        simp only [h, if_true, hw, hr, List.find?_cons, he, hw2, Bool.and_self, Option.map_some']
      · have hw2 : checkWin (place s i mark) mark = false := by
          simpa [place] using hw
        simp only [h, if_true, hw, hr, List.find?_cons, he, hw2, Bool.and_false, ih,
          Bool.false_eq_true, if_false]
    · have he : emptyAt s i = false := by
        simpa [emptyAt] using h
      simp only [h, if_false, ih, List.find?_cons, he, Bool.false_and, Bool.false_eq_true]

theorem minimax_loop_eq (recur : GameState → Int) (m : Bool) (l : List (Fin 9)) (s : GameState)
    (best : Int) :
    HardAI.minimax.loop recur m l s best =
      l.foldl (fun acc i =>
        if emptyAt s i = true then
          (if m then max acc (recur (place s i (if m then 'O' else 'X')))
           else min acc (recur (place s i (if m then 'O' else 'X'))))
        else acc) best := by
  induction l generalizing best with
  | nil => rfl
  | cons i rest ih =>
    unfold HardAI.minimax.loop
    have hr := place_restore s i (if m then 'O' else 'X')
    unfold place at hr
    by_cases h : isdigit (s.board (rowOf i) (colOf i)) = true
    · have he : emptyAt s i = true := h
      simp only [h, if_true, hr, ih, List.foldl_cons, he, place]
    · have he : ¬ emptyAt s i = true := h
      simp only [h, if_false, ih, List.foldl_cons, he, Bool.false_eq_true]

theorem getMove_loop_eq (l : List (Fin 9)) (s : GameState) (bestVal bestMove : Int) :
    HardAI.getMove.loop l s bestVal bestMove =
      ((l.foldl (fun (acc : Int × Int) i =>
        if emptyAt s i = true then
          (if HardAI.minimax (place s i 'O') 0 false > acc.1 then
            (HardAI.minimax (place s i 'O') 0 false, posOf i) else acc)
        else acc) (bestVal, bestMove)).2, s) := by
  induction l generalizing bestVal bestMove with
  | nil => rfl
  | cons i rest ih =>
    unfold HardAI.getMove.loop
    have hr := place_restore s i 'O'
    unfold place at hr
    by_cases h : isdigit (s.board (rowOf i) (colOf i)) = true
    · have he : emptyAt s i = true := h
      by_cases hg : HardAI.minimax (s.setCell (rowOf i) (colOf i) 'O') 0 false > bestVal
      · simp only [h, if_true, hr, hg, ih, List.foldl_cons, he, place]
      · simp only [h, if_true, hr, hg, ih, List.foldl_cons, he, place, if_false]
    · have he : ¬ emptyAt s i = true := h
      simp only [h, if_false, ih, List.foldl_cons, he, Bool.false_eq_true]

/-! ## Folding `max` / `min` over the Empty cells -/

theorem foldl_max_spec {α : Type} (P : α → Prop) [DecidablePred P] (f : α → Int) (l : List α)
    (b : Int) :
    b ≤ l.foldl (fun acc i => if P i then max acc (f i) else acc) b ∧
    (∀ i ∈ l, P i → f i ≤ l.foldl (fun acc i => if P i then max acc (f i) else acc) b) ∧
    (l.foldl (fun acc i => if P i then max acc (f i) else acc) b = b ∨
      ∃ i ∈ l, P i ∧ l.foldl (fun acc i => if P i then max acc (f i) else acc) b = f i) := by
  induction l generalizing b with
  | nil => simp
  | cons a rest ih =>
    simp only [List.foldl_cons, List.mem_cons, forall_eq_or_imp, exists_eq_or_imp]
    by_cases h : P a
    · simp only [h, if_true, forall_true_left, true_and]
      obtain ⟨h1, h2, h3⟩ := ih (max b (f a))
      refine ⟨le_trans (le_max_left _ _) h1, ⟨le_trans (le_max_right _ _) h1, h2⟩, ?_⟩
      rcases h3 with h3 | h3
      · rcases max_cases b (f a) with ⟨hm, -⟩ | ⟨hm, -⟩
        · left
          rw [h3, hm]
        · right
          left
          rw [h3, hm]
      · right
        right
        exact h3
    · simp only [h, if_false, false_and, false_or, not_false_eq_true, false_implies, true_and,
        IsEmpty.forall_iff]
      exact ih b

theorem foldl_min_spec {α : Type} (P : α → Prop) [DecidablePred P] (f : α → Int) (l : List α)
    (b : Int) :
    l.foldl (fun acc i => if P i then min acc (f i) else acc) b ≤ b ∧
    (∀ i ∈ l, P i → l.foldl (fun acc i => if P i then min acc (f i) else acc) b ≤ f i) ∧
    (l.foldl (fun acc i => if P i then min acc (f i) else acc) b = b ∨
      ∃ i ∈ l, P i ∧ l.foldl (fun acc i => if P i then min acc (f i) else acc) b = f i) := by
  induction l generalizing b with
  | nil => simp
  | cons a rest ih =>
    simp only [List.foldl_cons, List.mem_cons, forall_eq_or_imp, exists_eq_or_imp]
    by_cases h : P a
    · simp only [h, if_true, forall_true_left, true_and]
      obtain ⟨h1, h2, h3⟩ := ih (min b (f a))
      refine ⟨le_trans h1 (min_le_left _ _), ⟨le_trans h1 (min_le_right _ _), h2⟩, ?_⟩
      rcases h3 with h3 | h3
      · rcases min_cases b (f a) with ⟨hm, -⟩ | ⟨hm, -⟩
        · left
          rw [h3, hm]
        · right
          left
          rw [h3, hm]
      · right
        right
        exact h3
    · simp only [h, if_false, false_and, false_or, not_false_eq_true, false_implies, true_and,
        IsEmpty.forall_iff]
      exact ih b

/-- The first strict maximum of `f` over the elements of `l` that satisfy `P`, as computed by the
loop of `HardAI::getMove`. -/
theorem foldl_argmax_spec {α : Type} (P : α → Prop) [DecidablePred P] (f : α → Int) (g : α → Int)
    (l : List α) (bv bm : Int) :
    ((l.foldl (fun (acc : Int × Int) i => if P i then (if f i > acc.1 then (f i, g i) else acc)
        else acc) (bv, bm)) = (bv, bm) ∧ ∀ q ∈ l, P q → f q ≤ bv) ∨
    ∃ p l1 l2, l = l1 ++ p :: l2 ∧ P p ∧ bv < f p ∧
      (l.foldl (fun (acc : Int × Int) i => if P i then (if f i > acc.1 then (f i, g i) else acc)
        else acc) (bv, bm)) = (f p, g p) ∧
      (∀ q ∈ l1, P q → f q < f p) ∧ (∀ q ∈ l2, P q → f q ≤ f p) := by
  induction l generalizing bv bm with
  | nil => left; simp
  | cons a rest ih =>
    simp only [List.foldl_cons]
    by_cases h : P a ∧ f a > bv
    · obtain ⟨hP, hf⟩ := h
      simp only [hP, hf, if_true]
      right
      rcases ih (f a) (g a) with ⟨h1, h2⟩ | ⟨p, l1, l2, hl, hp, hlt, hres, hb, ha⟩
      · exact ⟨a, [], rest, rfl, hP, hf, h1, by simp, h2⟩
      · refine ⟨p, a :: l1, l2, by rw [hl]; rfl, hp, lt_trans hf hlt, hres, ?_, ha⟩
        intro q hq hPq
        rcases List.mem_cons.mp hq with rfl | hq
        · exact hlt
        · exact hb q hq hPq
    · have hstep : (if P a then (if f a > bv then (f a, g a) else (bv, bm)) else (bv, bm))
          = (bv, bm) := by
        by_cases hP : P a
        · have : ¬ f a > bv := fun hf => h ⟨hP, hf⟩
          simp [hP, this]
        · simp [hP]
      simp only [hstep]
      have hle : P a → f a ≤ bv := fun hP => not_lt.mp (fun hf => h ⟨hP, hf⟩)
      rcases ih bv bm with ⟨h1, h2⟩ | ⟨p, l1, l2, hl, hp, hlt, hres, hb, ha⟩
      · left
        refine ⟨h1, ?_⟩
        intro q hq hPq
        rcases List.mem_cons.mp hq with rfl | hq
        · exact hle hPq
        · exact h2 q hq hPq
      · right
        refine ⟨p, a :: l1, l2, by rw [hl]; rfl, hp, hlt, hres, ?_, ha⟩
        intro q hq hPq
        rcases List.mem_cons.mp hq with rfl | hq
        · exact lt_of_le_of_lt (hle hPq) hlt
        · exact hb q hq hPq

theorem idx9_sorted : idx9.Pairwise (fun a b => a < b) := by
  unfold idx9
  decide

/-- In a split `idx9 = l1 ++ p :: l2`, the part `l1` holds exactly the counters below `p`. -/
theorem idx9_split {p : Fin 9} {l1 l2 : List (Fin 9)} (h : idx9 = l1 ++ p :: l2) (q : Fin 9) :
    (q ∈ l1 ↔ q < p) ∧ (q ∈ l2 ↔ p < q) := by
  have hs := idx9_sorted
  rw [h, List.pairwise_append] at hs
  obtain ⟨-, h2, h3⟩ := hs
  rw [List.pairwise_cons] at h2
  have hq := mem_idx9 q
  rw [h, List.mem_append, List.mem_cons] at hq
  constructor
  · constructor
    · intro hq1
      exact h3 q hq1 p (List.mem_cons_self _ _)
    · intro hlt
      rcases hq with hq | rfl | hq
      · exact hq
      · exact absurd hlt (lt_irrefl _)
      · exact absurd (h2.1 q hq) (not_lt.mpr (le_of_lt hlt))
  · constructor
    · intro hq2
      exact h2.1 q hq2
    · intro hlt
      rcases hq with hq | rfl | hq
      · exact absurd (h3 q hq p (List.mem_cons_self _ _)) (not_lt.mpr (le_of_lt hlt))
      · exact absurd hlt (lt_irrefl _)
      · exact hq

theorem fold_max_node {α : Type} (P : α → Prop) [DecidablePred P] (f : α → Int) (l : List α)
    (hne : ∃ i ∈ l, P i) (hlo : ∀ i ∈ l, P i → -1000 < f i) :
    (∀ i ∈ l, P i → f i ≤ l.foldl (fun acc i => if P i then max acc (f i) else acc) (-1000)) ∧
    ∃ i ∈ l, P i ∧ l.foldl (fun acc i => if P i then max acc (f i) else acc) (-1000) = f i := by
  obtain ⟨-, h2, h3⟩ := foldl_max_spec P f l (-1000)
  refine ⟨h2, ?_⟩
  rcases h3 with h3 | h3
  · obtain ⟨i, hi, hP⟩ := hne
    have := h2 i hi hP
    have := hlo i hi hP
    omega
  · exact h3

theorem fold_min_node {α : Type} (P : α → Prop) [DecidablePred P] (f : α → Int) (l : List α)
    (hne : ∃ i ∈ l, P i) (hhi : ∀ i ∈ l, P i → f i < 1000) :
    (∀ i ∈ l, P i → l.foldl (fun acc i => if P i then min acc (f i) else acc) 1000 ≤ f i) ∧
    ∃ i ∈ l, P i ∧ l.foldl (fun acc i => if P i then min acc (f i) else acc) 1000 = f i := by
  obtain ⟨-, h2, h3⟩ := foldl_min_spec P f l 1000
  refine ⟨h2, ?_⟩
  rcases h3 with h3 | h3
  · obtain ⟨i, hi, hP⟩ := hne
    have := h2 i hi hP
    have := hhi i hi hP
    omega
  · exact h3

/-! ## `HardAI::minimax` -/

theorem evaluate_cases (s : GameState) :
    (HardAI.evaluate s = 1 ∧ checkWin s 'O' = true) ∨
    (HardAI.evaluate s = -1 ∧ checkWin s 'O' = false ∧ checkWin s 'X' = true) ∨
    (HardAI.evaluate s = 0 ∧ checkWin s 'O' = false ∧ checkWin s 'X' = false) := by
  unfold HardAI.evaluate
  cases checkWin s 'O' <;> cases checkWin s 'X' <;> simp

theorem evaluate_congr {s t : GameState} (h : s.board = t.board) :
    HardAI.evaluate s = HardAI.evaluate t := by
  unfold HardAI.evaluate
  rw [checkWin_congr h, checkWin_congr h]

theorem minimaxN_succ (f : Nat) (s : GameState) (d : Nat) (m : Bool) :
    HardAI.minimaxN (f + 1) s d m =
      if HardAI.evaluate s ≠ 0 then HardAI.evaluate s
      else if checkDraw s = true then 0
      else idx9.foldl (fun acc i =>
        if emptyAt s i = true then
          (if m then max acc (HardAI.minimaxN f (place s i (if m then 'O' else 'X')) (d + 1) (!m))
           else min acc (HardAI.minimaxN f (place s i (if m then 'O' else 'X')) (d + 1) (!m)))
        else acc) (if m then -1000 else 1000) := by
  rw [HardAI.minimaxN]
  simp only [minimax_loop_eq]

theorem minimaxN_succ_max (f : Nat) (s : GameState) (d : Nat) (he : HardAI.evaluate s = 0)
    (hd : checkDraw s = false) :
    HardAI.minimaxN (f + 1) s d true =
      idx9.foldl (fun acc i => if emptyAt s i = true then
        max acc (HardAI.minimaxN f (place s i 'O') (d + 1) false) else acc) (-1000) := by
  rw [minimaxN_succ]
  simp [he, hd]

theorem minimaxN_succ_min (f : Nat) (s : GameState) (d : Nat) (he : HardAI.evaluate s = 0)
    (hd : checkDraw s = false) :
    HardAI.minimaxN (f + 1) s d false =
      idx9.foldl (fun acc i => if emptyAt s i = true then
        min acc (HardAI.minimaxN f (place s i 'X') (d + 1) true) else acc) 1000 := by
  rw [minimaxN_succ]
  simp [he, hd]

theorem minimaxN_terminal (f : Nat) (s : GameState) (d : Nat) (m : Bool)
    (h : HardAI.evaluate s ≠ 0 ∨ checkDraw s = true) :
    HardAI.minimaxN (f + 1) s d m = HardAI.evaluate s := by
  rw [minimaxN_succ]
  by_cases he : HardAI.evaluate s = 0
  · rcases h with h | h
    · exact absurd he h
    · simp [he, h]
  · simp [he]

theorem minimaxN_range (f : Nat) (s : GameState) (d : Nat) (m : Bool) :
    -1 ≤ HardAI.minimaxN f s d m ∧ HardAI.minimaxN f s d m ≤ 1 := by
  induction f generalizing s d m with
  | zero => simp [HardAI.minimaxN]
  | succ f ih =>
    by_cases ht : HardAI.evaluate s ≠ 0 ∨ checkDraw s = true
    · rw [minimaxN_terminal f s d m ht]
      rcases evaluate_cases s with h | h | h <;> rw [h.1] <;> simp
    · have he : HardAI.evaluate s = 0 := by
        by_contra h
        exact ht (Or.inl h)
      have hd : checkDraw s = false := by
        cases hc : checkDraw s
        · rfl
        · exact absurd (Or.inr hc) ht
      obtain ⟨i, hi⟩ := exists_empty_of_not_draw hd
      cases m
      · rw [minimaxN_succ_min f s d he hd]
        obtain ⟨-, j, -, hj, hF⟩ := fold_min_node (fun i => emptyAt s i = true)
          (fun i => HardAI.minimaxN f (place s i 'X') (d + 1) true) idx9 ⟨i, mem_idx9 i, hi⟩
          (fun j _ _ => lt_of_le_of_lt (ih _ _ _).2 (by norm_num))
        rw [hF]
        exact ih _ _ _
      · rw [minimaxN_succ_max f s d he hd]
        obtain ⟨-, j, -, hj, hF⟩ := fold_max_node (fun i => emptyAt s i = true)
          (fun i => HardAI.minimaxN f (place s i 'O') (d + 1) false) idx9 ⟨i, mem_idx9 i, hi⟩
          (fun j _ _ => lt_of_lt_of_le (by norm_num) (ih _ _ _).1)
        rw [hF]
        exact ih _ _ _

/-- The value computed by `minimax` depends on the board only: not on the tallies, the turn
fields or the `depth` argument. -/
theorem minimaxN_congr (f : Nat) {s t : GameState} (h : s.board = t.board) (d e : Nat)
    (m : Bool) : HardAI.minimaxN f s d m = HardAI.minimaxN f t e m := by
  induction f generalizing s t d e m with
  | zero => rfl
  | succ f ih =>
    rw [minimaxN_succ, minimaxN_succ, evaluate_congr h, checkDraw_congr h]
    have hfun : (fun (acc : Int) (i : Fin 9) =>
        if emptyAt s i = true then
          (if m then max acc (HardAI.minimaxN f (place s i (if m then 'O' else 'X')) (d + 1) (!m))
           else min acc (HardAI.minimaxN f (place s i (if m then 'O' else 'X')) (d + 1) (!m)))
        else acc) = (fun (acc : Int) (i : Fin 9) =>
        if emptyAt t i = true then
          (if m then max acc (HardAI.minimaxN f (place t i (if m then 'O' else 'X')) (e + 1) (!m))
           else min acc (HardAI.minimaxN f (place t i (if m then 'O' else 'X')) (e + 1) (!m)))
        else acc) := by
      funext acc i
      rw [emptyAt_congr h i, ih (place_board_congr h i _) (d + 1) (e + 1) (!m)]
    rw [hfun]

theorem mark_not_digit (m : Bool) : isdigit (if m then 'O' else 'X') = false := by
  cases m <;> decide

/-- Fuel above the number of Empty cells is never used up. -/
theorem minimaxN_fuel_succ (f : Nat) (s : GameState) (d : Nat) (m : Bool)
    (h : emptyCount s < f) : HardAI.minimaxN f s d m = HardAI.minimaxN (f + 1) s d m := by
  induction f generalizing s d m with
  | zero => exact absurd h (Nat.not_lt_zero _)
  | succ f ih =>
    rw [minimaxN_succ f, minimaxN_succ (f + 1)]
    have hfun : (fun (acc : Int) (i : Fin 9) =>
        if emptyAt s i = true then
          (if m then max acc (HardAI.minimaxN f (place s i (if m then 'O' else 'X')) (d + 1) (!m))
           else min acc (HardAI.minimaxN f (place s i (if m then 'O' else 'X')) (d + 1) (!m)))
        else acc) = (fun (acc : Int) (i : Fin 9) =>
        if emptyAt s i = true then
          (if m then
            max acc (HardAI.minimaxN (f + 1) (place s i (if m then 'O' else 'X')) (d + 1) (!m))
           else
            min acc (HardAI.minimaxN (f + 1) (place s i (if m then 'O' else 'X')) (d + 1) (!m)))
        else acc) := by
      funext acc i
      by_cases hi : emptyAt s i = true
      · have hlt := emptyCount_place_lt hi (mark_not_digit m)
        rw [ih _ _ _ (by omega)]
      · simp only [hi, if_false, Bool.false_eq_true]
    rw [hfun]

theorem minimaxN_fuel (f : Nat) (s : GameState) (d : Nat) (m : Bool) (h : emptyCount s < f) :
    HardAI.minimaxN f s d m = HardAI.minimaxN (emptyCount s + 1) s d m := by
  induction f with
  | zero => exact absurd h (Nat.not_lt_zero _)
  | succ f ih =>
    by_cases hf : emptyCount s < f
    · rw [← minimaxN_fuel_succ f s d m hf]
      exact ih hf
    · have : f = emptyCount s := by omega
      rw [this]

theorem minimaxN_fuel_eq (f g : Nat) (s : GameState) (d e : Nat) (m : Bool)
    (hf : emptyCount s < f) (hg : emptyCount s < g) :
    HardAI.minimaxN f s d m = HardAI.minimaxN g s e m := by
  rw [minimaxN_fuel f s d m hf, minimaxN_fuel g s e m hg]
  exact minimaxN_congr _ rfl d e m

/-- The recursion equation of `HardAI::minimax`: the ten levels of the model are enough for every
board. -/
theorem minimax_unfold (s : GameState) (d : Nat) (m : Bool) :
    HardAI.minimax s d m =
      if HardAI.evaluate s ≠ 0 then HardAI.evaluate s
      else if checkDraw s = true then 0
      else idx9.foldl (fun acc i =>
        if emptyAt s i = true then
          (if m then max acc (HardAI.minimax (place s i (if m then 'O' else 'X')) (d + 1) (!m))
           else min acc (HardAI.minimax (place s i (if m then 'O' else 'X')) (d + 1) (!m)))
        else acc) (if m then -1000 else 1000) := by
  unfold HardAI.minimax
  rw [minimaxN_succ 9]
  have hfun : (fun (acc : Int) (i : Fin 9) =>
      if emptyAt s i = true then
        (if m then max acc (HardAI.minimaxN 9 (place s i (if m then 'O' else 'X')) (d + 1) (!m))
         else min acc (HardAI.minimaxN 9 (place s i (if m then 'O' else 'X')) (d + 1) (!m)))
      else acc) = (fun (acc : Int) (i : Fin 9) =>
      if emptyAt s i = true then
        (if m then max acc (HardAI.minimaxN 10 (place s i (if m then 'O' else 'X')) (d + 1) (!m))
         else min acc (HardAI.minimaxN 10 (place s i (if m then 'O' else 'X')) (d + 1) (!m)))
      else acc) := by
    funext acc i
    by_cases hi : emptyAt s i = true
    · have hlt := emptyCount_place_lt hi (mark_not_digit m)
      have hle := emptyCount_le s
      rw [minimaxN_fuel_eq 9 10 _ (d + 1) (d + 1) _ (by omega) (by omega)]
    · simp only [hi, if_false, Bool.false_eq_true]
  rw [hfun]

theorem minimax_congr {s t : GameState} (h : s.board = t.board) (d e : Nat) (m : Bool) :
    HardAI.minimax s d m = HardAI.minimax t e m :=
  minimaxN_congr 10 h d e m

theorem minimax_range (s : GameState) (d : Nat) (m : Bool) :
    -1 ≤ HardAI.minimax s d m ∧ HardAI.minimax s d m ≤ 1 :=
  minimaxN_range 10 s d m

theorem minimax_terminal (s : GameState) (d : Nat) (m : Bool)
    (h : HardAI.evaluate s ≠ 0 ∨ checkDraw s = true) :
    HardAI.minimax s d m = HardAI.evaluate s :=
  minimaxN_terminal 9 s d m h

/-- At an undecided board with O to move, `minimax` is the greatest value of the boards after
O's moves. -/
theorem minimax_max_node (s : GameState) (d : Nat) (he : HardAI.evaluate s = 0)
    (hd : checkDraw s = false) :
    (∀ i, emptyAt s i = true → HardAI.minimax (place s i 'O') 0 false ≤ HardAI.minimax s d true) ∧
    ∃ i, emptyAt s i = true ∧ HardAI.minimax s d true = HardAI.minimax (place s i 'O') 0 false := by
  obtain ⟨i, hi⟩ := exists_empty_of_not_draw hd
  have hu : HardAI.minimax s d true = idx9.foldl (fun acc i => if emptyAt s i = true then
        max acc (HardAI.minimax (place s i 'O') 0 false) else acc) (-1000) := by
    rw [minimax_unfold]
    simp only [he, hd, ne_eq, not_true_eq_false, if_false, Bool.false_eq_true, if_true,
      Bool.not_true]
    have hfun : (fun (acc : Int) (i : Fin 9) => if emptyAt s i = true then
        max acc (HardAI.minimax (place s i 'O') (d + 1) false) else acc) =
        (fun (acc : Int) (i : Fin 9) => if emptyAt s i = true then
        max acc (HardAI.minimax (place s i 'O') 0 false) else acc) := by
      funext acc i
      rw [minimax_congr rfl (d + 1) 0]
    rw [hfun]
  obtain ⟨h1, j, -, hj, hF⟩ := fold_max_node (fun i => emptyAt s i = true)
    (fun i => HardAI.minimax (place s i 'O') 0 false) idx9 ⟨i, mem_idx9 i, hi⟩
    (fun j _ _ => lt_of_lt_of_le (by norm_num) (minimax_range _ _ _).1)
  rw [hu]
  exact ⟨fun k hk => h1 k (mem_idx9 k) hk, j, hj, hF⟩

/-- At an undecided board with X to move, `minimax` is the least value of the boards after
X's moves. -/
theorem minimax_min_node (s : GameState) (d : Nat) (he : HardAI.evaluate s = 0)
    (hd : checkDraw s = false) :
    (∀ i, emptyAt s i = true → HardAI.minimax s d false ≤ HardAI.minimax (place s i 'X') 0 true) ∧
    ∃ i, emptyAt s i = true ∧ HardAI.minimax s d false = HardAI.minimax (place s i 'X') 0 true := by
  obtain ⟨i, hi⟩ := exists_empty_of_not_draw hd
  have hu : HardAI.minimax s d false = idx9.foldl (fun acc i => if emptyAt s i = true then
        min acc (HardAI.minimax (place s i 'X') 0 true) else acc) 1000 := by
    rw [minimax_unfold]
    simp only [he, hd, ne_eq, not_true_eq_false, if_false, Bool.false_eq_true,
      Bool.not_false]
    have hfun : (fun (acc : Int) (i : Fin 9) => if emptyAt s i = true then
        min acc (HardAI.minimax (place s i 'X') (d + 1) true) else acc) =
        (fun (acc : Int) (i : Fin 9) => if emptyAt s i = true then
        min acc (HardAI.minimax (place s i 'X') 0 true) else acc) := by
      funext acc i
      rw [minimax_congr rfl (d + 1) 0]
    rw [hfun]
  obtain ⟨h1, j, -, hj, hF⟩ := fold_min_node (fun i => emptyAt s i = true)
    (fun i => HardAI.minimax (place s i 'X') 0 true) idx9 ⟨i, mem_idx9 i, hi⟩
    (fun j _ _ => lt_of_le_of_lt (minimax_range _ _ _).2 (by norm_num))
  rw [hu]
  exact ⟨fun k hk => h1 k (mem_idx9 k) hk, j, hj, hF⟩

/-! ## The move policies -/

theorem posOf_range (p : Fin 9) : 1 ≤ posOf p ∧ posOf p ≤ 9 := by
  unfold posOf
  have := p.isLt
  omega

theorem posOf_ne_neg_one (p : Fin 9) : posOf p ≠ -1 := by
  have := posOf_range p
  omega

theorem posOf_inj {p q : Fin 9} (h : posOf p = posOf q) : p = q := by
  unfold posOf at h
  exact Fin.ext (by omega)

theorem rowOfPos_posOf (p : Fin 9) (h : 1 ≤ posOf p ∧ posOf p ≤ 9) :
    rowOfPos (posOf p) h = rowOf p := by
  apply Fin.ext
  simp only [rowOfPos, rowOf, posOf]
  omega

theorem colOfPos_posOf (p : Fin 9) (h : 1 ≤ posOf p ∧ posOf p ≤ 9) :
    colOfPos (posOf p) h = colOf p := by
  apply Fin.ext
  simp only [colOfPos, colOf, posOf]
  omega

theorem find_idx9_first {P : Fin 9 → Bool} {p : Fin 9} (h : idx9.find? P = some p) :
    P p = true ∧ ∀ q, q < p → P q = false := by
  obtain ⟨hp, l1, l2, hl, hb⟩ := List.find?_eq_some.mp h
  refine ⟨hp, fun q hq => ?_⟩
  have := hb q (((idx9_split hl q).1).mpr hq)
  simpa using this

theorem find_idx9_none {P : Fin 9 → Bool} (h : idx9.find? P = none) (q : Fin 9) :
    P q = false := by
  have := List.find?_eq_none.mp h q (mem_idx9 q)
  simpa using this

theorem hardAI_getMove_eq (s : GameState) (g : Rand) :
    HardAI.getMove s g =
      ((idx9.foldl (fun (acc : Int × Int) i =>
        if emptyAt s i = true then
          (if HardAI.minimax (place s i 'O') 0 false > acc.1 then
            (HardAI.minimax (place s i 'O') 0 false, posOf i) else acc)
        else acc) (-1000, -1)).2, s, g) := by
  unfold HardAI.getMove
  rw [getMove_loop_eq]

theorem hardAI_getMove_none (s : GameState) (g : Rand) (h : ∀ i, emptyAt s i = false) :
    (HardAI.getMove s g).1 = -1 := by
  rw [hardAI_getMove_eq]
  rcases foldl_argmax_spec (fun i => emptyAt s i = true)
    (fun i => HardAI.minimax (place s i 'O') 0 false) posOf idx9 (-1000) (-1) with
    ⟨h1, -⟩ | ⟨p, l1, l2, -, hp, -⟩
  · simp only [h1]
  · rw [h p] at hp
    exact Bool.noConfusion hp

theorem hardAI_getMove_spec (s : GameState) (g : Rand) (h : ∃ i, emptyAt s i = true) :
    ∃ p : Fin 9, (HardAI.getMove s g).1 = posOf p ∧ emptyAt s p = true ∧
      (∀ q, emptyAt s q = true →
        HardAI.minimax (place s q 'O') 0 false ≤ HardAI.minimax (place s p 'O') 0 false) ∧
      (∀ q, q < p → emptyAt s q = true →
        HardAI.minimax (place s q 'O') 0 false < HardAI.minimax (place s p 'O') 0 false) := by
  rw [hardAI_getMove_eq]
  rcases foldl_argmax_spec (fun i => emptyAt s i = true)
    (fun i => HardAI.minimax (place s i 'O') 0 false) posOf idx9 (-1000) (-1) with
    ⟨-, h2⟩ | ⟨p, l1, l2, hl, hp, -, hres, hb, ha⟩
  · obtain ⟨i, hi⟩ := h
    have h3 := h2 i (mem_idx9 i) hi
    have h4 := (minimax_range (place s i 'O') 0 false).1
    simp only at h3
    omega
  · refine ⟨p, by simp only [hres], hp, fun q hq => ?_, fun q hqp hq => ?_⟩
    · rcases lt_trichotomy q p with hlt | heq | hgt
      · exact le_of_lt (hb q ((idx9_split hl q).1.mpr hlt) hq)
      · rw [heq]
      · exact ha q ((idx9_split hl q).2.mpr hgt) hq
    · exact hb q ((idx9_split hl q).1.mpr hqp) hq

/-- C4: on a board with an Empty cell, `HardAI::getMove` returns the position `p` of an Empty
cell such that the minimax value of the board with 'O' at `p` (X to move) is the greatest over
all Empty positions, and is strictly greater than at every lower-numbered Empty position. -/
theorem hardAI_getMove_argmax (state : GameState) (g : Rand)
    (h : ∃ i, emptyAt state i = true) :
    ∃ p : Fin 9, (HardAI.getMove state g).1 = posOf p ∧ 1 ≤ posOf p ∧ posOf p ≤ 9 ∧
      emptyAt state p = true ∧
      (∀ q, emptyAt state q = true →
        HardAI.minimax (place state q 'O') 0 false ≤
          HardAI.minimax (place state p 'O') 0 false) ∧
      (∀ q, q < p → emptyAt state q = true →
        HardAI.minimax (place state q 'O') 0 false <
          HardAI.minimax (place state p 'O') 0 false) := by
  obtain ⟨p, h1, h2, h3, h4⟩ := hardAI_getMove_spec state g h
  exact ⟨p, h1, (posOf_range p).1, (posOf_range p).2, h2, h3, h4⟩

/-- C4 at the board `X O X / 4 X 6 / O 8 9`. -/
theorem hardAI_getMove_argmax_witness :
    (∃ i, emptyAt (stateOf ['X', 'O', 'X', '4', 'X', '6', 'O', '8', '9']) i = true) ∧
    ∃ p : Fin 9,
      (HardAI.getMove (stateOf ['X', 'O', 'X', '4', 'X', '6', 'O', '8', '9']) (fun _ => 0)).1
        = posOf p ∧ 1 ≤ posOf p ∧ posOf p ≤ 9 ∧
      emptyAt (stateOf ['X', 'O', 'X', '4', 'X', '6', 'O', '8', '9']) p = true ∧
      (∀ q, emptyAt (stateOf ['X', 'O', 'X', '4', 'X', '6', 'O', '8', '9']) q = true →
        HardAI.minimax (place (stateOf ['X', 'O', 'X', '4', 'X', '6', 'O', '8', '9']) q 'O') 0 false
          ≤ HardAI.minimax (place (stateOf ['X', 'O', 'X', '4', 'X', '6', 'O', '8', '9']) p 'O')
            0 false) ∧
      (∀ q, q < p → emptyAt (stateOf ['X', 'O', 'X', '4', 'X', '6', 'O', '8', '9']) q = true →
        HardAI.minimax (place (stateOf ['X', 'O', 'X', '4', 'X', '6', 'O', '8', '9']) q 'O') 0 false
          < HardAI.minimax (place (stateOf ['X', 'O', 'X', '4', 'X', '6', 'O', '8', '9']) p 'O')
            0 false) :=
  ⟨⟨3, by decide⟩, hardAI_getMove_argmax _ _ ⟨3, by decide⟩⟩

theorem mediumAI_getMove_eq (s : GameState) (g : Rand) :
    MediumAI.getMove s g =
      match idx9.find? (winsAt s 'O') with
      | some i => (posOf i, s, g)
      | none =>
        match idx9.find? (winsAt s 'X') with
        | some i => (posOf i, s, g)
        | none => EasyAI.getMove s g := by
  unfold MediumAI.getMove
  rw [scan_eq]
  have e1 : (fun i => emptyAt s i && checkWin (place s i 'O') 'O') = winsAt s 'O' := rfl
  have e2 : (fun i => emptyAt s i && checkWin (place s i 'X') 'X') = winsAt s 'X' := rfl
  rw [e1]
  cases h1 : idx9.find? (winsAt s 'O') with
  | some i => rfl
  | none =>
    simp only [Option.map_none']
    rw [scan_eq, e2]
    cases h2 : idx9.find? (winsAt s 'X') with
    | some i => rfl
    | none => rfl

theorem find_idx9_some_of {P : Fin 9 → Bool} (h : ∃ i, P i = true) :
    ∃ p, idx9.find? P = some p := by
  cases hf : idx9.find? P with
  | some p => exact ⟨p, rfl⟩
  | none =>
    obtain ⟨i, hi⟩ := h
    rw [find_idx9_none hf i] at hi
    exact Bool.noConfusion hi

/-- C7: when some Empty position wins for O at once, `MediumAI::getMove` returns the
lowest-numbered such position, whatever the rest of the board and the random source. -/
theorem mediumAI_takes_win (state : GameState) (g : Rand)
    (h : ∃ i, emptyAt state i = true ∧ checkWin (place state i 'O') 'O' = true) :
    ∃ p : Fin 9, (MediumAI.getMove state g).1 = posOf p ∧
      emptyAt state p = true ∧ checkWin (place state p 'O') 'O' = true ∧
      ∀ q, q < p → ¬ (emptyAt state q = true ∧ checkWin (place state q 'O') 'O' = true) := by
  obtain ⟨i, hi1, hi2⟩ := h
  obtain ⟨p, hp⟩ := find_idx9_some_of (P := winsAt state 'O') ⟨i, by simp [winsAt, hi1, hi2]⟩
  obtain ⟨hw, hfirst⟩ := find_idx9_first hp
  simp only [winsAt, Bool.and_eq_true] at hw
  refine ⟨p, ?_, hw.1, hw.2, fun q hq hcon => ?_⟩
  · rw [mediumAI_getMove_eq, hp]
  · have := hfirst q hq
    simp [winsAt, hcon.1, hcon.2] at this

/-- C7 at the board `O O 3 / X X 6 / X 8 9`: O completes the top row at 3 although X threatens
to complete the middle row at 6. -/
theorem mediumAI_takes_win_witness :
    (∃ i, emptyAt (stateOf ['O', 'O', '3', 'X', 'X', '6', 'X', '8', '9']) i = true ∧
      checkWin (place (stateOf ['O', 'O', '3', 'X', 'X', '6', 'X', '8', '9']) i 'O') 'O' = true) ∧
    ∃ p : Fin 9,
      (MediumAI.getMove (stateOf ['O', 'O', '3', 'X', 'X', '6', 'X', '8', '9']) (fun _ => 5)).1
        = posOf p ∧
      emptyAt (stateOf ['O', 'O', '3', 'X', 'X', '6', 'X', '8', '9']) p = true ∧
      checkWin (place (stateOf ['O', 'O', '3', 'X', 'X', '6', 'X', '8', '9']) p 'O') 'O' = true ∧
      ∀ q, q < p →
        ¬ (emptyAt (stateOf ['O', 'O', '3', 'X', 'X', '6', 'X', '8', '9']) q = true ∧
          checkWin (place (stateOf ['O', 'O', '3', 'X', 'X', '6', 'X', '8', '9']) q 'O') 'O'
            = true) :=
  ⟨⟨2, by decide⟩, mediumAI_takes_win _ _ ⟨2, by decide⟩⟩

/-- C8: when no Empty position wins for O at once but some Empty position would win for X,
`MediumAI::getMove` returns the lowest-numbered such position, whatever the random source. -/
theorem mediumAI_blocks (state : GameState) (g : Rand)
    (hno : ∀ i, ¬ (emptyAt state i = true ∧ checkWin (place state i 'O') 'O' = true))
    (h : ∃ i, emptyAt state i = true ∧ checkWin (place state i 'X') 'X' = true) :
    ∃ p : Fin 9, (MediumAI.getMove state g).1 = posOf p ∧
      emptyAt state p = true ∧ checkWin (place state p 'X') 'X' = true ∧
      ∀ q, q < p → ¬ (emptyAt state q = true ∧ checkWin (place state q 'X') 'X' = true) := by
  have hO : idx9.find? (winsAt state 'O') = none := by
    rw [List.find?_eq_none]
    intro x _ hx
    simp only [winsAt, Bool.and_eq_true] at hx
    exact hno x hx
  obtain ⟨i, hi1, hi2⟩ := h
  obtain ⟨p, hp⟩ := find_idx9_some_of (P := winsAt state 'X') ⟨i, by simp [winsAt, hi1, hi2]⟩
  obtain ⟨hw, hfirst⟩ := find_idx9_first hp
  simp only [winsAt, Bool.and_eq_true] at hw
  refine ⟨p, ?_, hw.1, hw.2, fun q hq hcon => ?_⟩
  · rw [mediumAI_getMove_eq, hO]
    simp only [hp]
  · have := hfirst q hq
    simp [winsAt, hcon.1, hcon.2] at this

/-- C8 at the board `X X 3 / O O X / X O O`: X threatens the top row, O has no winning move, and
the policy answers 3 for every random source. -/
theorem mediumAI_blocks_witness :
    (∀ g : Rand,
      (MediumAI.getMove (stateOf ['X', 'X', '3', 'O', 'O', 'X', 'X', 'O', 'O']) g).1 = 3) ∧
    ∃ p : Fin 9,
      (MediumAI.getMove (stateOf ['X', 'X', '3', 'O', 'O', 'X', 'X', 'O', 'O']) (fun _ => 7)).1
        = posOf p ∧
      emptyAt (stateOf ['X', 'X', '3', 'O', 'O', 'X', 'X', 'O', 'O']) p = true ∧
      checkWin (place (stateOf ['X', 'X', '3', 'O', 'O', 'X', 'X', 'O', 'O']) p 'X') 'X' = true ∧
      ∀ q, q < p →
        ¬ (emptyAt (stateOf ['X', 'X', '3', 'O', 'O', 'X', 'X', 'O', 'O']) q = true ∧
          checkWin (place (stateOf ['X', 'X', '3', 'O', 'O', 'X', 'X', 'O', 'O']) q 'X') 'X'
            = true) :=
  ⟨fun g => by
      obtain ⟨p, h1, h2, -, -⟩ := mediumAI_blocks
        (stateOf ['X', 'X', '3', 'O', 'O', 'X', 'X', 'O', 'O']) g (by decide) ⟨2, by decide⟩
      have key : ∀ q : Fin 9,
          emptyAt (stateOf ['X', 'X', '3', 'O', 'O', 'X', 'X', 'O', 'O']) q = true → q = 2 := by
        decide
      have hp : p = 2 := key p h2
      rw [h1, hp]
      rfl,
    mediumAI_blocks _ _ (by decide) ⟨2, by decide⟩⟩

theorem easyAI_getMove_none (s : GameState) (g : Rand) (h : ∀ i, emptyAt s i = false) :
    EasyAI.getMove s g = (-1, s, g) := by
  have ha : EasyAI.available s idx9 = [] := by
    rw [available_eq, List.map_eq_nil_iff, List.filter_eq_nil_iff]
    intro a _
    rw [h a]
    exact Bool.false_ne_true
  unfold EasyAI.getMove
  simp only [ha, dif_pos]

theorem easyAI_getMove_mem (s : GameState) (g : Rand) (h : ∃ i, emptyAt s i = true) :
    (EasyAI.getMove s g).1 ∈ EasyAI.available s idx9 := by
  have ha : EasyAI.available s idx9 ≠ [] := by
    rw [available_eq, Ne, List.map_eq_nil_iff, List.filter_eq_nil_iff]
    intro hall
    obtain ⟨i, hi⟩ := h
    exact hall i (mem_idx9 i) hi
  unfold EasyAI.getMove
  simp only [ha, dif_neg, not_false_eq_true]
  exact List.get_mem _ _ _

theorem easyAI_getMove_some (s : GameState) (g : Rand) (h : ∃ i, emptyAt s i = true) :
    ∃ p : Fin 9, (EasyAI.getMove s g).1 = posOf p ∧ emptyAt s p = true := by
  have hm := easyAI_getMove_mem s g h
  rw [available_eq, List.mem_map] at hm
  obtain ⟨p, hp, hpe⟩ := hm
  exact ⟨p, hpe.symm, (List.mem_filter.mp hp).2⟩

theorem mediumAI_getMove_none (s : GameState) (g : Rand) (h : ∀ i, emptyAt s i = false) :
    (MediumAI.getMove s g).1 = -1 := by
  have hO : idx9.find? (winsAt s 'O') = none := by
    rw [List.find?_eq_none]
    intro x _
    simp [winsAt, h x]
  have hX : idx9.find? (winsAt s 'X') = none := by
    rw [List.find?_eq_none]
    intro x _
    simp [winsAt, h x]
  rw [mediumAI_getMove_eq, hO]
  simp only [hX]
  rw [easyAI_getMove_none s g h]

theorem mediumAI_getMove_some (s : GameState) (g : Rand) (h : ∃ i, emptyAt s i = true) :
    ∃ p : Fin 9, (MediumAI.getMove s g).1 = posOf p ∧ emptyAt s p = true := by
  rw [mediumAI_getMove_eq]
  cases hO : idx9.find? (winsAt s 'O') with
  | some p =>
    have := (find_idx9_first hO).1
    simp only [winsAt, Bool.and_eq_true] at this
    exact ⟨p, rfl, this.1⟩
  | none =>
    cases hX : idx9.find? (winsAt s 'X') with
    | some p =>
      have := (find_idx9_first hX).1
      simp only [winsAt, Bool.and_eq_true] at this
      exact ⟨p, rfl, this.1⟩
    | none => exact easyAI_getMove_some s g h

theorem AI_getMove_none (d : Difficulty) (s : GameState) (g : Rand)
    (h : ∀ i, emptyAt s i = false) : (AI.getMove d s g).1 = -1 := by
  cases d
  · show (EasyAI.getMove s g).1 = -1
    rw [easyAI_getMove_none s g h]
  · exact mediumAI_getMove_none s g h
  · exact hardAI_getMove_none s g h

theorem AI_getMove_some (d : Difficulty) (s : GameState) (g : Rand)
    (h : ∃ i, emptyAt s i = true) :
    ∃ p : Fin 9, (AI.getMove d s g).1 = posOf p ∧ emptyAt s p = true := by
  cases d
  · exact easyAI_getMove_some s g h
  · exact mediumAI_getMove_some s g h
  · obtain ⟨p, h1, h2, -⟩ := hardAI_getMove_spec s g h
    exact ⟨p, h1, h2⟩

theorem no_empty_iff (s : GameState) :
    (∀ r c : Fin 3, isdigit (s.board r c) = false) ↔ ∀ i, emptyAt s i = false := by
  constructor
  · intro h i
    exact h _ _
  · intro h r c
    obtain ⟨i, hr, hc⟩ := cell_surj r c
    have := h i
    unfold emptyAt at this
    rwa [hr, hc] at this

/-- C9: for each of the three policies, every board and every random source, `getMove` returns
`-1` exactly when the board has no Empty cell, and otherwise a position in `1..9` whose cell is
Empty. -/
theorem getMove_legal (d : Difficulty) (state : GameState) (g : Rand) :
    ((AI.getMove d state g).1 = -1 ↔ ∀ r c : Fin 3, isdigit (state.board r c) = false) ∧
    ((AI.getMove d state g).1 = -1 ∨
      ∃ h : 1 ≤ (AI.getMove d state g).1 ∧ (AI.getMove d state g).1 ≤ 9,
        isdigit (state.board (rowOfPos (AI.getMove d state g).1 h)
          (colOfPos (AI.getMove d state g).1 h)) = true) := by
  by_cases he : ∃ i, emptyAt state i = true
  · obtain ⟨p, hp, hpe⟩ := AI_getMove_some d state g he
    constructor
    · constructor
      · intro h1
        rw [hp] at h1
        exact absurd h1 (posOf_ne_neg_one p)
      · intro hall
        obtain ⟨i, hi⟩ := he
        rw [(no_empty_iff state).mp hall i] at hi
        exact Bool.noConfusion hi
    · right
      rw [hp]
      refine ⟨posOf_range p, ?_⟩
      rw [rowOfPos_posOf, colOfPos_posOf]
      exact hpe
  · have hall : ∀ i, emptyAt state i = false := by
      intro i
      cases hi : emptyAt state i
      · rfl
      · exact absurd ⟨i, hi⟩ he
    have hm := AI_getMove_none d state g hall
    exact ⟨⟨fun _ => (no_empty_iff state).mpr hall, fun _ => hm⟩, Or.inl hm⟩

/-- C10 as stated fails: after X has taken the centre, `MediumAI::getMove` answers position 1 when
`rand()` returns 0 and position 2 when it returns 1. -/
theorem mediumAI_getMove_depends_on_rand :
    (MediumAI.getMove (stateOf ['1', '2', '3', '4', 'X', '6', '7', '8', '9']) (fun _ => 0)).1 ≠
    (MediumAI.getMove (stateOf ['1', '2', '3', '4', 'X', '6', '7', '8', '9']) (fun _ => 1)).1 := by
  decide

theorem idx9_nodup : idx9.Nodup := by
  unfold idx9
  decide

theorem available_nodup (s : GameState) : (EasyAI.available s idx9).Nodup := by
  rw [available_eq]
  exact (idx9_nodup.filter _).map (fun _ _ h => posOf_inj h)

theorem available_length (s : GameState) : (EasyAI.available s idx9).length = emptyCount s := by
  rw [available_eq, List.length_map, emptyCount, List.countP_eq_length_filter]

theorem easyAI_getMove_val (s : GameState) (g : Rand) (h : EasyAI.available s idx9 ≠ []) :
    (EasyAI.getMove s g).1 = (EasyAI.available s idx9).get
      ⟨g 0 % (EasyAI.available s idx9).length, Nat.mod_lt _ (List.length_pos.mpr h)⟩ := by
  unfold EasyAI.getMove
  simp only [h, dif_neg, not_false_eq_true, rand]

/-- With fewer than two Empty cells the choice of `EasyAI::getMove` does not depend on the random
source; with two or more it does. -/
theorem easyAI_deterministic_iff (s : GameState) :
    (∀ g1 g2 : Rand, (EasyAI.getMove s g1).1 = (EasyAI.getMove s g2).1) ↔ emptyCount s ≤ 1 := by
  constructor
  · intro h
    by_contra hc
    have hlen : 2 ≤ (EasyAI.available s idx9).length := by
      rw [available_length]
      omega
    have hne : EasyAI.available s idx9 ≠ [] := by
      intro h0
      rw [h0] at hlen
      simp at hlen
    have h01 := h (fun _ => 0) (fun _ => 1)
    rw [easyAI_getMove_val s _ hne, easyAI_getMove_val s _ hne] at h01
    have := (available_nodup s).get_inj_iff.mp h01
    simp only [Fin.mk.injEq] at this
    rw [Nat.zero_mod, Nat.mod_eq_of_lt (by omega)] at this
    exact absurd this (by norm_num)
  · intro h g1 g2
    by_cases hne : EasyAI.available s idx9 = []
    · unfold EasyAI.getMove
      simp only [hne, dif_pos]
    · rw [easyAI_getMove_val s _ hne, easyAI_getMove_val s _ hne]
      have hlen : (EasyAI.available s idx9).length = 1 := by
        have := List.length_pos.mpr hne
        rw [available_length] at this ⊢
        omega
      congr 2
      rw [hlen, Nat.mod_one, Nat.mod_one]

/-- C10, amended: `HardAI::getMove` is a function of the board alone; `MediumAI::getMove` is one
exactly on the boards where some Empty position wins at once for O or for X, or fewer than two
cells are Empty. -/
theorem getMove_deterministic_amended (state : GameState) :
    (∀ g1 g2 : Rand, (HardAI.getMove state g1).1 = (HardAI.getMove state g2).1) ∧
    ((∀ g1 g2 : Rand, (MediumAI.getMove state g1).1 = (MediumAI.getMove state g2).1) ↔
      ((∃ i, emptyAt state i = true ∧ checkWin (place state i 'O') 'O' = true) ∨
       (∃ i, emptyAt state i = true ∧ checkWin (place state i 'X') 'X' = true) ∨
       emptyCount state ≤ 1)) := by
  constructor
  · intro g1 g2
    rw [hardAI_getMove_eq, hardAI_getMove_eq]
  · cases hO : idx9.find? (winsAt state 'O') with
    | some p =>
      have hw := (find_idx9_first hO).1
      simp only [winsAt, Bool.and_eq_true] at hw
      constructor
      · intro _
        exact Or.inl ⟨p, hw⟩
      · intro _ g1 g2
        rw [mediumAI_getMove_eq, mediumAI_getMove_eq, hO]
    | none =>
      have hnO : ¬ ∃ i, emptyAt state i = true ∧ checkWin (place state i 'O') 'O' = true := by
        rintro ⟨i, hi1, hi2⟩
        have := find_idx9_none hO i
        simp [winsAt, hi1, hi2] at this
      cases hX : idx9.find? (winsAt state 'X') with
      | some p =>
        have hw := (find_idx9_first hX).1
        simp only [winsAt, Bool.and_eq_true] at hw
        constructor
        · intro _
          exact Or.inr (Or.inl ⟨p, hw⟩)
        · intro _ g1 g2
          rw [mediumAI_getMove_eq, mediumAI_getMove_eq, hO]
          simp only [hX]
      | none =>
        have hnX : ¬ ∃ i, emptyAt state i = true ∧ checkWin (place state i 'X') 'X' = true := by
          rintro ⟨i, hi1, hi2⟩
          have := find_idx9_none hX i
          simp [winsAt, hi1, hi2] at this
        have hmed : ∀ g, MediumAI.getMove state g = EasyAI.getMove state g := by
          intro g
          rw [mediumAI_getMove_eq, hO]
          simp only [hX]
        constructor
        · intro h
          right
          right
          refine (easyAI_deterministic_iff state).mp (fun g1 g2 => ?_)
          rw [← hmed, ← hmed]
          exact h g1 g2
        · intro h g1 g2
          rcases h with h | h | h
          · exact absurd h hnO
          · exact absurd h hnX
          · rw [hmed, hmed]
            exact (easyAI_deterministic_iff state).mpr h g1 g2

/-! ## Forced wins and the minimax value -/

theorem evaluate_zero {s : GameState} (hX : checkWin s 'X' = false)
    (hO : checkWin s 'O' = false) : HardAI.evaluate s = 0 := by
  unfold HardAI.evaluate
  simp [hX, hO]

theorem evaluate_X {s : GameState} (hX : checkWin s 'X' = true)
    (hO : checkWin s 'O' = false) : HardAI.evaluate s = -1 := by
  unfold HardAI.evaluate
  simp [hX, hO]

theorem evaluate_O {s : GameState} (hO : checkWin s 'O' = true) : HardAI.evaluate s = 1 := by
  unfold HardAI.evaluate
  simp [hO]

theorem minimax_X_won {s : GameState} (d : Nat) (m : Bool) (hX : checkWin s 'X' = true)
    (hO : checkWin s 'O' = false) : HardAI.minimax s d m = -1 := by
  rw [minimax_terminal s d m (Or.inl (by rw [evaluate_X hX hO]; norm_num)), evaluate_X hX hO]

theorem minimax_O_won {s : GameState} (d : Nat) (m : Bool) (hO : checkWin s 'O' = true) :
    HardAI.minimax s d m = 1 := by
  rw [minimax_terminal s d m (Or.inl (by rw [evaluate_O hO]; norm_num)), evaluate_O hO]

theorem minimax_full {s : GameState} (d : Nat) (m : Bool) (hX : checkWin s 'X' = false)
    (hO : checkWin s 'O' = false) (hd : checkDraw s = true) : HardAI.minimax s d m = 0 := by
  rw [minimax_terminal s d m (Or.inr hd), evaluate_zero hX hO]

/-- A forced X win gives the minimax value `-1`. -/
theorem minimax_of_forcesX {s : GameState} {b : Bool} (h : ForcesWin 'X' 'O' s b) :
    Undecided s → HardAI.minimax s 0 (!b) = -1 := by
  induction h with
  | win s i he hw =>
    intro hu
    have hO : checkWin (place s i 'X') 'O' = false := checkWin_place_other_false X_ne_O hu.2.1
    have hc := minimax_X_won 0 true hw hO
    have hn := (minimax_min_node s 0 (evaluate_zero hu.1 hu.2.1) hu.2.2).1 i he
    have hr := (minimax_range s 0 false).1
    simp only [Bool.not_true]
    omega
  | move s i he hw hd _ ih =>
    intro hu
    have hO : checkWin (place s i 'X') 'O' = false := checkWin_place_other_false X_ne_O hu.2.1
    have hc := ih ⟨hw, hO, hd⟩
    simp only [Bool.not_false] at hc
    have hn := (minimax_min_node s 0 (evaluate_zero hu.1 hu.2.1) hu.2.2).1 i he
    have hr := (minimax_range s 0 false).1
    simp only [Bool.not_true]
    omega
  | reply s _ hw hd _ ih =>
    intro hu
    obtain ⟨i, hi, hF⟩ := (minimax_max_node s 0 (evaluate_zero hu.1 hu.2.1) hu.2.2).2
    have hX : checkWin (place s i 'O') 'X' = false := checkWin_place_other_false O_ne_X hu.1
    have hc := ih i hi ⟨hX, hw i hi, hd i hi⟩
    simp only [Bool.not_true] at hc
    simp only [Bool.not_false]
    rw [hF, hc]

/-- The minimax value `-1` on an undecided board gives a forced X win. -/
theorem forcesX_of_minimax (n : Nat) :
    ∀ (s : GameState) (b : Bool), emptyCount s ≤ n → Undecided s →
      HardAI.minimax s 0 (!b) = -1 → ForcesWin 'X' 'O' s b := by
  induction n with
  | zero =>
    intro s b hn hu _
    obtain ⟨i, hi⟩ := exists_empty_of_not_draw hu.2.2
    have := emptyCount_place_lt hi isdigit_X
    omega
  | succ n ih =>
    intro s b hn hu hv
    cases b
    · simp only [Bool.not_false] at hv
      obtain ⟨hle, -⟩ := minimax_max_node s 0 (evaluate_zero hu.1 hu.2.1) hu.2.2
      have hchild : ∀ i, emptyAt s i = true → HardAI.minimax (place s i 'O') 0 false = -1 := by
        intro i hi
        have h1 := hle i hi
        have h2 := (minimax_range (place s i 'O') 0 false).1
        omega
      have hX : ∀ i, checkWin (place s i 'O') 'X' = false :=
        fun i => checkWin_place_other_false O_ne_X hu.1
      have hO : ∀ i, emptyAt s i = true → checkWin (place s i 'O') 'O' = false := by
        intro i hi
        cases hc : checkWin (place s i 'O') 'O'
        · rfl
        · have := minimax_O_won 0 false hc
          rw [hchild i hi] at this
          exact absurd this (by norm_num)
      have hD : ∀ i, emptyAt s i = true → checkDraw (place s i 'O') = false := by
        intro i hi
        cases hc : checkDraw (place s i 'O')
        · rfl
        · have := minimax_full 0 false (hX i) (hO i hi) hc
          rw [hchild i hi] at this
          exact absurd this (by norm_num)
      refine ForcesWin.reply s (exists_empty_of_not_draw hu.2.2) hO hD (fun i hi => ?_)
      have hlt := emptyCount_place_lt hi isdigit_O
      exact ih (place s i 'O') true (by omega) ⟨hX i, hO i hi, hD i hi⟩
        (by simpa using hchild i hi)
    · simp only [Bool.not_true] at hv
      obtain ⟨-, i, hi, hF⟩ := minimax_min_node s 0 (evaluate_zero hu.1 hu.2.1) hu.2.2
      rw [hv] at hF
      have hO : checkWin (place s i 'X') 'O' = false := checkWin_place_other_false X_ne_O hu.2.1
      cases hw : checkWin (place s i 'X') 'X'
      · have hD : checkDraw (place s i 'X') = false := by
          cases hc : checkDraw (place s i 'X')
          · rfl
          · have := minimax_full 0 true hw hO hc
            rw [← hF] at this
            exact absurd this (by norm_num)
        have hlt := emptyCount_place_lt hi isdigit_X
        exact ForcesWin.move s i hi hw hD
          (ih (place s i 'X') false (by omega) ⟨hw, hO, hD⟩ (by simpa using hF.symm))
      · exact ForcesWin.win s i hi hw

/-- After O fills the Empty cell `p` of an undecided board, X can force a win exactly when the
minimax value of the new board, X to move, is `-1`. -/
theorem xForcesWinAfter_iff {s : GameState} (hu : Undecided s) (p : Fin 9) :
    XForcesWinAfter s p ↔ HardAI.minimax (place s p 'O') 0 false = -1 := by
  have hX : checkWin (place s p 'O') 'X' = false := checkWin_place_other_false O_ne_X hu.1
  constructor
  · rintro ⟨h1, h2, h3⟩
    have := minimax_of_forcesX h3 ⟨hX, h1, h2⟩
    simpa using this
  · intro hv
    have hO : checkWin (place s p 'O') 'O' = false := by
      cases hc : checkWin (place s p 'O') 'O'
      · rfl
      · have := minimax_O_won 0 false hc
        rw [hv] at this
        exact absurd this (by norm_num)
    have hD : checkDraw (place s p 'O') = false := by
      cases hc : checkDraw (place s p 'O')
      · rfl
      · have := minimax_full 0 false hX hO hc
        rw [hv] at this
        exact absurd this (by norm_num)
    exact ⟨hO, hD, forcesX_of_minimax 9 _ true (emptyCount_le _) ⟨hX, hO, hD⟩ (by simpa using hv)⟩

/-- C5: on an undecided board with O to move, if some Empty position leaves X without a strategy
that forces an X win, then the position returned by `HardAI::getMove` is Empty and leaves X
without such a strategy. -/
theorem hardAI_keeps_no_loss (state : GameState) (g : Rand) (hu : Undecided state)
    (h : ∃ q, emptyAt state q = true ∧ ¬ XForcesWinAfter state q) :
    ∃ p : Fin 9, (HardAI.getMove state g).1 = posOf p ∧ emptyAt state p = true ∧
      ¬ XForcesWinAfter state p := by
  obtain ⟨q, hq, hnq⟩ := h
  obtain ⟨p, hp1, hp2, hmax, -⟩ := hardAI_getMove_spec state g ⟨q, hq⟩
  refine ⟨p, hp1, hp2, fun hcon => ?_⟩
  have hvp := (xForcesWinAfter_iff hu p).mp hcon
  have hle := hmax q hq
  have hr := (minimax_range (place state q 'O') 0 false).1
  exact hnq ((xForcesWinAfter_iff hu q).mpr (by omega))

/-- C5 at the board `O O 3 / X X 6 / X 8 9`: position 3 wins for O, so X cannot force a win
after it. -/
theorem hardAI_keeps_no_loss_witness :
    Undecided (stateOf ['O', 'O', '3', 'X', 'X', '6', 'X', '8', '9']) ∧
    (∃ q, emptyAt (stateOf ['O', 'O', '3', 'X', 'X', '6', 'X', '8', '9']) q = true ∧
      ¬ XForcesWinAfter (stateOf ['O', 'O', '3', 'X', 'X', '6', 'X', '8', '9']) q) ∧
    ∃ p : Fin 9,
      (HardAI.getMove (stateOf ['O', 'O', '3', 'X', 'X', '6', 'X', '8', '9']) (fun _ => 0)).1
        = posOf p ∧
      emptyAt (stateOf ['O', 'O', '3', 'X', 'X', '6', 'X', '8', '9']) p = true ∧
      ¬ XForcesWinAfter (stateOf ['O', 'O', '3', 'X', 'X', '6', 'X', '8', '9']) p :=
  ⟨⟨by decide, by decide, by decide⟩,
    ⟨2, by decide, fun h => absurd h.1 (by decide)⟩,
    hardAI_keeps_no_loss _ _ ⟨by decide, by decide, by decide⟩
      ⟨2, by decide, fun h => absurd h.1 (by decide)⟩⟩

/-! ## The compact grid agrees with the board -/

theorem isX_ofChar (c : Char) : (Cell.ofChar c).isX = true ↔ c = 'X' := by
  unfold Cell.ofChar
  split
  · simp [Cell.isX, *]
  · split
    · simp [Cell.isX, *]
    · split <;> simp [Cell.isX, *]

theorem isO_ofChar (c : Char) : (Cell.ofChar c).isO = true ↔ c = 'O' := by
  unfold Cell.ofChar
  split
  · rename_i h
    subst h
    simp [Cell.isO]
  · split
    · simp [Cell.isO, *]
    · split <;> simp [Cell.isO, *]

theorem isE_ofChar (c : Char) : (Cell.ofChar c).isE = isdigit c := by
  unfold Cell.ofChar
  split
  · rename_i h
    subst h
    rfl
  · split
    · rename_i h
      subst h
      rfl
    · split
      · rename_i h
        simp [Cell.isE, h]
      · rename_i h
        simp only [Bool.not_eq_true] at h
        simp [Cell.isE, h]

theorem ofChar_X : Cell.ofChar 'X' = Cell.X := by decide

theorem ofChar_O : Cell.ofChar 'O' = Cell.O := by decide

theorem grid_winX (s : GameState) : (Grid.ofState s).winX = checkWin s 'X' := by
  rw [Bool.eq_iff_iff, checkWin_eq]
  simp only [Grid.winX, Grid.ofState, Bool.or_eq_true, Bool.and_eq_true, isX_ofChar, lineOf,
    or_assoc, and_assoc]

theorem grid_winO (s : GameState) : (Grid.ofState s).winO = checkWin s 'O' := by
  rw [Bool.eq_iff_iff, checkWin_eq]
  simp only [Grid.winO, Grid.ofState, Bool.or_eq_true, Bool.and_eq_true, isO_ofChar, lineOf,
    or_assoc, and_assoc]

theorem grid_get (s : GameState) (i : Fin 9) :
    (Grid.ofState s).get i = Cell.ofChar (s.board (rowOf i) (colOf i)) := by
  fin_cases i <;> rfl

theorem grid_isE (s : GameState) (i : Fin 9) : ((Grid.ofState s).get i).isE = emptyAt s i := by
  rw [grid_get, isE_ofChar]
  rfl

theorem grid_full (s : GameState) : (Grid.ofState s).full = checkDraw s := by
  have h : (Grid.ofState s).full = !(((Grid.ofState s).get 0).isE || ((Grid.ofState s).get 1).isE
      || ((Grid.ofState s).get 2).isE || ((Grid.ofState s).get 3).isE
      || ((Grid.ofState s).get 4).isE || ((Grid.ofState s).get 5).isE
      || ((Grid.ofState s).get 6).isE || ((Grid.ofState s).get 7).isE
      || ((Grid.ofState s).get 8).isE) := rfl
  rw [h]
  simp only [grid_isE]
  cases hd : checkDraw s
  · obtain ⟨i, hi⟩ := exists_empty_of_not_draw hd
    fin_cases i <;> simp at hi <;> simp [hi]
  · have hall := (no_empty_iff s).mp ((checkDraw_eq s).mp hd)
    simp [hall]

theorem grid_place (s : GameState) (i : Fin 9) (v : Char) :
    Grid.ofState (place s i v) = (Grid.ofState s).set (Cell.ofChar v) i := by
  fin_cases i <;>
    simp [Grid.ofState, Grid.set, place, GameState.setCell, rowOf, colOf]

/-- The search on the compact grid is sound: when it answers `true`, the minimax value is at
least `0`. -/
theorem Grid.safe_sound (n : Nat) :
    ∀ (s : GameState) (d : Nat) (m : Bool), Grid.safe n (Grid.ofState s) m = true →
      0 ≤ HardAI.minimaxN n s d m := by
  induction n with
  | zero =>
    intro s d m h
    simp [Grid.safe] at h
  | succ n ih =>
    intro s d m h
    rw [Grid.safe, grid_winO, grid_winX, grid_full] at h
    cases hO : checkWin s 'O'
    · cases hX : checkWin s 'X'
      · cases hD : checkDraw s
        · simp only [hO, hX, hD, Bool.false_eq_true, if_false] at h
          have he := evaluate_zero hX hO
          obtain ⟨e, hex⟩ := exists_empty_of_not_draw hD
          cases m
          · simp only [Bool.false_eq_true, if_false, List.all_eq_true, Bool.or_eq_true,
              Bool.not_eq_true', grid_isE] at h
            rw [minimaxN_succ_min n s d he hD]
            obtain ⟨-, j, -, hj, hF⟩ := fold_min_node (fun i => emptyAt s i = true)
              (fun i => HardAI.minimaxN n (place s i 'X') (d + 1) true) idx9 ⟨e, mem_idx9 e, hex⟩
              (fun j _ _ => lt_of_le_of_lt (minimaxN_range _ _ _ _).2 (by norm_num))
            rw [hF]
            rcases h j (mem_idx9 j) with hc | hc
            · rw [hj] at hc
              exact Bool.noConfusion hc
            · apply ih
              rw [grid_place, ofChar_X]
              exact hc
          · simp only [if_true, List.any_eq_true, Bool.and_eq_true, grid_isE] at h
            obtain ⟨i, -, hi, hs⟩ := h
            rw [minimaxN_succ_max n s d he hD]
            obtain ⟨hle, -⟩ := fold_max_node (fun i => emptyAt s i = true)
              (fun i => HardAI.minimaxN n (place s i 'O') (d + 1) false) idx9 ⟨e, mem_idx9 e, hex⟩
              (fun j _ _ => lt_of_lt_of_le (by norm_num) (minimaxN_range _ _ _ _).1)
            refine le_trans ?_ (hle i (mem_idx9 i) hi)
            apply ih
            rw [grid_place, ofChar_O]
            exact hs
        · rw [minimaxN_terminal n s d m (Or.inr hD), evaluate_zero hX hO]
      · simp [hO, hX] at h
    · rw [minimaxN_terminal n s d m (Or.inl (by rw [evaluate_O hO]; norm_num)), evaluate_O hO]
      norm_num

/-! ## The round controller -/

theorem conclude_board (s : GameState) : (conclude s).board = s.board := by
  unfold conclude
  split_ifs <;> rfl

theorem conclude_continue {s : GameState} (hw : checkWin s (currentMark s) = false)
    (hd : checkDraw s = false) :
    conclude s = { s with currentPlayer := Int.tmod (s.currentPlayer + 1) 2 } := by
  unfold conclude
  simp [hw, hd]

theorem conclude_draw {s : GameState} (hw : checkWin s (currentMark s) = false)
    (hd : checkDraw s = true) :
    conclude s = { s with draws := s.draws + 1, gameEnded := true } := by
  unfold conclude
  simp [hw, hd]

theorem conclude_win_O {s : GameState} (hcp : s.currentPlayer = 1)
    (hw : checkWin s 'O' = true) :
    conclude s = { s with playerOWins := s.playerOWins + 1, gameEnded := true } := by
  unfold conclude currentMark
  simp [hcp, hw]

theorem conclude_win_X {s : GameState} (hcp : s.currentPlayer = 0)
    (hw : checkWin s 'X' = true) :
    conclude s = { s with playerXWins := s.playerXWins + 1, gameEnded := true } := by
  unfold conclude currentMark
  simp [hcp, hw]

theorem currentMark_X {s : GameState} (hcp : s.currentPlayer = 0) : currentMark s = 'X' := by
  unfold currentMark
  simp [hcp]

theorem currentMark_O {s : GameState} (hcp : s.currentPlayer = 1) : currentMark s = 'O' := by
  unfold currentMark
  simp [hcp]

theorem emptyCount_congr {s t : GameState} (h : s.board = t.board) :
    emptyCount s = emptyCount t := by
  unfold emptyCount
  congr 1
  funext i
  exact emptyAt_congr h i

theorem exists_posOf {p : Int} (h : 1 ≤ p ∧ p ≤ 9) : ∃ q : Fin 9, posOf q = p :=
  ⟨⟨(p - 1).toNat, by omega⟩, by unfold posOf; simp only; omega⟩

/-- An accepted human move fills one Empty cell with the mark of the player to move. -/
theorem humanMove_spec (s : GameState) :
    ∀ (inputs : List (Option Int)) (s1 : GameState) (rest : List (Option Int)),
      humanMove s inputs = some (s1, rest) →
        ∃ q, emptyAt s q = true ∧ s1 = place s q (currentMark s) := by
  intro inputs
  induction inputs with
  | nil =>
    intro s1 rest h
    simp [humanMove] at h
  | cons a tl ih =>
    intro s1 rest h
    cases a with
    | none => exact ih s1 rest (by simpa [humanMove] using h)
    | some choice =>
      unfold humanMove at h
      by_cases hr : 1 ≤ choice ∧ choice ≤ 9
      · rw [dif_pos hr] at h
        obtain ⟨q, rfl⟩ := exists_posOf hr
        simp only [rowOfPos_posOf, colOfPos_posOf] at h
        by_cases hd : isdigit (s.board (rowOf q) (colOf q)) = true
        · rw [if_pos hd] at h
          simp only [Option.some.injEq, Prod.mk.injEq] at h
          exact ⟨q, hd, h.1.symm⟩
        · rw [if_neg hd] at h
          exact ih s1 rest h
      · rw [dif_neg hr] at h
        exact ih s1 rest h

theorem humanMove_single (s : GameState) (q : Fin 9) (rest : List (Option Int))
    (h : emptyAt s q = true) :
    humanMove s (some (posOf q) :: rest) = some (place s q (currentMark s), rest) := by
  unfold humanMove
  rw [dif_pos (posOf_range q)]
  simp only [rowOfPos_posOf, colOfPos_posOf]
  have h2 : isdigit (s.board (rowOf q) (colOf q)) = true := h
  rw [if_pos h2]
  rfl

theorem body_human (mode : GameMode) (d : Difficulty) (s : GameState)
    (inputs : List (Option Int)) (g : Rand)
    (h : ¬ (mode = GameMode.HUMAN_VS_AI ∧ s.currentPlayer = 1)) :
    playRound.body mode d s inputs g =
      match humanMove s inputs with
      | none => Iter.stuck Stuck.noInput
      | some (state1, rest) => Iter.next (conclude state1) rest g := by
  unfold playRound.body
  rw [if_neg h]

/-- A human turn either waits for input for ever or fills one Empty cell. -/
theorem body_human_cases (mode : GameMode) (d : Difficulty) (s : GameState)
    (inputs : List (Option Int)) (g : Rand)
    (h : ¬ (mode = GameMode.HUMAN_VS_AI ∧ s.currentPlayer = 1)) :
    playRound.body mode d s inputs g = Iter.stuck Stuck.noInput ∨
    ∃ q rest, emptyAt s q = true ∧
      playRound.body mode d s inputs g =
        Iter.next (conclude (place s q (currentMark s))) rest g := by
  rw [body_human mode d s inputs g h]
  cases hm : humanMove s inputs with
  | none => exact Or.inl rfl
  | some r =>
    obtain ⟨s1, rest⟩ := r
    obtain ⟨q, hq, rfl⟩ := humanMove_spec s inputs s1 rest hm
    exact Or.inr ⟨q, rest, hq, rfl⟩

theorem hardAI_getMove_triple (s : GameState) (g : Rand) :
    HardAI.getMove s g = ((HardAI.getMove s g).1, s, g) := by
  rw [hardAI_getMove_eq]

/-- The computer's turn on Hard: the cell chosen by `getMove` is filled with 'O', and the value
of the new board is the value of the old one. -/
theorem body_hard (s : GameState) (hu : Undecided s) (hcp : s.currentPlayer = 1) :
    ∃ p, emptyAt s p = true ∧
      HardAI.minimax (place s p 'O') 0 false = HardAI.minimax s 0 true ∧
      ∀ inputs g, playRound.body GameMode.HUMAN_VS_AI Difficulty.HARD s inputs g =
        Iter.next (conclude (place s p 'O')) inputs g := by
  obtain ⟨hle, j, hj, hF⟩ := minimax_max_node s 0 (evaluate_zero hu.1 hu.2.1) hu.2.2
  obtain ⟨p, hp1, hp2, hmax, -⟩ := hardAI_getMove_spec s (fun _ => 0) ⟨j, hj⟩
  refine ⟨p, hp2, le_antisymm (hle p hp2) (by rw [hF]; exact hmax j hj), fun inputs g => ?_⟩
  have hg : AI.getMove Difficulty.HARD s g = (posOf p, s, g) := by
    show HardAI.getMove s g = _
    rw [hardAI_getMove_triple]
    have : (HardAI.getMove s g).1 = (HardAI.getMove s (fun _ => 0)).1 := by
      rw [hardAI_getMove_eq, hardAI_getMove_eq]
    rw [this, hp1]
  unfold playRound.body
  rw [if_pos ⟨rfl, hcp⟩, hg]
  simp only [posOf_ne_neg_one, if_false, dif_pos (posOf_range p), rowOfPos_posOf,
    colOfPos_posOf]
  rfl

/-! ## A won position is won by the Hard computer -/

/-- A forced O win gives the minimax value `1`. -/
theorem minimax_of_forcesO {s : GameState} {b : Bool} (h : ForcesWin 'O' 'X' s b) :
    Undecided s → HardAI.minimax s 0 b = 1 := by
  induction h with
  | win s i he hw =>
    intro hu
    have hc := minimax_O_won 0 false hw
    have hn := (minimax_max_node s 0 (evaluate_zero hu.1 hu.2.1) hu.2.2).1 i he
    have hr := (minimax_range s 0 true).2
    omega
  | move s i he hw hd _ ih =>
    intro hu
    have hX : checkWin (place s i 'O') 'X' = false := checkWin_place_other_false O_ne_X hu.1
    have hc := ih ⟨hX, hw, hd⟩
    have hn := (minimax_max_node s 0 (evaluate_zero hu.1 hu.2.1) hu.2.2).1 i he
    have hr := (minimax_range s 0 true).2
    omega
  | reply s _ hw hd _ ih =>
    intro hu
    obtain ⟨i, hi, hF⟩ := (minimax_min_node s 0 (evaluate_zero hu.1 hu.2.1) hu.2.2).2
    have hO : checkWin (place s i 'X') 'O' = false := checkWin_place_other_false X_ne_O hu.2.1
    rw [hF]
    exact ih i hi ⟨hw i hi, hO, hd i hi⟩

/-- X's turn in a position of value `1`: every legal X move leads to an undecided position of
value `1` with O to move. -/
theorem value_one_X_turn (t : GameState) (hcp : t.currentPlayer = 0) (hge : t.gameEnded = false)
    (hu : Undecided t) (hv : HardAI.minimax t 0 false = 1)
    (ih : ∀ u : GameState, emptyCount u < emptyCount t → Undecided u → u.currentPlayer = 1 →
      u.gameEnded = false → HardAI.minimax u 0 true = 1 →
      AlwaysEnds GameMode.HUMAN_VS_AI Difficulty.HARD (fun r => checkWin r 'O' = true) u) :
    AlwaysEnds GameMode.HUMAN_VS_AI Difficulty.HARD (fun r => checkWin r 'O' = true) t := by
  have hnot : ¬ (GameMode.HUMAN_VS_AI = GameMode.HUMAN_VS_AI ∧ t.currentPlayer = 1) := by
    rw [hcp]
    rintro ⟨-, h⟩
    exact absurd h (by norm_num)
  obtain ⟨e, he⟩ := exists_empty_of_not_draw hu.2.2
  refine AlwaysEnds.step t hge ?_ ?_ ?_ ?_
  · refine ⟨[some (posOf e)], fun _ => 0, conclude (place t e (currentMark t)), [], fun _ => 0, ?_⟩
    rw [body_human _ _ _ _ _ hnot, humanMove_single t e [] he]
  · intro inputs g s1 hb
    rcases body_human_cases _ Difficulty.HARD t inputs g hnot with h | ⟨q, rest, -, h⟩
    · rw [h] at hb
      exact Iter.noConfusion hb
    · rw [h] at hb
      exact Iter.noConfusion hb
  · intro inputs g hb
    rcases body_human_cases _ Difficulty.HARD t inputs g hnot with h | ⟨q, rest, -, h⟩
    · rw [h] at hb
      injection hb with hb
      exact Stuck.noConfusion hb
    · rw [h] at hb
      exact Iter.noConfusion hb
  · intro inputs g s1 inputs1 g1 hb
    rcases body_human_cases _ Difficulty.HARD t inputs g hnot with h | ⟨q, rest, hq, h⟩
    · rw [h] at hb
      exact Iter.noConfusion hb
    · rw [h, currentMark_X hcp] at hb
      injection hb with hs1
      subst hs1
      have hO : checkWin (place t q 'X') 'O' = false :=
        checkWin_place_other_false X_ne_O hu.2.1
      have hval : HardAI.minimax (place t q 'X') 0 true = 1 := by
        have h1 := (minimax_min_node t 0 (evaluate_zero hu.1 hu.2.1) hu.2.2).1 q hq
        have h2 := (minimax_range (place t q 'X') 0 true).2
        omega
      have hX : checkWin (place t q 'X') 'X' = false := by
        cases hc : checkWin (place t q 'X') 'X'
        · rfl
        · have := minimax_X_won 0 true hc hO
          rw [hval] at this
          exact absurd this (by norm_num)
      have hD : checkDraw (place t q 'X') = false := by
        cases hc : checkDraw (place t q 'X')
        · rfl
        · have := minimax_full 0 true hX hO hc
          rw [hval] at this
          exact absurd this (by norm_num)
      have hcp2 : (place t q 'X').currentPlayer = 0 := hcp
      rw [conclude_continue (by rw [currentMark_X hcp2]; exact hX) hD]
      have hb : ({ place t q 'X' with
          currentPlayer := Int.tmod ((place t q 'X').currentPlayer + 1) 2 } : GameState).board
          = (place t q 'X').board := rfl
      refine ih _ ?_ ⟨?_, ?_, ?_⟩ ?_ hge ?_
      · rw [emptyCount_congr hb]
        exact emptyCount_place_lt hq isdigit_X
      · rw [checkWin_congr hb]
        exact hX
      · rw [checkWin_congr hb]
        exact hO
      · rw [checkDraw_congr hb]
        exact hD
      · show Int.tmod ((place t q 'X').currentPlayer + 1) 2 = 1
        rw [hcp2]
        rfl
      · rw [minimax_congr hb 0 0]
        exact hval

/-- O's turn on Hard in a position of value `1`: the round ends with an O win whatever X does. -/
theorem value_one_wins (n : Nat) :
    ∀ s : GameState, emptyCount s ≤ n → Undecided s → s.currentPlayer = 1 →
      s.gameEnded = false → HardAI.minimax s 0 true = 1 →
      AlwaysEnds GameMode.HUMAN_VS_AI Difficulty.HARD (fun r => checkWin r 'O' = true) s := by
  induction n with
  | zero =>
    intro s hn hu _ _ _
    obtain ⟨i, hi⟩ := exists_empty_of_not_draw hu.2.2
    have := emptyCount_place_lt hi isdigit_X
    omega
  | succ n ih =>
    intro s hn hu hcp hge hv
    obtain ⟨p, hp, hval, hbody⟩ := body_hard s hu hcp
    rw [hv] at hval
    refine AlwaysEnds.step s hge ⟨[], fun _ => 0, _, _, _, hbody [] (fun _ => 0)⟩ ?_ ?_ ?_
    · intro inputs g s1 hb
      rw [hbody] at hb
      exact Iter.noConfusion hb
    · intro inputs g hb
      rw [hbody] at hb
      exact Iter.noConfusion hb
    · intro inputs g s1 inputs1 g1 hb
      rw [hbody] at hb
      injection hb with hs1
      subst hs1
      have hcp2 : (place s p 'O').currentPlayer = 1 := hcp
      have hX : checkWin (place s p 'O') 'X' = false := checkWin_place_other_false O_ne_X hu.1
      cases hO : checkWin (place s p 'O') 'O'
      · have hD : checkDraw (place s p 'O') = false := by
          cases hc : checkDraw (place s p 'O')
          · rfl
          · have := minimax_full 0 false hX hO hc
            rw [hval] at this
            exact absurd this (by norm_num)
        rw [conclude_continue (by rw [currentMark_O hcp2]; exact hO) hD]
        have hb : ({ place s p 'O' with
            currentPlayer := Int.tmod ((place s p 'O').currentPlayer + 1) 2 } : GameState).board
            = (place s p 'O').board := rfl
        have hlt := emptyCount_place_lt hp isdigit_O
        refine value_one_X_turn _ ?_ hge ⟨?_, ?_, ?_⟩ ?_ (fun u hu1 hu2 hu3 hu4 hu5 => ?_)
        · show Int.tmod ((place s p 'O').currentPlayer + 1) 2 = 0
          rw [hcp2]
          rfl
        · rw [checkWin_congr hb]
          exact hX
        · rw [checkWin_congr hb]
          exact hO
        · rw [checkDraw_congr hb]
          exact hD
        · rw [minimax_congr hb 0 0]
          exact hval
        · rw [emptyCount_congr hb] at hu1
          exact ih u (by omega) hu2 hu3 hu4 hu5
      · rw [conclude_win_O hcp2 hO]
        exact AlwaysEnds.ended _ rfl hO

/-- C6: from an undecided board with O to move on which O has a strategy forcing an O win, the
round played by `HardAI::getMove` for O ends, after finitely many turns and for every sequence
of legal X moves, in a state with `checkWin(state, 'O')` true. -/
theorem hardAI_wins_forced (state : GameState) (hu : Undecided state)
    (hcp : state.currentPlayer = 1) (hge : state.gameEnded = false)
    (h : ForcesWin 'O' 'X' state true) :
    AlwaysEnds GameMode.HUMAN_VS_AI Difficulty.HARD (fun r => checkWin r 'O' = true) state :=
  value_one_wins 9 state (emptyCount_le state) hu hcp hge (minimax_of_forcesO h hu)

/-- C6 at the board `O O 3 / X X 6 / X 8 9` with O to move: O wins at once at position 3. -/
theorem hardAI_wins_forced_witness :
    Undecided { stateOf ['O', 'O', '3', 'X', 'X', '6', 'X', '8', '9'] with currentPlayer := 1 } ∧
    ForcesWin 'O' 'X'
      { stateOf ['O', 'O', '3', 'X', 'X', '6', 'X', '8', '9'] with currentPlayer := 1 } true ∧
    AlwaysEnds GameMode.HUMAN_VS_AI Difficulty.HARD (fun r => checkWin r 'O' = true)
      { stateOf ['O', 'O', '3', 'X', 'X', '6', 'X', '8', '9'] with currentPlayer := 1 } :=
  ⟨⟨by decide, by decide, by decide⟩,
    ForcesWin.win _ 2 (by decide) (by decide),
    hardAI_wins_forced _ ⟨by decide, by decide, by decide⟩ rfl rfl
      (ForcesWin.win _ 2 (by decide) (by decide))⟩

/-! ## The Hard computer never loses a round -/

theorem start_board (s0 : GameState) :
    (playRound.start s0).board = (stateOf ['1', '2', '3', '4', '5', '6', '7', '8', '9']).board := by
  funext r c
  fin_cases r <;> fin_cases c <;> rfl

theorem grid_start : Grid.ofState (stateOf ['1', '2', '3', '4', '5', '6', '7', '8', '9'])
    = Grid.init := by
  decide

set_option maxRecDepth 100000 in
/-- The search on the compact grid succeeds on the empty grid with X to move. -/
theorem grid_safe_init : Grid.safe 10 Grid.init false = true := by
  decide!

/-- On the empty board with X to move the minimax value is at least `0`. -/
theorem minimax_start (s0 : GameState) : 0 ≤ HardAI.minimax (playRound.start s0) 0 false := by
  rw [minimax_congr (start_board s0) 0 0]
  apply Grid.safe_sound 10
  rw [grid_start]
  exact grid_safe_init

theorem hardInv_start (s0 : GameState) : HardInv s0.playerXWins (playRound.start s0) := by
  have hb := start_board s0
  refine ⟨?_, ?_, ?_, ?_⟩
  · rw [checkWin_congr hb]
    decide
  · simp only [playRound.start, initializeBoard, initializeBoard.outer, initializeBoard.inner,
      idx3, GameState.setCell]
  · intro h
    exact absurd h (by simp [playRound.start])
  · intro _
    refine ⟨?_, ?_, Or.inl ⟨rfl, minimax_start s0⟩⟩
    · rw [checkWin_congr hb]
      decide
    · rw [checkDraw_congr hb]
      decide

/-- One iteration of the round loop from a state that satisfies `HardInv`: either the human's
input runs out, or the iteration fills a cell and leads to a state that satisfies `HardInv`. -/
theorem hardInv_step (x0 : Int) (s : GameState) (hinv : HardInv x0 s)
    (hge : s.gameEnded = false) (inputs : List (Option Int)) (g : Rand) :
    playRound.body GameMode.HUMAN_VS_AI Difficulty.HARD s inputs g = Iter.stuck Stuck.noInput ∨
    ∃ s1 inputs1 g1,
      playRound.body GameMode.HUMAN_VS_AI Difficulty.HARD s inputs g = Iter.next s1 inputs1 g1 ∧
      HardInv x0 s1 ∧ emptyCount s1 < emptyCount s := by
  obtain ⟨hX, hx0, -, hne⟩ := hinv
  obtain ⟨hO, hD, hturn⟩ := hne hge
  have hu : Undecided s := ⟨hX, hO, hD⟩
  rcases hturn with ⟨hcp, hv⟩ | ⟨hcp, hv⟩
  · have hnot : ¬ (GameMode.HUMAN_VS_AI = GameMode.HUMAN_VS_AI ∧ s.currentPlayer = 1) := by
      rw [hcp]
      rintro ⟨-, h⟩
      exact absurd h (by norm_num)
    rcases body_human_cases _ Difficulty.HARD s inputs g hnot with h | ⟨q, rest, hq, h⟩
    · exact Or.inl h
    · right
      rw [currentMark_X hcp] at h
      refine ⟨_, _, _, h, ?_, ?_⟩
      · have hO1 : checkWin (place s q 'X') 'O' = false :=
          checkWin_place_other_false X_ne_O hO
        have hval : 0 ≤ HardAI.minimax (place s q 'X') 0 true :=
          le_trans hv ((minimax_min_node s 0 (evaluate_zero hX hO) hD).1 q hq)
        have hX1 : checkWin (place s q 'X') 'X' = false := by
          cases hc : checkWin (place s q 'X') 'X'
          · rfl
          · have := minimax_X_won 0 true hc hO1
            omega
        have hcp1 : (place s q 'X').currentPlayer = 0 := hcp
        have hm : checkWin (place s q 'X') (currentMark (place s q 'X')) = false := by
          rw [currentMark_X hcp1]
          exact hX1
        cases hD1 : checkDraw (place s q 'X')
        · rw [conclude_continue hm hD1]
          have hb : ({ place s q 'X' with
              currentPlayer := Int.tmod ((place s q 'X').currentPlayer + 1) 2 } : GameState).board
              = (place s q 'X').board := rfl
          refine ⟨?_, hx0, fun h => ?_, fun _ => ⟨?_, ?_, Or.inr ⟨?_, ?_⟩⟩⟩
          · rw [checkWin_congr hb]
            exact hX1
          · exact absurd (show s.gameEnded = true from h) (by rw [hge]; exact Bool.false_ne_true)
          · rw [checkWin_congr hb]
            exact hO1
          · rw [checkDraw_congr hb]
            exact hD1
          · show Int.tmod ((place s q 'X').currentPlayer + 1) 2 = 1
            rw [hcp1]
            rfl
          · rw [minimax_congr hb 0 0]
            exact hval
        · rw [conclude_draw hm hD1]
          have hb :
              ({ place s q 'X' with draws := (place s q 'X').draws + 1, gameEnded := true } :
                GameState).board = (place s q 'X').board := rfl
          refine ⟨?_, hx0, fun _ => Or.inr ?_, fun h => ?_⟩
          · rw [checkWin_congr hb]
            exact hX1
          · rw [checkDraw_congr hb]
            exact hD1
          · exact absurd (show true = false from h) (by decide)
      · rw [emptyCount_congr (conclude_board _)]
        exact emptyCount_place_lt hq isdigit_X
  · obtain ⟨p, hp, hval, hbody⟩ := body_hard s hu hcp
    right
    refine ⟨_, _, _, hbody inputs g, ?_, ?_⟩
    · have hX1 : checkWin (place s p 'O') 'X' = false :=
        checkWin_place_other_false O_ne_X hX
      have hcp1 : (place s p 'O').currentPlayer = 1 := hcp
      cases hO1 : checkWin (place s p 'O') 'O'
      · have hm : checkWin (place s p 'O') (currentMark (place s p 'O')) = false := by
          rw [currentMark_O hcp1]
          exact hO1
        cases hD1 : checkDraw (place s p 'O')
        · rw [conclude_continue hm hD1]
          have hb : ({ place s p 'O' with
              currentPlayer := Int.tmod ((place s p 'O').currentPlayer + 1) 2 } : GameState).board
              = (place s p 'O').board := rfl
          refine ⟨?_, hx0, fun h => ?_, fun _ => ⟨?_, ?_, Or.inl ⟨?_, ?_⟩⟩⟩
          · rw [checkWin_congr hb]
            exact hX1
          · exact absurd (show s.gameEnded = true from h) (by rw [hge]; exact Bool.false_ne_true)
          · rw [checkWin_congr hb]
            exact hO1
          · rw [checkDraw_congr hb]
            exact hD1
          · show Int.tmod ((place s p 'O').currentPlayer + 1) 2 = 0
            rw [hcp1]
            rfl
          · rw [minimax_congr hb 0 0, hval]
            exact hv
        · rw [conclude_draw hm hD1]
          have hb :
              ({ place s p 'O' with draws := (place s p 'O').draws + 1, gameEnded := true } :
                GameState).board = (place s p 'O').board := rfl
          refine ⟨?_, hx0, fun _ => Or.inr ?_, fun h => ?_⟩
          · rw [checkWin_congr hb]
            exact hX1
          · rw [checkDraw_congr hb]
            exact hD1
          · exact absurd (show true = false from h) (by decide)
      · rw [conclude_win_O hcp1 hO1]
        have hb :
            ({ place s p 'O' with
                playerOWins := (place s p 'O').playerOWins + 1, gameEnded := true } :
              GameState).board = (place s p 'O').board := rfl
        refine ⟨?_, hx0, fun _ => Or.inl ?_, fun h => ?_⟩
        · rw [checkWin_congr hb]
          exact hX1
        · rw [checkWin_congr hb]
          exact hO1
        · exact absurd (show true = false from h) (by decide)
    · rw [emptyCount_congr (conclude_board _)]
      exact emptyCount_place_lt hp isdigit_O

theorem hardInv_reachable (s0 s : GameState)
    (h : Reachable GameMode.HUMAN_VS_AI Difficulty.HARD s0 s) : HardInv s0.playerXWins s := by
  induction h with
  | start => exact hardInv_start s0
  | step s s1 inputs inputs1 g g1 _ hge hb ih =>
    rcases hardInv_step _ s ih hge inputs g with h | ⟨t, i1, g2, h, hinv, -⟩
    · rw [h] at hb
      exact Iter.noConfusion hb
    · rw [h] at hb
      injection hb with hs
      rw [← hs]
      exact hinv

/-- The round loop on Hard, from a state that satisfies `HardInv` and has at most `n` Empty
cells, needs at most `n` iterations: it fails only when the human's input runs out, and
otherwise ends in a finished state that satisfies `HardInv`. -/
theorem hardInv_loop (x0 : Int) (n : Nat) :
    ∀ (s : GameState) (inputs : List (Option Int)) (g : Rand), HardInv x0 s →
      emptyCount s ≤ n →
      playRound.loop GameMode.HUMAN_VS_AI Difficulty.HARD n s inputs g
          = Except.error Stuck.noInput ∨
      ∃ r, playRound.loop GameMode.HUMAN_VS_AI Difficulty.HARD n s inputs g = Except.ok r ∧
        r.gameEnded = true ∧ HardInv x0 r := by
  induction n with
  | zero =>
    intro s inputs g hinv hn
    cases hge : s.gameEnded
    · obtain ⟨-, hD, -⟩ := hinv.2.2.2 hge
      obtain ⟨i, hi⟩ := exists_empty_of_not_draw hD
      have := emptyCount_place_lt hi isdigit_X
      omega
    · right
      exact ⟨s, by simp [playRound.loop, hge], hge, hinv⟩
  | succ n ih =>
    intro s inputs g hinv hn
    cases hge : s.gameEnded
    · rcases hardInv_step x0 s hinv hge inputs g with h | ⟨s1, i1, g1, h, hinv1, hlt⟩
      · left
        simp [playRound.loop, hge, h]
      · have := ih s1 i1 g1 hinv1 (by omega)
        simpa [playRound.loop, hge, h] using this
    · right
      exact ⟨s, by simp [playRound.loop, hge], hge, hinv⟩

/-- C1: in a Human-vs-AI round on Hard, whatever X plays, no state at the head of the round loop
has a line of X and `playerXWins` keeps its value; `playRound` fails only when the human's input
runs out, and otherwise returns a finished round that is an O win or a full board without a line
of X, with `playerXWins` unchanged. -/
theorem hardAI_never_loses (state0 : GameState) :
    (∀ s, Reachable GameMode.HUMAN_VS_AI Difficulty.HARD state0 s →
      checkWin s 'X' = false ∧ s.playerXWins = state0.playerXWins) ∧
    (∀ (inputs : List (Option Int)) (g : Rand),
      playRound state0 Difficulty.HARD GameMode.HUMAN_VS_AI inputs g
          = Except.error Stuck.noInput ∨
      ∃ r, playRound state0 Difficulty.HARD GameMode.HUMAN_VS_AI inputs g = Except.ok r ∧
        r.gameEnded = true ∧ checkWin r 'X' = false ∧
        (checkWin r 'O' = true ∨ checkDraw r = true) ∧
        r.playerXWins = state0.playerXWins) := by
  constructor
  · intro s hs
    have := hardInv_reachable state0 s hs
    exact ⟨this.1, this.2.1⟩
  · intro inputs g
    have h9 : emptyCount (playRound.start state0) ≤ 9 := emptyCount_le _
    rcases hardInv_loop state0.playerXWins 9 (playRound.start state0) inputs g
      (hardInv_start state0) h9 with h | ⟨r, h, hge, hinv⟩
    · exact Or.inl h
    · exact Or.inr ⟨r, h, hge, hinv.1, hinv.2.2.1 hge, hinv.2.1⟩

/-- C1 at the state reached when X opens a round at the centre: it has no line of X and
`playerXWins` is unchanged. -/
theorem hardAI_never_loses_witness :
    Reachable GameMode.HUMAN_VS_AI Difficulty.HARD (stateOf [])
      (conclude (place (playRound.start (stateOf [])) 4 'X')) ∧
    checkWin (conclude (place (playRound.start (stateOf [])) 4 'X')) 'X' = false ∧
    (conclude (place (playRound.start (stateOf [])) 4 'X')).playerXWins
      = (stateOf []).playerXWins :=
  ⟨Reachable.step _ _ [some 5] [] (fun _ => 0) (fun _ => 0) Reachable.start rfl rfl,
    (hardAI_never_loses (stateOf [])).1 _
      (Reachable.step _ _ [some 5] [] (fun _ => 0) (fun _ => 0) Reachable.start rfl rfl)⟩

/-! ## Single claims about the policies and the rules -/

/-- C11: on a board with exactly one Empty cell, `EasyAI::getMove` returns the position of that
cell, whatever `rand()` returns. -/
theorem easyAI_single_empty (state : GameState) (g : Rand) (i : Fin 9)
    (hi : emptyAt state i = true) (honly : ∀ j, emptyAt state j = true → j = i) :
    (EasyAI.getMove state g).1 = posOf i := by
  obtain ⟨p, hp, hpe⟩ := easyAI_getMove_some state g ⟨i, hi⟩
  rw [hp, honly p hpe]

/-- C11 at the board `X O X / X O O / O X 9`: the answer is 9 for every random source. -/
theorem easyAI_single_empty_witness :
    emptyAt (stateOf ['X', 'O', 'X', 'X', 'O', 'O', 'O', 'X', '9']) 8 = true ∧
    (∀ j, emptyAt (stateOf ['X', 'O', 'X', 'X', 'O', 'O', 'O', 'X', '9']) j = true → j = 8) ∧
    ∀ g : Rand,
      (EasyAI.getMove (stateOf ['X', 'O', 'X', 'X', 'O', 'O', 'O', 'X', '9']) g).1 = 9 :=
  ⟨by decide, by decide,
    fun g => easyAI_single_empty (stateOf ['X', 'O', 'X', 'X', 'O', 'O', 'O', 'X', '9']) g 8
      (by decide) (by decide)⟩

/-- C13 as stated fails: on the board `X X X / O O O / 7 8 9` both marks have a line. -/
theorem checkWin_both_marks :
    checkWin (stateOf ['X', 'X', 'X', 'O', 'O', 'O', '7', '8', '9']) 'X' = true ∧
    checkWin (stateOf ['X', 'X', 'X', 'O', 'O', 'O', '7', '8', '9']) 'O' = true := by
  decide

/-- C13, amended: on a board that results from filling an Empty cell of a board on which neither
mark has a line, `checkWin` is not true for both marks. -/
theorem no_double_win_after_move (state : GameState) (i : Fin 9) (mark : Char)
    (hX : checkWin state 'X' = false) (hO : checkWin state 'O' = false)
    (_he : emptyAt state i = true) :
    ¬ (checkWin (place state i mark) 'X' = true ∧ checkWin (place state i mark) 'O' = true) := by
  rintro ⟨h1, h2⟩
  by_cases hm : mark = 'X'
  · have := checkWin_place_other_false (i := i) (hm ▸ X_ne_O : mark ≠ 'O') hO
    rw [h2] at this
    exact Bool.noConfusion this
  · have := checkWin_place_other_false (i := i) hm hX
    rw [h1] at this
    exact Bool.noConfusion this

/-- C13, amended, at the board `X X 3 / O O 6 / 7 8 9` when X fills position 3. -/
theorem no_double_win_after_move_witness :
    checkWin (stateOf ['X', 'X', '3', 'O', 'O', '6', '7', '8', '9']) 'X' = false ∧
    checkWin (stateOf ['X', 'X', '3', 'O', 'O', '6', '7', '8', '9']) 'O' = false ∧
    emptyAt (stateOf ['X', 'X', '3', 'O', 'O', '6', '7', '8', '9']) 2 = true ∧
    ¬ (checkWin (place (stateOf ['X', 'X', '3', 'O', 'O', '6', '7', '8', '9']) 2 'X') 'X' = true ∧
      checkWin (place (stateOf ['X', 'X', '3', 'O', 'O', '6', '7', '8', '9']) 2 'X') 'O' = true) :=
  ⟨by decide, by decide, by decide,
    no_double_win_after_move _ 2 'X' (by decide) (by decide) (by decide)⟩

theorem easyAI_getMove_state (s : GameState) (g : Rand) : (EasyAI.getMove s g).2.1 = s := by
  unfold EasyAI.getMove
  simp only
  split <;> rfl

theorem mediumAI_getMove_state (s : GameState) (g : Rand) : (MediumAI.getMove s g).2.1 = s := by
  rw [mediumAI_getMove_eq]
  cases idx9.find? (winsAt s 'O') with
  | some p => rfl
  | none =>
    cases idx9.find? (winsAt s 'X') with
    | some p => rfl
    | none => exact easyAI_getMove_state s g

theorem hardAI_getMove_state (s : GameState) (g : Rand) : (HardAI.getMove s g).2.1 = s := by
  rw [hardAI_getMove_eq]

theorem AI_getMove_state (d : Difficulty) (s : GameState) (g : Rand) :
    (AI.getMove d s g).2.1 = s := by
  cases d
  · exact easyAI_getMove_state s g
  · exact mediumAI_getMove_state s g
  · exact hardAI_getMove_state s g

/-- C18: for each of the three policies, the state left behind by `getMove` is the state it was
given: every trial write to the board has been undone, and no other field was touched. -/
theorem getMove_restores_state (d : Difficulty) (state : GameState) (g : Rand) :
    (AI.getMove d state g).2.1 = state ∧
    (∀ r c, (AI.getMove d state g).2.1.board r c = state.board r c) ∧
    (AI.getMove d state g).2.1.playerXWins = state.playerXWins ∧
    (AI.getMove d state g).2.1.playerOWins = state.playerOWins ∧
    (AI.getMove d state g).2.1.draws = state.draws ∧
    (AI.getMove d state g).2.1.gameEnded = state.gameEnded ∧
    (AI.getMove d state g).2.1.currentPlayer = state.currentPlayer := by
  rw [AI_getMove_state]
  exact ⟨rfl, fun _ _ => rfl, rfl, rfl, rfl, rfl, rfl⟩

/-! ## The human-move loop -/

theorem humanMove_reject (s : GameState) (x : Option Int) (tl : List (Option Int))
    (h : accepts s x = false) : humanMove s (x :: tl) = humanMove s tl := by
  cases x with
  | none => simp [humanMove]
  | some n =>
    rw [humanMove]
    by_cases hr : 1 ≤ n ∧ n ≤ 9
    · simp only [accepts, dif_pos hr] at h
      rw [dif_pos hr]
      simp only [h, Bool.false_eq_true, if_false]
    · rw [dif_neg hr]

theorem humanMove_accept (s : GameState) (n : Int) (hr : 1 ≤ n ∧ n ≤ 9)
    (tl : List (Option Int)) (hd : isdigit (s.board (rowOfPos n hr) (colOfPos n hr)) = true) :
    humanMove s (some n :: tl) =
      some (s.setCell (rowOfPos n hr) (colOfPos n hr) (currentMark s), tl) := by
  rw [humanMove, dif_pos hr]
  simp only [hd, if_true]

theorem humanMove_all_rejected (s : GameState) (inputs : List (Option Int))
    (h : ∀ x ∈ inputs, accepts s x = false) : humanMove s inputs = none := by
  induction inputs with
  | nil => rfl
  | cons x tl ih =>
    rw [humanMove_reject s x tl (h x (List.mem_cons_self _ _))]
    exact ih (fun y hy => h y (List.mem_cons_of_mem _ hy))

/-- C16: in the human-move step, every input that is not an integer in `1..9` naming an Empty
cell is passed over with the state unchanged; the step ends at the first input `n` in `1..9`
that names an Empty cell, and the state it leaves is the old one with exactly that cell set to
the mark of the player to move. -/
theorem humanMove_first_legal (state : GameState) (pre : List (Option Int)) (n : Int)
    (hr : 1 ≤ n ∧ n ≤ 9) (rest : List (Option Int))
    (hpre : ∀ x ∈ pre, accepts state x = false)
    (hd : isdigit (state.board (rowOfPos n hr) (colOfPos n hr)) = true) :
    (∀ (x : Option Int) (tl : List (Option Int)), accepts state x = false →
      humanMove state (x :: tl) = humanMove state tl) ∧
    humanMove state pre = none ∧
    ∃ s1, humanMove state (pre ++ some n :: rest) = some (s1, rest) ∧
      s1.board (rowOfPos n hr) (colOfPos n hr) = currentMark state ∧
      (∀ r c, ¬ (r = rowOfPos n hr ∧ c = colOfPos n hr) → s1.board r c = state.board r c) ∧
      s1.currentPlayer = state.currentPlayer ∧ s1.gameEnded = state.gameEnded ∧
      s1.playerXWins = state.playerXWins ∧ s1.playerOWins = state.playerOWins ∧
      s1.draws = state.draws := by
  refine ⟨fun x tl hx => humanMove_reject state x tl hx, humanMove_all_rejected state pre hpre,
    state.setCell (rowOfPos n hr) (colOfPos n hr) (currentMark state), ?_, ?_, ?_, rfl, rfl, rfl,
    rfl, rfl⟩
  · induction pre with
    | nil => exact humanMove_accept state n hr rest hd
    | cons x tl ih =>
      rw [List.cons_append, humanMove_reject state x _ (hpre x (List.mem_cons_self _ _))]
      exact ih (fun y hy => hpre y (List.mem_cons_of_mem _ hy))
  · rw [setCell_board]
    simp
  · intro r c hrc
    rw [setCell_board, if_neg hrc]

/-- C16 on the board `1 2 3 / 4 X 6 / 7 8 9` with O to move and the inputs "abc", 10, 5, 7:
the first three are passed over and the step sets cell 7, and only cell 7, to 'O'. -/
theorem humanMove_first_legal_witness :
    (∀ x ∈ [none, some 10, some 5],
      accepts { stateOf ['1', '2', '3', '4', 'X', '6', '7', '8', '9'] with currentPlayer := 1 } x
        = false) ∧
    ∃ s1,
      humanMove { stateOf ['1', '2', '3', '4', 'X', '6', '7', '8', '9'] with currentPlayer := 1 }
        ([none, some 10, some 5] ++ some 7 :: []) = some (s1, []) ∧
      s1.board 2 0 = 'O' ∧
      (∀ r c, ¬ (r = 2 ∧ c = 0) → s1.board r c =
        (stateOf ['1', '2', '3', '4', 'X', '6', '7', '8', '9']).board r c) :=
  ⟨by decide,
    by
      obtain ⟨s1, h1, h2, h3, -⟩ := (humanMove_first_legal
        { stateOf ['1', '2', '3', '4', 'X', '6', '7', '8', '9'] with currentPlayer := 1 }
        [none, some 10, some 5] 7 (by decide) [] (by decide) (by decide)).2.2
      exact ⟨s1, h1, h2, h3⟩⟩

/-! ## The round invariant, for both modes and every difficulty -/

theorem checkWin_conclude (t : GameState) (p : Char) :
    checkWin (conclude t) p = checkWin t p :=
  checkWin_congr (conclude_board t) p

theorem checkDraw_conclude (t : GameState) : checkDraw (conclude t) = checkDraw t :=
  checkDraw_congr (conclude_board t)

theorem xCount_congr {s t : GameState} (h : s.board = t.board) : xCount s = xCount t := by
  unfold xCount
  rw [h]

theorem oCount_congr {s t : GameState} (h : s.board = t.board) : oCount s = oCount t := by
  unfold oCount
  rw [h]

/-- The fields of `conclude t` when the mover has completed a line. -/
theorem conclude_win_fields {t : GameState} (hw : checkWin t (currentMark t) = true) :
    (conclude t).gameEnded = true ∧ (conclude t).currentPlayer = t.currentPlayer ∧
    (conclude t).draws = t.draws ∧
    (t.currentPlayer = 0 →
      (conclude t).playerXWins = t.playerXWins + 1 ∧ (conclude t).playerOWins = t.playerOWins) ∧
    (t.currentPlayer ≠ 0 →
      (conclude t).playerXWins = t.playerXWins ∧
        (conclude t).playerOWins = t.playerOWins + 1) := by
  unfold conclude
  rw [if_pos hw]
  by_cases h0 : t.currentPlayer = 0
  · rw [if_pos h0]
    exact ⟨rfl, rfl, rfl, fun _ => ⟨rfl, rfl⟩, fun h => absurd h0 h⟩
  · rw [if_neg h0]
    exact ⟨rfl, rfl, rfl, fun h => absurd h h0, fun _ => ⟨rfl, rfl⟩⟩

/-- The fields of `conclude t` when the mover has no line and the board is full. -/
theorem conclude_draw_fields {t : GameState} (hw : checkWin t (currentMark t) = false)
    (hd : checkDraw t = true) :
    (conclude t).gameEnded = true ∧ (conclude t).currentPlayer = t.currentPlayer ∧
    (conclude t).draws = t.draws + 1 ∧ (conclude t).playerXWins = t.playerXWins ∧
    (conclude t).playerOWins = t.playerOWins := by
  rw [conclude_draw hw hd]
  exact ⟨rfl, rfl, rfl, rfl, rfl⟩

/-- The fields of `conclude t` when the mover has no line and a cell is still Empty. -/
theorem conclude_continue_fields {t : GameState} (hw : checkWin t (currentMark t) = false)
    (hd : checkDraw t = false) :
    (conclude t).gameEnded = t.gameEnded ∧
    (conclude t).currentPlayer = Int.tmod (t.currentPlayer + 1) 2 ∧
    (conclude t).draws = t.draws ∧ (conclude t).playerXWins = t.playerXWins ∧
    (conclude t).playerOWins = t.playerOWins := by
  rw [conclude_continue hw hd]
  exact ⟨rfl, rfl, rfl, rfl, rfl⟩

theorem countP_eq_of {α : Type} (p q : α → Bool) (l : List α) (h : ∀ x ∈ l, p x = q x) :
    l.countP p = l.countP q := by
  induction l with
  | nil => rfl
  | cons a tl ih =>
    rw [List.countP_cons, List.countP_cons, h a (List.mem_cons_self _ _),
      ih (fun x hx => h x (List.mem_cons_of_mem _ hx))]

theorem countP_succ_of {α : Type} (p q : α → Bool) (a : α) :
    ∀ l : List α, l.Nodup → a ∈ l → p a = false → q a = true →
      (∀ x, x ≠ a → q x = p x) → l.countP q = l.countP p + 1 := by
  intro l
  induction l with
  | nil => intro _ h; simp at h
  | cons b tl ih =>
    intro hnd hmem hp hq hoth
    rw [List.nodup_cons] at hnd
    by_cases hba : b = a
    · subst hba
      have htl : tl.countP q = tl.countP p :=
        countP_eq_of q p tl (fun x hx => hoth x (fun hxb => hnd.1 (hxb ▸ hx)))
      rw [List.countP_cons, List.countP_cons, hp, hq, htl]
      simp
    · have hmem2 : a ∈ tl := by
        rcases List.mem_cons.mp hmem with h | h
        · exact absurd h.symm hba
        · exact h
      rw [List.countP_cons, List.countP_cons, ih hnd.2 hmem2 hp hq hoth, hoth b hba]
      omega

/-- Filling an Empty cell with `v` adds one to the number of cells that hold `v`. -/
theorem count_place_same {s : GameState} {i : Fin 9} {v : Char} (he : emptyAt s i = true)
    (hv : isdigit v = false) :
    idx9.countP (fun j => decide ((place s i v).board (rowOf j) (colOf j) = v)) =
      idx9.countP (fun j => decide (s.board (rowOf j) (colOf j) = v)) + 1 := by
  refine countP_succ_of _ _ i idx9 idx9_nodup (mem_idx9 i) ?_ ?_ ?_
  · have : s.board (rowOf i) (colOf i) ≠ v := ne_of_isdigit he hv
    simpa using this
  · rw [place_board]
    simp
  · intro x hx
    rw [place_board, if_neg hx]

/-- Filling a cell with `v` leaves the number of cells that hold another mark `w` unchanged,
when the cell held neither. -/
theorem count_place_other {s : GameState} {i : Fin 9} {v w : Char} (he : emptyAt s i = true)
    (hw : isdigit w = false) (hvw : v ≠ w) :
    idx9.countP (fun j => decide ((place s i v).board (rowOf j) (colOf j) = w)) =
      idx9.countP (fun j => decide (s.board (rowOf j) (colOf j) = w)) := by
  refine countP_eq_of _ _ idx9 (fun x _ => ?_)
  rw [place_board]
  by_cases hx : x = i
  · subst hx
    have : s.board (rowOf x) (colOf x) ≠ w := ne_of_isdigit he hw
    simp [hvw, this]
  · rw [if_neg hx]

theorem xCount_place_X {s : GameState} {i : Fin 9} (he : emptyAt s i = true) :
    xCount (place s i 'X') = xCount s + 1 :=
  count_place_same he isdigit_X

theorem oCount_place_X {s : GameState} {i : Fin 9} (he : emptyAt s i = true) :
    oCount (place s i 'X') = oCount s :=
  count_place_other he isdigit_O X_ne_O

theorem oCount_place_O {s : GameState} {i : Fin 9} (he : emptyAt s i = true) :
    oCount (place s i 'O') = oCount s + 1 :=
  count_place_same he isdigit_O

theorem xCount_place_O {s : GameState} {i : Fin 9} (he : emptyAt s i = true) :
    xCount (place s i 'O') = xCount s :=
  count_place_other he isdigit_X O_ne_X

/-- The computer's answer on any difficulty, on a board with an Empty cell: a position of an
Empty cell, with the state given back as it was. -/
theorem AI_getMove_triple (d : Difficulty) (s : GameState) (g : Rand)
    (h : ∃ i, emptyAt s i = true) :
    ∃ p g1, emptyAt s p = true ∧ AI.getMove d s g = (posOf p, s, g1) := by
  obtain ⟨p, hp, hpe⟩ := AI_getMove_some d s g h
  refine ⟨p, (AI.getMove d s g).2.2, hpe, ?_⟩
  have hs := AI_getMove_state d s g
  exact Prod.ext hp (Prod.ext hs rfl)

/-- The computer's turn on any difficulty fills an Empty cell with 'O'. -/
theorem body_ai (d : Difficulty) (s : GameState) (inputs : List (Option Int)) (g : Rand)
    (hcp : s.currentPlayer = 1) (h : ∃ i, emptyAt s i = true) :
    ∃ p g1, emptyAt s p = true ∧
      playRound.body GameMode.HUMAN_VS_AI d s inputs g =
        Iter.next (conclude (place s p 'O')) inputs g1 := by
  obtain ⟨p, g1, hp, hg⟩ := AI_getMove_triple d s g h
  refine ⟨p, g1, hp, ?_⟩
  unfold playRound.body
  rw [if_pos ⟨rfl, hcp⟩, hg]
  simp only [posOf_ne_neg_one, if_false, dif_pos (posOf_range p), rowOfPos_posOf,
    colOfPos_posOf]
  rfl

/-- One iteration of the round loop, in either mode: the human's input runs out, or the mover
fills an Empty cell with its mark and `conclude` follows. -/
theorem body_cases (mode : GameMode) (d : Difficulty) (s : GameState)
    (inputs : List (Option Int)) (g : Rand) (hD : checkDraw s = false) :
    playRound.body mode d s inputs g = Iter.stuck Stuck.noInput ∨
    ∃ q rest g1, emptyAt s q = true ∧
      playRound.body mode d s inputs g =
        Iter.next (conclude (place s q (currentMark s))) rest g1 := by
  by_cases hai : mode = GameMode.HUMAN_VS_AI ∧ s.currentPlayer = 1
  · obtain ⟨hm, hc⟩ := hai
    subst hm
    obtain ⟨p, g1, hp, hb⟩ := body_ai d s inputs g hc (exists_empty_of_not_draw hD)
    right
    rw [currentMark_O hc]
    exact ⟨p, inputs, g1, hp, hb⟩
  · rcases body_human_cases mode d s inputs g hai with h | ⟨q, rest, hq, h⟩
    · exact Or.inl h
    · exact Or.inr ⟨q, rest, g, hq, h⟩

theorem start_fields (s0 : GameState) :
    (playRound.start s0).playerXWins = s0.playerXWins ∧
    (playRound.start s0).playerOWins = s0.playerOWins ∧
    (playRound.start s0).draws = s0.draws ∧
    (playRound.start s0).currentPlayer = 0 ∧ (playRound.start s0).gameEnded = false := by
  simp only [playRound.start, initializeBoard, initializeBoard.outer, initializeBoard.inner,
    idx3, GameState.setCell, and_self]

theorem talliesAre_of {s0 s r : GameState} {dx dO dd : Int} (h0 : talliesAre s0 s 0 0 0)
    (hx : r.playerXWins = s.playerXWins + dx) (hO : r.playerOWins = s.playerOWins + dO)
    (hd : r.draws = s.draws + dd) : talliesAre s0 r dx dO dd := by
  unfold talliesAre at *
  omega

theorem roundInv_start (s0 : GameState) : RoundInv s0 (playRound.start s0) := by
  have hb := start_board s0
  obtain ⟨h1, h2, h3, h4, h5⟩ := start_fields s0
  refine ⟨Or.inl h4, fun _ => ⟨⟨?_, ?_, ?_⟩, ?_, fun _ => ?_, fun h => ?_⟩, fun h => ?_⟩
  · rw [checkWin_congr hb]
    decide
  · rw [checkWin_congr hb]
    decide
  · rw [checkDraw_congr hb]
    decide
  · unfold talliesAre
    omega
  · rw [xCount_congr hb, oCount_congr hb]
    decide
  · rw [h4] at h
    exact absurd h (by norm_num)
  · rw [h5] at h
    exact absurd h (by decide)

/-- The round invariant survives a move into an Empty cell followed by `conclude`. -/
theorem roundInv_conclude (s0 s : GameState) (q : Fin 9) (hinv : RoundInv s0 s)
    (hge : s.gameEnded = false) (hq : emptyAt s q = true) :
    RoundInv s0 (conclude (place s q (currentMark s))) := by
  obtain ⟨hcp, hne, -⟩ := hinv
  obtain ⟨hu, htal, hc0, hc1⟩ := hne hge
  rcases hcp with h0 | h1
  · rw [currentMark_X h0]
    have hcpt : (place s q 'X').currentPlayer = 0 := h0
    have hOt : checkWin (place s q 'X') 'O' = false := checkWin_place_other_false X_ne_O hu.2.1
    have hcnt : xCount (place s q 'X') = oCount (place s q 'X') + 1 := by
      rw [xCount_place_X hq, oCount_place_X hq, hc0 h0]
    have hb := conclude_board (place s q 'X')
    cases hw : checkWin (place s q 'X') 'X'
    · have hm : checkWin (place s q 'X') (currentMark (place s q 'X')) = false := by
        rw [currentMark_X hcpt]
        exact hw
      cases hd : checkDraw (place s q 'X')
      · obtain ⟨f1, f2, f3, f4, f5⟩ := conclude_continue_fields hm hd
        have hcp1 : (conclude (place s q 'X')).currentPlayer = 1 := by
          rw [f2, hcpt]
          rfl
        refine ⟨Or.inr hcp1, fun _ => ⟨⟨?_, ?_, ?_⟩, talliesAre_of htal ?_ ?_ ?_, fun h => ?_,
          fun _ => ?_⟩, fun h => ?_⟩
        · rw [checkWin_conclude]
          exact hw
        · rw [checkWin_conclude]
          exact hOt
        · rw [checkDraw_conclude]
          exact hd
        · rw [f4, add_zero]
          rfl
        · rw [f5, add_zero]
          rfl
        · rw [f3, add_zero]
          rfl
        · rw [hcp1] at h
          exact absurd h (by norm_num)
        · rw [xCount_congr hb, oCount_congr hb]
          exact hcnt
        · rw [f1] at h
          rw [show (place s q 'X').gameEnded = s.gameEnded from rfl, hge] at h
          exact absurd h (by decide)
      · obtain ⟨f1, f2, f3, f4, f5⟩ := conclude_draw_fields hm hd
        refine ⟨Or.inl (by rw [f2]; exact hcpt), fun h => ?_, fun _ => Or.inr (Or.inr
          ⟨?_, ?_, ?_, talliesAre_of htal ?_ ?_ ?_, Or.inr ?_⟩)⟩
        · rw [f1] at h
          exact absurd h (by decide)
        · rw [checkDraw_conclude]
          exact hd
        · rw [checkWin_conclude]
          exact hw
        · rw [checkWin_conclude]
          exact hOt
        · rw [f4, add_zero]
          rfl
        · rw [f5, add_zero]
          rfl
        · rw [f3]
          rfl
        · rw [xCount_congr hb, oCount_congr hb]
          exact hcnt
    · have hm : checkWin (place s q 'X') (currentMark (place s q 'X')) = true := by
        rw [currentMark_X hcpt]
        exact hw
      obtain ⟨f1, f2, f3, f4, -⟩ := conclude_win_fields hm
      obtain ⟨f5, f6⟩ := f4 hcpt
      refine ⟨Or.inl (by rw [f2]; exact hcpt), fun h => ?_, fun _ => Or.inl
        ⟨?_, ?_, talliesAre_of htal ?_ ?_ ?_, ?_⟩⟩
      · rw [f1] at h
        exact absurd h (by decide)
      · rw [checkWin_conclude]
        exact hw
      · rw [checkWin_conclude]
        exact hOt
      · rw [f5]
        rfl
      · rw [f6, add_zero]
        rfl
      · rw [f3, add_zero]
        rfl
      · rw [xCount_congr hb, oCount_congr hb]
        exact hcnt
  · rw [currentMark_O h1]
    have hcpt : (place s q 'O').currentPlayer = 1 := h1
    have hne0 : (place s q 'O').currentPlayer ≠ 0 := by
      rw [hcpt]
      norm_num
    have hXt : checkWin (place s q 'O') 'X' = false := checkWin_place_other_false O_ne_X hu.1
    have hcnt : xCount (place s q 'O') = oCount (place s q 'O') := by
      rw [xCount_place_O hq, oCount_place_O hq, hc1 h1]
    have hb := conclude_board (place s q 'O')
    cases hw : checkWin (place s q 'O') 'O'
    · have hm : checkWin (place s q 'O') (currentMark (place s q 'O')) = false := by
        rw [currentMark_O hcpt]
        exact hw
      cases hd : checkDraw (place s q 'O')
      · obtain ⟨f1, f2, f3, f4, f5⟩ := conclude_continue_fields hm hd
        have hcp0 : (conclude (place s q 'O')).currentPlayer = 0 := by
          rw [f2, hcpt]
          rfl
        refine ⟨Or.inl hcp0, fun _ => ⟨⟨?_, ?_, ?_⟩, talliesAre_of htal ?_ ?_ ?_, fun _ => ?_,
          fun h => ?_⟩, fun h => ?_⟩
        · rw [checkWin_conclude]
          exact hXt
        · rw [checkWin_conclude]
          exact hw
        · rw [checkDraw_conclude]
          exact hd
        · rw [f4, add_zero]
          rfl
        · rw [f5, add_zero]
          rfl
        · rw [f3, add_zero]
          rfl
        · rw [xCount_congr hb, oCount_congr hb]
          exact hcnt
        · rw [hcp0] at h
          exact absurd h (by norm_num)
        · rw [f1] at h
          rw [show (place s q 'O').gameEnded = s.gameEnded from rfl, hge] at h
          exact absurd h (by decide)
      · obtain ⟨f1, f2, f3, f4, f5⟩ := conclude_draw_fields hm hd
        refine ⟨Or.inr (by rw [f2]; exact hcpt), fun h => ?_, fun _ => Or.inr (Or.inr
          ⟨?_, ?_, ?_, talliesAre_of htal ?_ ?_ ?_, Or.inl ?_⟩)⟩
        · rw [f1] at h
          exact absurd h (by decide)
        · rw [checkDraw_conclude]
          exact hd
        · rw [checkWin_conclude]
          exact hXt
        · rw [checkWin_conclude]
          exact hw
        · rw [f4, add_zero]
          rfl
        · rw [f5, add_zero]
          rfl
        · rw [f3]
          rfl
        · rw [xCount_congr hb, oCount_congr hb]
          exact hcnt
    · have hm : checkWin (place s q 'O') (currentMark (place s q 'O')) = true := by
        rw [currentMark_O hcpt]
        exact hw
      obtain ⟨f1, f2, f3, -, f4⟩ := conclude_win_fields hm
      obtain ⟨f5, f6⟩ := f4 hne0
      refine ⟨Or.inr (by rw [f2]; exact hcpt), fun h => ?_, fun _ => Or.inr (Or.inl
        ⟨?_, ?_, talliesAre_of htal ?_ ?_ ?_, ?_⟩)⟩
      · rw [f1] at h
        exact absurd h (by decide)
      · rw [checkWin_conclude]
        exact hw
      · rw [checkWin_conclude]
        exact hXt
      · rw [f5, add_zero]
        rfl
      · rw [f6]
        rfl
      · rw [f3, add_zero]
        rfl
      · rw [xCount_congr hb, oCount_congr hb]
        exact hcnt

/-- One iteration of the round loop from a state that satisfies the round invariant: the
human's input runs out, or a cell is filled and the new state satisfies the invariant. -/
theorem roundInv_step (mode : GameMode) (d : Difficulty) (s0 s : GameState)
    (hinv : RoundInv s0 s) (hge : s.gameEnded = false) (inputs : List (Option Int)) (g : Rand) :
    playRound.body mode d s inputs g = Iter.stuck Stuck.noInput ∨
    ∃ q rest g1, emptyAt s q = true ∧
      playRound.body mode d s inputs g =
        Iter.next (conclude (place s q (currentMark s))) rest g1 ∧
      RoundInv s0 (conclude (place s q (currentMark s))) ∧
      emptyCount (conclude (place s q (currentMark s))) < emptyCount s := by
  have hu := (hinv.2.1 hge).1
  rcases body_cases mode d s inputs g hu.2.2 with h | ⟨q, rest, g1, hq, h⟩
  · exact Or.inl h
  · refine Or.inr ⟨q, rest, g1, hq, h, roundInv_conclude s0 s q hinv hge hq, ?_⟩
    rw [emptyCount_congr (conclude_board _)]
    refine emptyCount_place_lt hq ?_
    unfold currentMark
    split <;> decide

theorem roundInv_reachable (mode : GameMode) (d : Difficulty) (s0 s : GameState)
    (h : Reachable mode d s0 s) : RoundInv s0 s := by
  induction h with
  | start => exact roundInv_start s0
  | step s s1 inputs inputs1 g g1 _ hge hb ih =>
    rcases roundInv_step mode d s0 s ih hge inputs g with h | ⟨q, rest, g2, -, h, hinv, -⟩
    · rw [h] at hb
      exact Iter.noConfusion hb
    · rw [h] at hb
      injection hb with hs
      rw [← hs]
      exact hinv

/-- The round loop, from a state that satisfies the round invariant and has at most `n` Empty
cells, needs at most `n` iterations: it fails only when the human's input runs out, and
otherwise returns a finished state that is reachable and satisfies the invariant. -/
theorem roundInv_loop (mode : GameMode) (d : Difficulty) (s0 : GameState) (n : Nat) :
    ∀ (s : GameState) (inputs : List (Option Int)) (g : Rand), Reachable mode d s0 s →
      emptyCount s ≤ n →
      playRound.loop mode d n s inputs g = Except.error Stuck.noInput ∨
      ∃ r, playRound.loop mode d n s inputs g = Except.ok r ∧ r.gameEnded = true ∧
        Reachable mode d s0 r := by
  induction n with
  | zero =>
    intro s inputs g hr hn
    cases hge : s.gameEnded
    · have hu := ((roundInv_reachable mode d s0 s hr).2.1 hge).1
      obtain ⟨i, hi⟩ := exists_empty_of_not_draw hu.2.2
      have := emptyCount_place_lt hi isdigit_X
      omega
    · right
      exact ⟨s, by simp [playRound.loop, hge], hge, hr⟩
  | succ n ih =>
    intro s inputs g hr hn
    cases hge : s.gameEnded
    · rcases roundInv_step mode d s0 s (roundInv_reachable mode d s0 s hr) hge inputs g with
        h | ⟨q, rest, g1, -, h, -, hlt⟩
      · left
        simp [playRound.loop, hge, h]
      · have := ih _ rest g1 (Reachable.step s _ inputs rest g g1 hr hge h) (by omega)
        simpa [playRound.loop, hge, h] using this
    · right
      exact ⟨s, by simp [playRound.loop, hge], hge, hr⟩

/-- Every run of `playRound` fails only when the human's input runs out, and otherwise returns
a finished state that the round can reach. -/
theorem playRound_result (mode : GameMode) (d : Difficulty) (s0 : GameState)
    (inputs : List (Option Int)) (g : Rand) :
    playRound s0 d mode inputs g = Except.error Stuck.noInput ∨
    ∃ r, playRound s0 d mode inputs g = Except.ok r ∧ r.gameEnded = true ∧
      Reachable mode d s0 r :=
  roundInv_loop mode d s0 9 (playRound.start s0) inputs g Reachable.start (emptyCount_le _)

/-! ## Claims about the round controller -/

/-- The state reached when X opens a round at the centre, in either mode. -/
theorem reachable_after_centre (mode : GameMode) (d : Difficulty) :
    Reachable mode d (stateOf []) (conclude (place (playRound.start (stateOf [])) 4 'X')) := by
  refine Reachable.step _ _ [some 5] [] (fun _ => 0) (fun _ => 0) Reachable.start rfl ?_
  rw [body_human _ _ _ _ _ (by rintro ⟨-, h⟩; exact absurd h (by decide))]
  rfl

/-- C14: in every state a round of `playRound` can reach (either mode, every difficulty, any
input, any random source), X has as many marks as O or one more; while the round goes on, X has
as many marks as O when X (0) is to move and one more when O (1) is to move. -/
theorem mark_counts_invariant (mode : GameMode) (d : Difficulty) (state0 s : GameState)
    (h : Reachable mode d state0 s) :
    (xCount s = oCount s ∨ xCount s = oCount s + 1) ∧
    (s.currentPlayer = 0 ∨ s.currentPlayer = 1) ∧
    (s.gameEnded = false →
      (s.currentPlayer = 0 → xCount s = oCount s) ∧
      (s.currentPlayer = 1 → xCount s = oCount s + 1)) := by
  obtain ⟨hcp, hne, hen⟩ := roundInv_reachable mode d state0 s h
  refine ⟨?_, hcp, fun hge => ⟨(hne hge).2.2.1, (hne hge).2.2.2⟩⟩
  cases hge : s.gameEnded
  · rcases hcp with h0 | h1
    · exact Or.inl ((hne hge).2.2.1 h0)
    · exact Or.inr ((hne hge).2.2.2 h1)
  · rcases hen hge with h | h | h
    · exact Or.inr h.2.2.2
    · exact Or.inl h.2.2.2
    · exact h.2.2.2.2

/-- C14 at the state reached when X opens a Human-vs-Human round at the centre: one X, no O,
and O to move. -/
theorem mark_counts_invariant_witness :
    Reachable GameMode.HUMAN_VS_HUMAN Difficulty.EASY (stateOf [])
      (conclude (place (playRound.start (stateOf [])) 4 'X')) ∧
    (conclude (place (playRound.start (stateOf [])) 4 'X')).currentPlayer = 1 ∧
    xCount (conclude (place (playRound.start (stateOf [])) 4 'X')) = 1 ∧
    oCount (conclude (place (playRound.start (stateOf [])) 4 'X')) = 0 ∧
    (xCount (conclude (place (playRound.start (stateOf [])) 4 'X')) =
        oCount (conclude (place (playRound.start (stateOf [])) 4 'X')) ∨
      xCount (conclude (place (playRound.start (stateOf [])) 4 'X')) =
        oCount (conclude (place (playRound.start (stateOf [])) 4 'X')) + 1) :=
  ⟨reachable_after_centre _ _,
    by decide, by decide, by decide,
    (mark_counts_invariant GameMode.HUMAN_VS_HUMAN Difficulty.EASY _ _
      (reachable_after_centre _ _)).1⟩

/-- C15: whenever an iteration of the round loop increments `draws`, and whenever `playRound`
returns with `draws` incremented, the board has no Empty cell and neither mark has a line. -/
theorem draw_is_full_without_line (mode : GameMode) (d : Difficulty) (state0 : GameState) :
    (∀ (s s1 : GameState) (inputs inputs1 : List (Option Int)) (g g1 : Rand),
      Reachable mode d state0 s → s.gameEnded = false →
      playRound.body mode d s inputs g = Iter.next s1 inputs1 g1 → s1.draws = s.draws + 1 →
      (∀ r c : Fin 3, isdigit (s1.board r c) = false) ∧
        checkWin s1 'X' = false ∧ checkWin s1 'O' = false) ∧
    (∀ (inputs : List (Option Int)) (g : Rand) (r : GameState),
      playRound state0 d mode inputs g = Except.ok r → r.draws = state0.draws + 1 →
      (∀ i j : Fin 3, isdigit (r.board i j) = false) ∧
        checkWin r 'X' = false ∧ checkWin r 'O' = false) := by
  have key : ∀ t : GameState, RoundInv state0 t → t.draws = state0.draws + 1 →
      (∀ i j : Fin 3, isdigit (t.board i j) = false) ∧
        checkWin t 'X' = false ∧ checkWin t 'O' = false := by
    intro t hinv hdr
    obtain ⟨-, hne, hen⟩ := hinv
    cases hge : t.gameEnded
    · have := (hne hge).2.1
      unfold talliesAre at this
      omega
    · rcases hen hge with h | h | h
      · have := h.2.2.1
        unfold talliesAre at this
        omega
      · have := h.2.2.1
        unfold talliesAre at this
        omega
      · exact ⟨(checkDraw_eq t).mp h.1, h.2.1, h.2.2.1⟩
  constructor
  · intro s s1 inputs inputs1 g g1 hr hge hb hdr
    have hs := ((roundInv_reachable mode d state0 s hr).2.1 hge).2.1
    refine key s1 (roundInv_reachable mode d state0 s1
      (Reachable.step s s1 inputs inputs1 g g1 hr hge hb)) ?_
    unfold talliesAre at hs
    omega
  · intro inputs g r hres hdr
    rcases playRound_result mode d state0 inputs g with h | ⟨r1, h, -, hr⟩
    · rw [h] at hres
      exact Except.noConfusion hres
    · rw [h] at hres
      injection hres with hres
      subst hres
      exact key r1 (roundInv_reachable mode d state0 r1 hr) hdr

/-- C19: in every state a round of `playRound` can reach, `checkWin` is not true for both
marks. -/
theorem no_double_win_reachable (mode : GameMode) (d : Difficulty) (state0 s : GameState)
    (h : Reachable mode d state0 s) :
    ¬ (checkWin s 'X' = true ∧ checkWin s 'O' = true) := by
  obtain ⟨-, hne, hen⟩ := roundInv_reachable mode d state0 s h
  rintro ⟨hX, hO⟩
  cases hge : s.gameEnded
  · rw [(hne hge).1.1] at hX
    exact Bool.noConfusion hX
  · rcases hen hge with h | h | h
    · rw [h.2.1] at hO
      exact Bool.noConfusion hO
    · rw [h.2.1] at hX
      exact Bool.noConfusion hX
    · rw [h.2.1] at hX
      exact Bool.noConfusion hX

/-- C19 at the state reached when X opens a round at the centre. -/
theorem no_double_win_reachable_witness :
    Reachable GameMode.HUMAN_VS_AI Difficulty.MEDIUM (stateOf [])
      (conclude (place (playRound.start (stateOf [])) 4 'X')) ∧
    ¬ (checkWin (conclude (place (playRound.start (stateOf [])) 4 'X')) 'X' = true ∧
      checkWin (conclude (place (playRound.start (stateOf [])) 4 'X')) 'O' = true) :=
  ⟨reachable_after_centre _ _,
    no_double_win_reachable GameMode.HUMAN_VS_AI Difficulty.MEDIUM _ _
      (reachable_after_centre _ _)⟩

/-- C20: in a Human-vs-AI round on any difficulty, whenever the computer is asked for a move
the board has an Empty cell, `getMove` does not return `-1`, and the iteration does not leave
through `break`; `playRound` never returns a state with `gameEnded` unset. -/
theorem ai_never_breaks (d : Difficulty) (state0 : GameState) :
    (∀ s : GameState, Reachable GameMode.HUMAN_VS_AI d state0 s → s.gameEnded = false →
      s.currentPlayer = 1 →
      (∃ i, emptyAt s i = true) ∧
      ∀ (inputs : List (Option Int)) (g : Rand),
        (AI.getMove d s g).1 ≠ -1 ∧
        ∃ s1 g1, playRound.body GameMode.HUMAN_VS_AI d s inputs g = Iter.next s1 inputs g1) ∧
    (∀ s : GameState, Reachable GameMode.HUMAN_VS_AI d state0 s → s.gameEnded = false →
      ∀ (inputs : List (Option Int)) (g : Rand) (s1 : GameState),
        playRound.body GameMode.HUMAN_VS_AI d s inputs g ≠ Iter.broke s1) ∧
    (∀ (inputs : List (Option Int)) (g : Rand) (r : GameState),
      playRound state0 d GameMode.HUMAN_VS_AI inputs g = Except.ok r → r.gameEnded = true) := by
  refine ⟨fun s hr hge hcp => ?_, fun s hr hge inputs g s1 hb => ?_, fun inputs g r hres => ?_⟩
  · have hu := ((roundInv_reachable _ d state0 s hr).2.1 hge).1
    have hex := exists_empty_of_not_draw hu.2.2
    refine ⟨hex, fun inputs g => ⟨?_, ?_⟩⟩
    · obtain ⟨p, hp, -⟩ := AI_getMove_some d s g hex
      rw [hp]
      exact posOf_ne_neg_one p
    · obtain ⟨p, g1, -, hb⟩ := body_ai d s inputs g hcp hex
      exact ⟨_, g1, hb⟩
  · rcases roundInv_step _ d state0 s (roundInv_reachable _ d state0 s hr) hge inputs g with
      h | ⟨q, rest, g1, -, h, -, -⟩
    · rw [h] at hb
      exact Iter.noConfusion hb
    · rw [h] at hb
      exact Iter.noConfusion hb
  · rcases playRound_result GameMode.HUMAN_VS_AI d state0 inputs g with h | ⟨r1, h, hge, -⟩
    · rw [h] at hres
      exact Except.noConfusion hres
    · rw [h] at hres
      injection hres with hres
      rw [← hres]
      exact hge

/-- C20 at the state reached when X opens a Human-vs-AI round on Easy at the centre: the
computer is to move, a cell is Empty, and its answer is not `-1`. -/
theorem ai_never_breaks_witness :
    Reachable GameMode.HUMAN_VS_AI Difficulty.EASY (stateOf [])
      (conclude (place (playRound.start (stateOf [])) 4 'X')) ∧
    (conclude (place (playRound.start (stateOf [])) 4 'X')).gameEnded = false ∧
    (conclude (place (playRound.start (stateOf [])) 4 'X')).currentPlayer = 1 ∧
    (∃ i, emptyAt (conclude (place (playRound.start (stateOf [])) 4 'X')) i = true) ∧
    (AI.getMove Difficulty.EASY (conclude (place (playRound.start (stateOf [])) 4 'X'))
      (fun _ => 3)).1 ≠ -1 :=
  ⟨reachable_after_centre _ _,
    by decide, by decide,
    ((ai_never_breaks Difficulty.EASY (stateOf [])).1 _
      (reachable_after_centre GameMode.HUMAN_VS_AI Difficulty.EASY)
      (by decide) (by decide)).1,
    (((ai_never_breaks Difficulty.EASY (stateOf [])).1 _
      (reachable_after_centre GameMode.HUMAN_VS_AI Difficulty.EASY)
      (by decide) (by decide)).2 [] (fun _ => 3)).1⟩

/-- C15 on the Human-vs-Human round with the moves 1 2 3 5 8 4 6 9 7: it ends with `draws`
incremented, on the full board `X O X / O O X / X X O` without a line. -/
theorem draw_is_full_without_line_witness :
    ∃ r, playRound (stateOf []) Difficulty.EASY GameMode.HUMAN_VS_HUMAN
        [some 1, some 2, some 3, some 5, some 8, some 4, some 6, some 9, some 7] (fun _ => 0)
        = Except.ok r ∧
      r.draws = (stateOf []).draws + 1 ∧
      (∀ i j : Fin 3, isdigit (r.board i j) = false) ∧
      checkWin r 'X' = false ∧ checkWin r 'O' = false := by
  have hd : (match playRound (stateOf []) Difficulty.EASY GameMode.HUMAN_VS_HUMAN
      [some 1, some 2, some 3, some 5, some 8, some 4, some 6, some 9, some 7] (fun _ => 0) with
      | Except.ok r => r.draws
      | Except.error _ => 0) = 1 := by
    decide
  rcases playRound_result GameMode.HUMAN_VS_HUMAN Difficulty.EASY (stateOf [])
    [some 1, some 2, some 3, some 5, some 8, some 4, some 6, some 9, some 7] (fun _ => 0) with
    h | ⟨r, h, -, -⟩
  · rw [h] at hd
    exact absurd hd (by decide)
  · rw [h] at hd
    exact ⟨r, h, hd, (draw_is_full_without_line GameMode.HUMAN_VS_HUMAN Difficulty.EASY
      (stateOf [])).2 _ _ r h hd⟩

/-- C17: `conclude`, the block that follows every move of `playRound`, makes the stated
transition (a line of the mover ends the round and adds one to the mover's counter only;
otherwise a full board ends the round and adds one to `draws` only; otherwise the turn passes to
the other player and no counter changes); every state the round loop moves to is `conclude` of
the state with the move applied; every round that `playRound` completes adds exactly one to
`playerXWins + playerOWins + draws`; and the loop applies no move to a state with `gameEnded`
set. -/
theorem round_transition (mode : GameMode) (d : Difficulty) (state0 : GameState) :
    (∀ t : GameState, (t.currentPlayer = 0 ∨ t.currentPlayer = 1) →
      (conclude t).board = t.board ∧
      (checkWin t (currentMark t) = true →
        (conclude t).gameEnded = true ∧ (conclude t).currentPlayer = t.currentPlayer ∧
        (t.currentPlayer = 0 → talliesAre t (conclude t) 1 0 0) ∧
        (t.currentPlayer = 1 → talliesAre t (conclude t) 0 1 0)) ∧
      (checkWin t (currentMark t) = false → checkDraw t = true →
        (conclude t).gameEnded = true ∧ (conclude t).currentPlayer = t.currentPlayer ∧
        talliesAre t (conclude t) 0 0 1) ∧
      (checkWin t (currentMark t) = false → checkDraw t = false →
        (conclude t).gameEnded = t.gameEnded ∧
        (conclude t).currentPlayer = 1 - t.currentPlayer ∧
        talliesAre t (conclude t) 0 0 0)) ∧
    (∀ (s s1 : GameState) (inputs inputs1 : List (Option Int)) (g g1 : Rand),
      Reachable mode d state0 s → s.gameEnded = false →
      playRound.body mode d s inputs g = Iter.next s1 inputs1 g1 →
      ∃ q, emptyAt s q = true ∧ s1 = conclude (place s q (currentMark s))) ∧
    (∀ (inputs : List (Option Int)) (g : Rand) (r : GameState),
      playRound state0 d mode inputs g = Except.ok r →
      r.gameEnded = true ∧
      r.playerXWins + r.playerOWins + r.draws =
        state0.playerXWins + state0.playerOWins + state0.draws + 1) ∧
    (∀ (n : Nat) (s : GameState) (inputs : List (Option Int)) (g : Rand),
      s.gameEnded = true → playRound.loop mode d n s inputs g = Except.ok s) := by
  refine ⟨fun t hcp => ⟨conclude_board t, fun hw => ?_, fun hw hd => ?_, fun hw hd => ?_⟩,
    fun s s1 inputs inputs1 g g1 hr hge hb => ?_, fun inputs g r hres => ?_,
    fun n s inputs g hge => ?_⟩
  · obtain ⟨f1, f2, f3, f4, f5⟩ := conclude_win_fields hw
    refine ⟨f1, f2, fun h0 => ?_, fun h1 => ?_⟩
    · obtain ⟨f6, f7⟩ := f4 h0
      unfold talliesAre
      omega
    · obtain ⟨f6, f7⟩ := f5 (by rw [h1]; norm_num)
      unfold talliesAre
      omega
  · obtain ⟨f1, f2, f3, f4, f5⟩ := conclude_draw_fields hw hd
    refine ⟨f1, f2, ?_⟩
    unfold talliesAre
    omega
  · obtain ⟨f1, f2, f3, f4, f5⟩ := conclude_continue_fields hw hd
    refine ⟨f1, ?_, ?_⟩
    · rw [f2]
      rcases hcp with h | h <;> rw [h] <;> rfl
    · unfold talliesAre
      omega
  · rcases roundInv_step mode d state0 s (roundInv_reachable mode d state0 s hr) hge inputs g
      with h | ⟨q, rest, g2, hq, h, -, -⟩
    · rw [h] at hb
      exact Iter.noConfusion hb
    · rw [h] at hb
      injection hb with hs
      exact ⟨q, hq, hs.symm⟩
  · rcases playRound_result mode d state0 inputs g with h | ⟨r1, h, hge, hr⟩
    · rw [h] at hres
      exact Except.noConfusion hres
    · rw [h] at hres
      injection hres with hres
      subst hres
      refine ⟨hge, ?_⟩
      rcases (roundInv_reachable mode d state0 r1 hr).2.2 hge with h | h | h
      · have := h.2.2.1
        unfold talliesAre at this
        omega
      · have := h.2.2.1
        unfold talliesAre at this
        omega
      · have := h.2.2.2.1
        unfold talliesAre at this
        omega
  · cases n <;> simp [playRound.loop, hge]

/-- C17 on the board `X X X / O O 6 / 7 8 9` with X as the mover: the round ends and only
`playerXWins` grows. -/
theorem round_transition_witness :
    checkWin (stateOf ['X', 'X', 'X', 'O', 'O', '6', '7', '8', '9'])
      (currentMark (stateOf ['X', 'X', 'X', 'O', 'O', '6', '7', '8', '9'])) = true ∧
    (conclude (stateOf ['X', 'X', 'X', 'O', 'O', '6', '7', '8', '9'])).gameEnded = true ∧
    (conclude (stateOf ['X', 'X', 'X', 'O', 'O', '6', '7', '8', '9'])).currentPlayer =
      (stateOf ['X', 'X', 'X', 'O', 'O', '6', '7', '8', '9']).currentPlayer ∧
    talliesAre (stateOf ['X', 'X', 'X', 'O', 'O', '6', '7', '8', '9'])
      (conclude (stateOf ['X', 'X', 'X', 'O', 'O', '6', '7', '8', '9'])) 1 0 0 :=
  ⟨by decide,
    (((round_transition GameMode.HUMAN_VS_HUMAN Difficulty.EASY (stateOf [])).1
      (stateOf ['X', 'X', 'X', 'O', 'O', '6', '7', '8', '9']) (Or.inl rfl)).2.1 (by decide)).1,
    (((round_transition GameMode.HUMAN_VS_HUMAN Difficulty.EASY (stateOf [])).1
      (stateOf ['X', 'X', 'X', 'O', 'O', '6', '7', '8', '9']) (Or.inl rfl)).2.1 (by decide)).2.1,
    (((round_transition GameMode.HUMAN_VS_HUMAN Difficulty.EASY (stateOf [])).1
      (stateOf ['X', 'X', 'X', 'O', 'O', '6', '7', '8', '9']) (Or.inl rfl)).2.1
        (by decide)).2.2.1 rfl⟩

/-! ## The value of the position after the centre opening -/

/-- The mirror search on the compact grid is sound: when it answers `true`, the minimax value
is at most `0`. -/
theorem Grid.holds_sound (n : Nat) :
    ∀ (s : GameState) (d : Nat) (m : Bool), Grid.holds n (Grid.ofState s) m = true →
      HardAI.minimaxN n s d m ≤ 0 := by
  induction n with
  | zero =>
    intro s d m h
    simp [Grid.holds] at h
  | succ n ih =>
    intro s d m h
    rw [Grid.holds, grid_winO, grid_winX, grid_full] at h
    cases hO : checkWin s 'O'
    · cases hX : checkWin s 'X'
      · cases hD : checkDraw s
        · simp only [hO, hX, hD, Bool.false_eq_true, if_false] at h
          have he := evaluate_zero hX hO
          obtain ⟨e, hex⟩ := exists_empty_of_not_draw hD
          cases m
          · simp only [Bool.false_eq_true, if_false, List.any_eq_true, Bool.and_eq_true,
              grid_isE] at h
            obtain ⟨i, -, hi, hs⟩ := h
            rw [minimaxN_succ_min n s d he hD]
            obtain ⟨hle, -⟩ := fold_min_node (fun i => emptyAt s i = true)
              (fun i => HardAI.minimaxN n (place s i 'X') (d + 1) true) idx9 ⟨e, mem_idx9 e, hex⟩
              (fun j _ _ => lt_of_le_of_lt (minimaxN_range _ _ _ _).2 (by norm_num))
            refine le_trans (hle i (mem_idx9 i) hi) ?_
            apply ih
            rw [grid_place, ofChar_X]
            exact hs
          · simp only [if_true, List.all_eq_true, Bool.or_eq_true, Bool.not_eq_true',
              grid_isE] at h
            rw [minimaxN_succ_max n s d he hD]
            obtain ⟨-, j, -, hj, hF⟩ := fold_max_node (fun i => emptyAt s i = true)
              (fun i => HardAI.minimaxN n (place s i 'O') (d + 1) false) idx9 ⟨e, mem_idx9 e, hex⟩
              (fun j _ _ => lt_of_lt_of_le (by norm_num) (minimaxN_range _ _ _ _).1)
            rw [hF]
            rcases h j (mem_idx9 j) with hc | hc
            · rw [hj] at hc
              exact Bool.noConfusion hc
            · apply ih
              rw [grid_place, ofChar_O]
              exact hc
        · rw [minimaxN_terminal n s d m (Or.inr hD), evaluate_zero hX hO]
      · rw [minimaxN_terminal n s d m (Or.inl (by rw [evaluate_X hX hO]; norm_num)),
          evaluate_X hX hO]
        norm_num
    · simp [hO] at h

theorem grid_centre : Grid.ofState centreState = Grid.centre := by
  decide

theorem grid_centreCorner : Grid.ofState (place centreState 0 'O') = Grid.centreCorner := by
  decide

set_option maxRecDepth 100000 in
/-- With X at the centre and O to move, the mirror search succeeds: O cannot force a win. -/
theorem grid_holds_centre : Grid.holds 10 Grid.centre true = true := by
  decide!

set_option maxRecDepth 100000 in
/-- With X at the centre, O at the top left and X to move, the search succeeds: X cannot force
a win. -/
theorem grid_safe_centreCorner : Grid.safe 10 Grid.centreCorner false = true := by
  decide!

theorem minimax_centre_le : HardAI.minimax centreState 0 true ≤ 0 := by
  apply Grid.holds_sound 10
  rw [grid_centre]
  exact grid_holds_centre

theorem minimax_centreCorner_ge : 0 ≤ HardAI.minimax (place centreState 0 'O') 0 false := by
  apply Grid.safe_sound 10
  rw [grid_centreCorner]
  exact grid_safe_centreCorner

theorem centre_undecided : Undecided centreState := by
  refine ⟨?_, ?_, ?_⟩ <;> decide

theorem minimax_centreCorner : HardAI.minimax (place centreState 0 'O') 0 false = 0 := by
  have h1 := (minimax_max_node centreState 0
    (evaluate_zero centre_undecided.1 centre_undecided.2.1) centre_undecided.2.2).1 0 (by decide)
  have h2 := minimax_centre_le
  have h3 := minimax_centreCorner_ge
  omega

/-- On the board with X at the centre, `HardAI::getMove` answers position 1. -/
theorem hardAI_centre_reply (g : Rand) : (HardAI.getMove centreState g).1 = 1 := by
  obtain ⟨p, hp, hpe, -, hfirst⟩ := hardAI_getMove_spec centreState g ⟨0, by decide⟩
  have hle := (minimax_max_node centreState 0
    (evaluate_zero centre_undecided.1 centre_undecided.2.1) centre_undecided.2.2).1 p hpe
  have h2 := minimax_centre_le
  have h3 := minimax_centreCorner
  have hp0 : p = 0 := by
    by_contra hne
    have hlt : (0 : Fin 9) < p := Fin.pos_iff_ne_zero.mpr hne
    have := hfirst 0 hlt (by decide)
    omega
  rw [hp, hp0]
  rfl

/-! ## Exchanging the marks negates the minimax value -/

theorem swapChar_eq_O (c : Char) : swapChar c = 'O' ↔ c = 'X' := by
  unfold swapChar
  by_cases h1 : c = 'X'
  · simp [h1]
  · by_cases h2 : c = 'O'
    · subst h2
      decide
    · simp [h1, h2]

theorem swapChar_eq_X (c : Char) : swapChar c = 'X' ↔ c = 'O' := by
  unfold swapChar
  by_cases h1 : c = 'X'
  · subst h1
    decide
  · by_cases h2 : c = 'O'
    · simp [h2]
    · simp [h1, h2]

theorem isdigit_swapChar (c : Char) : isdigit (swapChar c) = isdigit c := by
  unfold swapChar
  by_cases h1 : c = 'X'
  · subst h1
    decide
  · by_cases h2 : c = 'O'
    · subst h2
      decide
    · simp [h1, h2]

theorem swapMarks_board (s : GameState) (r c : Fin 3) :
    (swapMarks s).board r c = swapChar (s.board r c) := rfl

theorem checkWin_swap_O (s : GameState) : checkWin (swapMarks s) 'O' = checkWin s 'X' := by
  rw [Bool.eq_iff_iff, checkWin_eq, checkWin_eq]
  simp only [lineOf, swapMarks_board, swapChar_eq_O]

theorem checkWin_swap_X (s : GameState) : checkWin (swapMarks s) 'X' = checkWin s 'O' := by
  rw [Bool.eq_iff_iff, checkWin_eq, checkWin_eq]
  simp only [lineOf, swapMarks_board, swapChar_eq_X]

theorem checkDraw_swap (s : GameState) : checkDraw (swapMarks s) = checkDraw s := by
  rw [Bool.eq_iff_iff, checkDraw_eq, checkDraw_eq]
  simp only [swapMarks_board, isdigit_swapChar]

theorem emptyAt_swap (s : GameState) (i : Fin 9) : emptyAt (swapMarks s) i = emptyAt s i := by
  unfold emptyAt
  rw [swapMarks_board, isdigit_swapChar]

theorem swap_place_board (s : GameState) (i : Fin 9) (v : Char) :
    (swapMarks (place s i v)).board = (place (swapMarks s) i (swapChar v)).board := by
  funext r c
  simp only [swapMarks_board, place, setCell_board]
  split <;> rfl

theorem evaluate_swap (s : GameState)
    (h : ¬ (checkWin s 'X' = true ∧ checkWin s 'O' = true)) :
    HardAI.evaluate (swapMarks s) = - HardAI.evaluate s := by
  unfold HardAI.evaluate
  rw [checkWin_swap_O, checkWin_swap_X]
  cases hX : checkWin s 'X' <;> cases hO : checkWin s 'O' <;> simp
  exact h ⟨hX, hO⟩

theorem foldl_min_neg {α : Type} (P : α → Prop) [DecidablePred P] (f : α → Int) (l : List α)
    (a : Int) :
    l.foldl (fun acc i => if P i then min acc (-(f i)) else acc) (-a) =
      - l.foldl (fun acc i => if P i then max acc (f i) else acc) a := by
  induction l generalizing a with
  | nil => rfl
  | cons b tl ih =>
    simp only [List.foldl_cons]
    by_cases h : P b
    · simp only [h, if_true, min_neg_neg]
      exact ih _
    · simp only [h, if_false]
      exact ih _

theorem foldl_max_neg {α : Type} (P : α → Prop) [DecidablePred P] (f : α → Int) (l : List α)
    (a : Int) :
    l.foldl (fun acc i => if P i then max acc (-(f i)) else acc) (-a) =
      - l.foldl (fun acc i => if P i then min acc (f i) else acc) a := by
  induction l generalizing a with
  | nil => rfl
  | cons b tl ih =>
    simp only [List.foldl_cons]
    by_cases h : P b
    · simp only [h, if_true, max_neg_neg]
      exact ih _
    · simp only [h, if_false]
      exact ih _

/-- On a board where not both marks have a line, the search on the board with the marks
exchanged and the roles exchanged returns the negated value. -/
theorem minimaxN_swap (n : Nat) :
    ∀ (s : GameState) (d e : Nat) (m : Bool),
      ¬ (checkWin s 'X' = true ∧ checkWin s 'O' = true) →
      HardAI.minimaxN n (swapMarks s) d (!m) = - HardAI.minimaxN n s e m := by
  induction n with
  | zero =>
    intro s d e m _
    rfl
  | succ n ih =>
    intro s d e m hnb
    by_cases ht : HardAI.evaluate s ≠ 0 ∨ checkDraw s = true
    · have ht2 : HardAI.evaluate (swapMarks s) ≠ 0 ∨ checkDraw (swapMarks s) = true := by
        rw [evaluate_swap s hnb, checkDraw_swap]
        rcases ht with h | h
        · exact Or.inl (neg_ne_zero.mpr h)
        · exact Or.inr h
      rw [minimaxN_terminal n _ d _ ht2, minimaxN_terminal n s e m ht, evaluate_swap s hnb]
    · have he : HardAI.evaluate s = 0 := by
        by_contra h
        exact ht (Or.inl h)
      have hd : checkDraw s = false := by
        cases hc : checkDraw s
        · rfl
        · exact absurd (Or.inr hc) ht
      have he2 : HardAI.evaluate (swapMarks s) = 0 := by
        rw [evaluate_swap s hnb, he]
        rfl
      have hd2 : checkDraw (swapMarks s) = false := by
        rw [checkDraw_swap]
        exact hd
      have hX : checkWin s 'X' = false := by
        rcases evaluate_cases s with h | h | h
        · rw [he] at h
          exact absurd h.1 (by norm_num)
        · rw [he] at h
          exact absurd h.1 (by norm_num)
        · exact h.2.2
      have hO : checkWin s 'O' = false := by
        rcases evaluate_cases s with h | h | h
        · rw [he] at h
          exact absurd h.1 (by norm_num)
        · exact h.2.1
        · exact h.2.1
      cases m
      · rw [Bool.not_false, minimaxN_succ_max n _ d he2 hd2, minimaxN_succ_min n s e he hd]
        have hfun : (fun (acc : Int) (i : Fin 9) => if emptyAt (swapMarks s) i = true then
            max acc (HardAI.minimaxN n (place (swapMarks s) i 'O') (d + 1) false) else acc) =
            (fun (acc : Int) (i : Fin 9) => if emptyAt s i = true then
            max acc (-(HardAI.minimaxN n (place s i 'X') (e + 1) true)) else acc) := by
          funext acc i
          rw [emptyAt_swap]
          have hc : ¬ (checkWin (place s i 'X') 'X' = true ∧
              checkWin (place s i 'X') 'O' = true) := by
            rintro ⟨-, h2⟩
            rw [checkWin_place_other_false X_ne_O hO] at h2
            exact Bool.noConfusion h2
          have := ih (place s i 'X') (d + 1) (e + 1) true hc
          rw [Bool.not_true, minimaxN_congr n (swap_place_board s i 'X') (d + 1) (d + 1)] at this
          rw [← this]
          rfl
        rw [hfun]
        exact foldl_max_neg (fun i => emptyAt s i = true)
          (fun i => HardAI.minimaxN n (place s i 'X') (e + 1) true) idx9 1000
      · rw [Bool.not_true, minimaxN_succ_min n _ d he2 hd2, minimaxN_succ_max n s e he hd]
        have hfun : (fun (acc : Int) (i : Fin 9) => if emptyAt (swapMarks s) i = true then
            min acc (HardAI.minimaxN n (place (swapMarks s) i 'X') (d + 1) true) else acc) =
            (fun (acc : Int) (i : Fin 9) => if emptyAt s i = true then
            min acc (-(HardAI.minimaxN n (place s i 'O') (e + 1) false)) else acc) := by
          funext acc i
          rw [emptyAt_swap]
          have hc : ¬ (checkWin (place s i 'O') 'X' = true ∧
              checkWin (place s i 'O') 'O' = true) := by
            rintro ⟨h1, -⟩
            rw [checkWin_place_other_false O_ne_X hX] at h1
            exact Bool.noConfusion h1
          have := ih (place s i 'O') (d + 1) (e + 1) false hc
          rw [Bool.not_false, minimaxN_congr n (swap_place_board s i 'O') (d + 1) (d + 1)] at this
          rw [← this]
          rfl
        rw [hfun]
        have hmin := foldl_min_neg (fun i => emptyAt s i = true)
          (fun i => HardAI.minimaxN n (place s i 'O') (e + 1) false) idx9 (-1000)
        rw [neg_neg] at hmin
        exact hmin

/-- The X-side search on an undecided board picks an Empty cell whose value, after X fills it,
is the least possible: the value of the board with X to move. -/
theorem getMoveX_spec (s : GameState) (g : Rand) (hu : Undecided s) :
    ∃ p, emptyAt s p = true ∧ HardAI.getMoveX s g = posOf p ∧
      HardAI.minimax (place s p 'X') 0 true = HardAI.minimax s 0 false := by
  obtain ⟨hle, j, hj, hF⟩ := minimax_min_node s 0 (evaluate_zero hu.1 hu.2.1) hu.2.2
  have hval : ∀ q, HardAI.minimax (place (swapMarks s) q 'O') 0 false =
      - HardAI.minimax (place s q 'X') 0 true := by
    intro q
    have hc : ¬ (checkWin (place s q 'X') 'X' = true ∧
        checkWin (place s q 'X') 'O' = true) := by
      rintro ⟨-, h2⟩
      rw [checkWin_place_other_false X_ne_O hu.2.1] at h2
      exact Bool.noConfusion h2
    have := minimaxN_swap 10 (place s q 'X') 0 0 true hc
    rw [Bool.not_true, minimaxN_congr 10 (swap_place_board s q 'X') 0 0] at this
    exact this
  obtain ⟨p, hp, hpe, hmax, -⟩ := hardAI_getMove_spec (swapMarks s) g
    ⟨j, by rw [emptyAt_swap]; exact hj⟩
  rw [emptyAt_swap] at hpe
  refine ⟨p, hpe, hp, ?_⟩
  have h1 := hmax j (by rw [emptyAt_swap]; exact hj)
  rw [hval, hval] at h1
  have h2 := hle p hpe
  omega

/-- The O-side search on an undecided board picks an Empty cell whose value, after O fills it,
is the greatest possible: the value of the board with O to move. -/
theorem getMove_value (s : GameState) (g : Rand) (hu : Undecided s) :
    ∃ p, emptyAt s p = true ∧ (HardAI.getMove s g).1 = posOf p ∧
      HardAI.minimax (place s p 'O') 0 false = HardAI.minimax s 0 true := by
  obtain ⟨hle, j, hj, hF⟩ := minimax_max_node s 0 (evaluate_zero hu.1 hu.2.1) hu.2.2
  obtain ⟨p, hp, hpe, hmax, -⟩ := hardAI_getMove_spec s g ⟨j, hj⟩
  refine ⟨p, hpe, hp, ?_⟩
  have h1 := hmax j hj
  have h2 := hle p hpe
  omega

/-! ## Both sides playing the search policy: the centre opening ends in a draw -/

theorem searchPlay_ended (n : Nat) (s : GameState) (g : Rand) (h : s.gameEnded = true) :
    searchPlay n s g = some s := by
  cases n <;> simp [searchPlay, h]

theorem searchPlay_body_O (s : GameState) (g : Rand) (hu : Undecided s)
    (hcp : s.currentPlayer = 1) :
    ∃ p, emptyAt s p = true ∧
      HardAI.minimax (place s p 'O') 0 false = HardAI.minimax s 0 true ∧
      searchPlay.body s g = some (conclude (place s p 'O')) := by
  obtain ⟨p, hpe, hp, hv⟩ := getMove_value s g hu
  refine ⟨p, hpe, hv, ?_⟩
  unfold searchPlay.body
  simp only [hcp, if_true, hp, dif_pos (posOf_range p), rowOfPos_posOf, colOfPos_posOf,
    currentMark_O hcp]
  rfl

theorem searchPlay_body_X (s : GameState) (g : Rand) (hu : Undecided s)
    (hcp : s.currentPlayer = 0) :
    ∃ p, emptyAt s p = true ∧
      HardAI.minimax (place s p 'X') 0 true = HardAI.minimax s 0 false ∧
      searchPlay.body s g = some (conclude (place s p 'X')) := by
  obtain ⟨p, hpe, hp, hv⟩ := getMoveX_spec s g hu
  refine ⟨p, hpe, hv, ?_⟩
  unfold searchPlay.body
  have h01 : ¬ ((0 : Int) = 1) := by norm_num
  simp only [hcp, h01, if_false, hp, dif_pos (posOf_range p), rowOfPos_posOf, colOfPos_posOf,
    currentMark_X hcp]
  rfl

/-- From an undecided position of value `0`, the game in which both sides use the search policy
ends, within as many turns as there are Empty cells, on a full board without a line, and only
`draws` is incremented. -/
theorem searchPlay_draw (g : Rand) (n : Nat) :
    ∀ s : GameState, emptyCount s ≤ n → s.gameEnded = false → Undecided s →
      ((s.currentPlayer = 0 ∧ HardAI.minimax s 0 false = 0) ∨
       (s.currentPlayer = 1 ∧ HardAI.minimax s 0 true = 0)) →
      ∃ r, searchPlay n s g = some r ∧ r.gameEnded = true ∧ checkDraw r = true ∧
        checkWin r 'X' = false ∧ checkWin r 'O' = false ∧ talliesAre s r 0 0 1 := by
  induction n with
  | zero =>
    intro s hn _ hu _
    obtain ⟨i, hi⟩ := exists_empty_of_not_draw hu.2.2
    have := emptyCount_place_lt hi isdigit_X
    omega
  | succ n ih =>
    intro s hn hge hu hturn
    have key : ∀ (p : Fin 9) (mark : Char), emptyAt s p = true → isdigit mark = false →
        searchPlay.body s g = some (conclude (place s p mark)) →
        checkWin (place s p mark) (currentMark (place s p mark)) = false →
        checkWin (place s p mark) 'X' = false → checkWin (place s p mark) 'O' = false →
        (((conclude (place s p mark)).currentPlayer = 0 ∧
            HardAI.minimax (conclude (place s p mark)) 0 false = 0) ∨
          ((conclude (place s p mark)).currentPlayer = 1 ∧
            HardAI.minimax (conclude (place s p mark)) 0 true = 0)) →
        ∃ r, searchPlay (n + 1) s g = some r ∧ r.gameEnded = true ∧ checkDraw r = true ∧
          checkWin r 'X' = false ∧ checkWin r 'O' = false ∧ talliesAre s r 0 0 1 := by
      intro p mark hp hmd hbody hm hX hO hnext
      have hs : searchPlay (n + 1) s g = searchPlay n (conclude (place s p mark)) g := by
        rw [searchPlay]
        simp only [hge, Bool.false_eq_true, if_false, hbody]
      rw [hs]
      cases hd : checkDraw (place s p mark)
      · obtain ⟨f1, -, f3, f4, f5⟩ := conclude_continue_fields hm hd
        have hlt := emptyCount_place_lt hp hmd
        obtain ⟨r, h1, h2, h3, h4, h5, h6⟩ := ih (conclude (place s p mark))
          (by rw [emptyCount_congr (conclude_board _)]; omega)
          (by rw [f1]; exact hge)
          ⟨by rw [checkWin_conclude]; exact hX, by rw [checkWin_conclude]; exact hO,
            by rw [checkDraw_conclude]; exact hd⟩
          hnext
        refine ⟨r, h1, h2, h3, h4, h5, ?_⟩
        have e1 : (place s p mark).playerXWins = s.playerXWins := rfl
        have e2 : (place s p mark).playerOWins = s.playerOWins := rfl
        have e3 : (place s p mark).draws = s.draws := rfl
        unfold talliesAre at h6 ⊢
        omega
      · obtain ⟨f1, -, f3, f4, f5⟩ := conclude_draw_fields hm hd
        refine ⟨conclude (place s p mark), searchPlay_ended n _ g f1, f1, ?_, ?_, ?_, ?_⟩
        · rw [checkDraw_conclude]
          exact hd
        · rw [checkWin_conclude]
          exact hX
        · rw [checkWin_conclude]
          exact hO
        · have e1 : (place s p mark).playerXWins = s.playerXWins := rfl
          have e2 : (place s p mark).playerOWins = s.playerOWins := rfl
          have e3 : (place s p mark).draws = s.draws := rfl
          unfold talliesAre
          omega
    rcases hturn with ⟨hcp, hv⟩ | ⟨hcp, hv⟩
    · obtain ⟨p, hp, hval, hbody⟩ := searchPlay_body_X s g hu hcp
      rw [hv] at hval
      have hcpt : (place s p 'X').currentPlayer = 0 := hcp
      have hO : checkWin (place s p 'X') 'O' = false := checkWin_place_other_false X_ne_O hu.2.1
      have hX : checkWin (place s p 'X') 'X' = false := by
        cases hc : checkWin (place s p 'X') 'X'
        · rfl
        · have := minimax_X_won 0 true hc hO
          omega
      have hm : checkWin (place s p 'X') (currentMark (place s p 'X')) = false := by
        rw [currentMark_X hcpt]
        exact hX
      refine key p 'X' hp isdigit_X hbody hm hX hO ?_
      cases hd : checkDraw (place s p 'X')
      · obtain ⟨-, f2, -⟩ := conclude_continue_fields hm hd
        right
        refine ⟨by rw [f2, hcpt]; rfl, ?_⟩
        rw [minimax_congr (conclude_board _) 0 0]
        exact hval
      · obtain ⟨-, f2, -⟩ := conclude_draw_fields hm hd
        left
        refine ⟨by rw [f2]; exact hcpt, ?_⟩
        rw [minimax_congr (conclude_board _) 0 0]
        exact minimax_full 0 false hX hO hd
    · obtain ⟨p, hp, hval, hbody⟩ := searchPlay_body_O s g hu hcp
      rw [hv] at hval
      have hcpt : (place s p 'O').currentPlayer = 1 := hcp
      have hX : checkWin (place s p 'O') 'X' = false := checkWin_place_other_false O_ne_X hu.1
      have hO : checkWin (place s p 'O') 'O' = false := by
        cases hc : checkWin (place s p 'O') 'O'
        · rfl
        · have := minimax_O_won 0 false hc
          omega
      have hm : checkWin (place s p 'O') (currentMark (place s p 'O')) = false := by
        rw [currentMark_O hcpt]
        exact hO
      refine key p 'O' hp isdigit_O hbody hm hX hO ?_
      cases hd : checkDraw (place s p 'O')
      · obtain ⟨-, f2, -⟩ := conclude_continue_fields hm hd
        left
        refine ⟨by rw [f2, hcpt]; rfl, ?_⟩
        rw [minimax_congr (conclude_board _) 0 0]
        exact hval
      · obtain ⟨-, f2, -⟩ := conclude_draw_fields hm hd
        right
        refine ⟨by rw [f2]; exact hcpt, ?_⟩
        rw [minimax_congr (conclude_board _) 0 0]
        exact minimax_full 0 true hX hO hd

/-- C12: on the board with X at the centre and every other cell Empty, `HardAI::getMove`
answers position 1, a corner; and the game continued from that reply, O moving where
`HardAI::getMove` says and X where the same search with the marks exchanged says, ends within
the seven remaining turns on a full board on which neither mark has a line, with only `draws`
incremented. -/
theorem centre_opening_draw (g : Rand) :
    (HardAI.getMove centreState g).1 = 1 ∧
    ∃ r, searchPlay 7 (conclude (place centreState 0 'O')) g = some r ∧
      r.gameEnded = true ∧ (∀ i j : Fin 3, isdigit (r.board i j) = false) ∧
      checkWin r 'X' = false ∧ checkWin r 'O' = false ∧
      r.draws = centreState.draws + 1 ∧ r.playerXWins = centreState.playerXWins ∧
      r.playerOWins = centreState.playerOWins := by
  refine ⟨hardAI_centre_reply g, ?_⟩
  have hb := conclude_board (place centreState 0 'O')
  obtain ⟨r, h1, h2, h3, h4, h5, h6⟩ := searchPlay_draw g 7 (conclude (place centreState 0 'O'))
    (by rw [emptyCount_congr hb]; decide) (by decide)
    ⟨by rw [checkWin_congr hb]; decide, by rw [checkWin_congr hb]; decide,
      by rw [checkDraw_congr hb]; decide⟩
    (Or.inl ⟨by decide, by rw [minimax_congr hb 0 0]; exact minimax_centreCorner⟩)
  refine ⟨r, h1, h2, (checkDraw_eq r).mp h3, h4, h5, ?_⟩
  have e1 : (conclude (place centreState 0 'O')).draws = centreState.draws := by decide
  have e2 : (conclude (place centreState 0 'O')).playerXWins = centreState.playerXWins := by
    decide
  have e3 : (conclude (place centreState 0 'O')).playerOWins = centreState.playerOWins := by
    decide
  unfold talliesAre at h6
  omega

end TicTacToe
